import Mathlib

/-!
# Verification of the RFP discovery pipeline

A shallow embedding, in Lean 4, of the discovery subsystem of the RFP
platform: the fuzzy deduplication matcher, the URL canonicalizer, the URL
validator's content-type classifier, the research agent's bounded step
loop, the PDF key generator, and the scheduler's search phase.

Go strings are byte sequences; we model them as `List Nat` (one entry per
byte) and implement the Go string operations (`strings.Contains`,
`strings.ToLower`, `strings.TrimSpace`, ...) at the byte level with ASCII
semantics.  Floating-point scores are modelled with exact rationals.
Network, database and LLM effects are supplied by explicit environment
records; crypto hashes are abstracted as function parameters.
-/

set_option maxRecDepth 100000

namespace RfpVerify

/-- Go strings are byte slices; a byte string is a list of byte values. -/
abbrev Str := List Nat

/-- Converts a Lean string literal to a byte string (ASCII code points). -/
def bs (s : String) : Str := s.data.map Char.toNat

/-- ASCII lower-casing of one byte, as `strings.ToLower` acts on ASCII. -/
def lowerByte (b : Nat) : Nat := if 65 ≤ b ∧ b ≤ 90 then b + 32 else b

/-- ASCII upper-casing of one byte. -/
def upperByte (b : Nat) : Nat := if 97 ≤ b ∧ b ≤ 122 then b - 32 else b

/-- `strings.ToLower` (ASCII fragment). -/
def toLowerB (s : Str) : Str := s.map lowerByte

/-- `strings.ToUpper` (ASCII fragment). -/
def toUpperB (s : Str) : Str := s.map upperByte

/-- ASCII white-space test (space, TAB, LF, VT, FF, CR), as `unicode.IsSpace`
restricted to ASCII. -/
def isSpaceB (b : Nat) : Bool := b = 32 ∨ b = 9 ∨ b = 10 ∨ b = 11 ∨ b = 12 ∨ b = 13

/-- `strings.TrimSpace` on byte strings. -/
def trimSpaceB (s : Str) : Str :=
  ((s.dropWhile isSpaceB).reverse.dropWhile isSpaceB).reverse

/-- `strings.HasPrefix`. -/
def startsWithB : Str → Str → Bool
  | _, [] => true
  | [], _ :: _ => false
  | a :: s, b :: p => a = b && startsWithB s p

/-- `strings.HasSuffix`. -/
def endsWithB (s p : Str) : Bool := startsWithB s.reverse p.reverse

/-- `strings.Contains` (substring containment). -/
def containsB : Str → Str → Bool
  | s, sub =>
    if startsWithB s sub then true
    else match s with
      | [] => false
      | _ :: t => containsB t sub

/-- `strings.Index`: byte offset of the first occurrence of `sub`, or `none`. -/
def indexOfB : Str → Str → Option Nat
  | s, sub =>
    if startsWithB s sub then some 0
    else match s with
      | [] => none
      | _ :: t => (indexOfB t sub).map (· + 1)

/-- `strings.TrimRight` with a set of cut bytes. -/
def trimRightAnyB (s : Str) (cut : List Nat) : Str :=
  (s.reverse.dropWhile (fun b => cut.contains b)).reverse

/-- `strings.TrimSuffix`. -/
def trimSuffixB (s p : Str) : Str :=
  if endsWithB s p then s.take (s.length - p.length) else s

/-- Cuts `s` at the first occurrence of byte `c`: returns the part before
and, when `c` occurs, the part after it (Go `strings.Cut` on one byte). -/
def cutByteB : Str → Nat → Str × Option Str
  | [], _ => ([], none)
  | b :: t, c =>
    if b = c then ([], some t)
    else
      let r := cutByteB t c
      (b :: r.1, r.2)

/-- Splits on a separator byte (Go `strings.Split` with a 1-byte separator). -/
def splitOnByteB : Str → Nat → List Str
  | [], _ => [[]]
  | b :: t, c =>
    if b = c then [] :: splitOnByteB t c
    else
      match splitOnByteB t c with
      | [] => [[b]]
      | h :: r => (b :: h) :: r

/-! ## Dates

The dedup package uses `time.Parse` / `time.Format` with the reference
layouts listed in `dateFormats`, and `time.Time.Sub` for the ±3-day
tolerance.  We model a calendar date (the only part of `time.Time` the
package exercises: all parsed times are midnight UTC). -/

/-- A calendar date as carried by a parsed `time.Time`. -/
structure GoDate where
  year : Nat
  month : Nat
  day : Nat
deriving DecidableEq, Repr

/-- Gregorian leap-year rule. -/
def isLeapYear (y : Nat) : Bool := y % 4 = 0 ∧ (y % 100 ≠ 0 ∨ y % 400 = 0)

/-- Number of days in a month. -/
def daysInMonth (y m : Nat) : Nat :=
  if m = 2 then (if isLeapYear y then 29 else 28)
  else if m = 4 ∨ m = 6 ∨ m = 9 ∨ m = 11 then 30
  else 31

/-- A date `time.Parse` can return for the formats in play (positive years
up to 9999; month and day ranges checked by the parser itself). -/
def validDate (d : GoDate) : Prop :=
  1 ≤ d.year ∧ d.year ≤ 9999 ∧ 1 ≤ d.month ∧ d.month ≤ 12 ∧
    1 ≤ d.day ∧ d.day ≤ daysInMonth d.year d.month

instance (d : GoDate) : Decidable (validDate d) := by
  unfold validDate; infer_instance

/-- Zero-padded two-digit decimal rendering (Go `%02d` for values < 100). -/
def pad2 (n : Nat) : Str := [48 + n / 10 % 10, 48 + n % 10]

/-- Zero-padded four-digit decimal rendering (Go year rendering for
`0 ≤ year ≤ 9999`). -/
def pad4 (n : Nat) : Str :=
  [48 + n / 1000 % 10, 48 + n / 100 % 10, 48 + n / 10 % 10, 48 + n % 10]

/-- `t.Format("2006-01-02")`. -/
def formatDate (d : GoDate) : Str := pad4 d.year ++ [45] ++ pad2 d.month ++ [45] ++ pad2 d.day

/-- ASCII digit test. -/
def isDigitB (b : Nat) : Bool := 48 ≤ b ∧ b ≤ 57

/-- Reads exactly `k` leading digits as a number, returning the remainder. -/
def readFixedNat : Nat → Str → Option (Nat × Str)
  | 0, s => some (0, s)
  | k + 1, [] => (k + 1) |> fun _ => none
  | k + 1, b :: t =>
    if isDigitB b then
      (readFixedNat k t).bind fun (n, rest) => some ((b - 48) * 10 ^ k + n, rest)
    else none

/-- Reads one or two leading digits (Go `getnum` with `fixed = false`). -/
def readFlexNat (s : Str) : Option (Nat × Str) :=
  match s with
  | [] => none
  | b :: t =>
    if isDigitB b then
      match t with
      | b2 :: t2 => if isDigitB b2 then some ((b - 48) * 10 + (b2 - 48), t2) else some (b - 48, t)
      | [] => some (b - 48, [])
    else none

/-- Expects the literal byte `c` at the head. -/
def expectByte (c : Nat) (s : Str) : Option Str :=
  match s with
  | [] => none
  | b :: t => if b = c then some t else none

/-- Range validation `time.Parse` performs after reading the fields. -/
def mkValidDate (y m d : Nat) : Option GoDate :=
  if 1 ≤ m ∧ m ≤ 12 ∧ 1 ≤ d ∧ d ≤ daysInMonth y m then some ⟨y, m, d⟩ else none

/-- `time.Parse("2006-01-02", s)` (dates only, positive 4-digit years). -/
def parseDateISO (s : Str) : Option GoDate :=
  (readFixedNat 4 s).bind fun (y, r1) =>
  (expectByte 45 r1).bind fun r2 =>
  (readFixedNat 2 r2).bind fun (m, r3) =>
  (expectByte 45 r3).bind fun r4 =>
  (readFixedNat 2 r4).bind fun (d, r5) =>
  if r5 = [] then mkValidDate y m d else none

/-- `time.Parse("2006/01/02", s)`. -/
def parseDateYMDSlash (s : Str) : Option GoDate :=
  (readFixedNat 4 s).bind fun (y, r1) =>
  (expectByte 47 r1).bind fun r2 =>
  (readFixedNat 2 r2).bind fun (m, r3) =>
  (expectByte 47 r3).bind fun r4 =>
  (readFixedNat 2 r4).bind fun (d, r5) =>
  if r5 = [] then mkValidDate y m d else none

/-- `time.Parse("01/02/2006", s)` (zero-padded month and day). -/
def parseDateMDYSlash (s : Str) : Option GoDate :=
  (readFixedNat 2 s).bind fun (m, r1) =>
  (expectByte 47 r1).bind fun r2 =>
  (readFixedNat 2 r2).bind fun (d, r3) =>
  (expectByte 47 r3).bind fun r4 =>
  (readFixedNat 4 r4).bind fun (y, r5) =>
  if r5 = [] then mkValidDate y m d else none

/-- `time.Parse("1/2/2006", s)` (one- or two-digit month and day). -/
def parseDateMDYFlex (s : Str) : Option GoDate :=
  (readFlexNat s).bind fun (m, r1) =>
  (expectByte 47 r1).bind fun r2 =>
  (readFlexNat r2).bind fun (d, r3) =>
  (expectByte 47 r3).bind fun r4 =>
  (readFixedNat 4 r4).bind fun (y, r5) =>
  if r5 = [] then mkValidDate y m d else none

/-- Full month names, in `time`'s order. -/
def longMonthNames : List Str :=
  [bs "January", bs "February", bs "March", bs "April", bs "May", bs "June",
   bs "July", bs "August", bs "September", bs "October", bs "November", bs "December"]

/-- Abbreviated month names. -/
def shortMonthNames : List Str :=
  [bs "Jan", bs "Feb", bs "Mar", bs "Apr", bs "May", bs "Jun",
   bs "Jul", bs "Aug", bs "Sep", bs "Oct", bs "Nov", bs "Dec"]

/-- `time`'s `lookup`: case-insensitive prefix match against a name table,
first hit wins; returns the 1-based index and the remainder. -/
def lookupName (names : List Str) (s : Str) (idx : Nat) : Option (Nat × Str) :=
  match names with
  | [] => none
  | n :: rest =>
    if toLowerB (s.take n.length) = toLowerB n ∧ s.length ≥ n.length then
      some (idx, s.drop n.length)
    else lookupName rest s (idx + 1)

/-- `time.Parse("January 2, 2006", s)`. -/
def parseDateLongMDY (s : Str) : Option GoDate :=
  (lookupName longMonthNames s 1).bind fun (m, r1) =>
  (expectByte 32 r1).bind fun r2 =>
  (readFlexNat r2).bind fun (d, r3) =>
  (expectByte 44 r3).bind fun r4 =>
  (expectByte 32 r4).bind fun r5 =>
  (readFixedNat 4 r5).bind fun (y, r6) =>
  if r6 = [] then mkValidDate y m d else none

/-- `time.Parse("Jan 2, 2006", s)`. -/
def parseDateShortMDY (s : Str) : Option GoDate :=
  (lookupName shortMonthNames s 1).bind fun (m, r1) =>
  (expectByte 32 r1).bind fun r2 =>
  (readFlexNat r2).bind fun (d, r3) =>
  (expectByte 44 r3).bind fun r4 =>
  (expectByte 32 r4).bind fun r5 =>
  (readFixedNat 4 r5).bind fun (y, r6) =>
  if r6 = [] then mkValidDate y m d else none

/-- `time.Parse("2 January 2006", s)`. -/
def parseDateDMYLong (s : Str) : Option GoDate :=
  (readFlexNat s).bind fun (d, r1) =>
  (expectByte 32 r1).bind fun r2 =>
  (lookupName longMonthNames r2 1).bind fun (m, r3) =>
  (expectByte 32 r3).bind fun r4 =>
  (readFixedNat 4 r4).bind fun (y, r5) =>
  if r5 = [] then mkValidDate y m d else none

/-- The layouts tried by `NormalizeDate`, in source order. -/
def dateFormats : List (Str → Option GoDate) :=
  [parseDateISO, parseDateMDYSlash, parseDateMDYFlex, parseDateLongMDY,
   parseDateShortMDY, parseDateDMYLong, parseDateYMDSlash]

/-- First layout that parses, as the `for _, format := range dateFormats`
loop in `NormalizeDate`. -/
def tryFormats : List (Str → Option GoDate) → Str → Option GoDate
  | [], _ => none
  | f :: rest, s =>
    match f s with
    | some d => some d
    | none => tryFormats rest s

/-- `NormalizeDate`: normalizes a date string to `YYYY-MM-DD`, or returns
the empty string. -/
def NormalizeDate (date : Str) : Str :=
  if date = [] then []
  else
    match tryFormats dateFormats (trimSpaceB date) with
    | some d => formatDate d
    | none => []

/-! ## Fuzzy dedup matcher (`discovery/internal/dedup`) -/

/-- The character class `\s` of Go's regexp package (no vertical tab). -/
def isRegexSpaceB (b : Nat) : Bool := b = 9 ∨ b = 10 ∨ b = 12 ∨ b = 13 ∨ b = 32

/-- Agency name lead-ins removed by `NormalizeAgency`. -/
def agencyPrefixes : List Str :=
  [bs "city of", bs "town of", bs "county of", bs "state of", bs "village of"]

/-- The prefix-removal loop of `NormalizeAgency` (first hit wins, then break). -/
def stripAgencyLead (s : Str) : List Str → Str
  | [] => s
  | p :: rest =>
    if startsWithB s (p ++ [32]) then trimSpaceB (s.drop (p.length + 1))
    else stripAgencyLead s rest

/-- The words accepted by the `"Tampa, City of"` rewrite pattern. -/
def commaAgencyWords : List Str := [bs "city", bs "town", bs "county", bs "village"]

/-- Matches `\s*(city|town|county|village)\s+of` against the whole of `s`. -/
def commaAgencyTail (s : Str) : Bool :=
  let r := s.dropWhile isRegexSpaceB
  commaAgencyWords.any fun w =>
    startsWithB r w &&
      (let r2 := r.drop w.length
       decide (r2.takeWhile isRegexSpaceB ≠ []) && r2.dropWhile isRegexSpaceB = bs "of")

/-- The anchored pattern `^([^,]+),\s*(city|town|county|village)\s+of$`:
returns the first capture group when the whole string matches. -/
def matchCommaAgency (s : Str) : Option Str :=
  match cutByteB s 44 with
  | (_, none) => none
  | (pre, some post) =>
    if pre ≠ [] ∧ commaAgencyTail post then some pre else none

/-- Keeps the bytes of the class `[a-z0-9\s]` (the others are deleted). -/
def keepAgencyByte (b : Nat) : Bool :=
  (97 ≤ b ∧ b ≤ 122) ∨ (48 ≤ b ∧ b ≤ 57) ∨ isRegexSpaceB b

/-- Replaces every run of `\s+` with a single space. -/
def collapseSpacesB : Str → Str
  | [] => []
  | b :: t =>
    let r := collapseSpacesB t
    if isRegexSpaceB b then
      match r with
      | 32 :: _ => r
      | _ => 32 :: r
    else b :: r

/-- `NormalizeAgency`: normalizes an agency name for comparison. -/
def NormalizeAgency (agency : Str) : Str :=
  let n1 := toLowerB (trimSpaceB agency)
  let n2 := stripAgencyLead n1 agencyPrefixes
  let n3 := match matchCommaAgency n2 with
    | some grp => trimSpaceB grp
    | none => n2
  let n4 := n3.filter keepAgencyByte
  trimSpaceB (collapseSpacesB n4)

/-- The full-state-name table of the dedup package. -/
def stateNames : List (Str × Str) :=
  [(bs "ALABAMA", bs "AL"), (bs "ALASKA", bs "AK"), (bs "ARIZONA", bs "AZ"),
   (bs "ARKANSAS", bs "AR"), (bs "CALIFORNIA", bs "CA"), (bs "COLORADO", bs "CO"),
   (bs "CONNECTICUT", bs "CT"), (bs "DELAWARE", bs "DE"), (bs "FLORIDA", bs "FL"),
   (bs "GEORGIA", bs "GA"), (bs "HAWAII", bs "HI"), (bs "IDAHO", bs "ID"),
   (bs "ILLINOIS", bs "IL"), (bs "INDIANA", bs "IN"), (bs "IOWA", bs "IA"),
   (bs "KANSAS", bs "KS"), (bs "KENTUCKY", bs "KY"), (bs "LOUISIANA", bs "LA"),
   (bs "MAINE", bs "ME"), (bs "MARYLAND", bs "MD"), (bs "MASSACHUSETTS", bs "MA"),
   (bs "MICHIGAN", bs "MI"), (bs "MINNESOTA", bs "MN"), (bs "MISSISSIPPI", bs "MS"),
   (bs "MISSOURI", bs "MO"), (bs "MONTANA", bs "MT"), (bs "NEBRASKA", bs "NE"),
   (bs "NEVADA", bs "NV"), (bs "NEW HAMPSHIRE", bs "NH"), (bs "NEW JERSEY", bs "NJ"),
   (bs "NEW MEXICO", bs "NM"), (bs "NEW YORK", bs "NY"), (bs "NORTH CAROLINA", bs "NC"),
   (bs "NORTH DAKOTA", bs "ND"), (bs "OHIO", bs "OH"), (bs "OKLAHOMA", bs "OK"),
   (bs "OREGON", bs "OR"), (bs "PENNSYLVANIA", bs "PA"), (bs "RHODE ISLAND", bs "RI"),
   (bs "SOUTH CAROLINA", bs "SC"), (bs "SOUTH DAKOTA", bs "SD"), (bs "TENNESSEE", bs "TN"),
   (bs "TEXAS", bs "TX"), (bs "UTAH", bs "UT"), (bs "VERMONT", bs "VT"),
   (bs "VIRGINIA", bs "VA"), (bs "WASHINGTON", bs "WA"), (bs "WEST VIRGINIA", bs "WV"),
   (bs "WISCONSIN", bs "WI"), (bs "WYOMING", bs "WY"),
   (bs "DISTRICT OF COLUMBIA", bs "DC")]

/-- Association-list lookup (the Go map read `stateNames[state]`). -/
def lookupAssoc : List (Str × Str) → Str → Option Str
  | [], _ => none
  | (k, v) :: rest, s => if k = s then some v else lookupAssoc rest s

/-- ASCII upper-case letter test (`[A-Z]`). -/
def isUpperAlphaB (b : Nat) : Bool := 65 ≤ b ∧ b ≤ 90

/-- `NormalizeState`: normalizes a state to its 2-letter code, or empty. -/
def NormalizeState (state : Str) : Str :=
  if state = [] then []
  else
    let st := toUpperB (trimSpaceB state)
    if st.length = 2 ∧ st.all isUpperAlphaB then st
    else
      match lookupAssoc stateNames st with
      | some code => code
      | none => []

/-- One inner cell pass of the Levenshtein matrix fill: walks the remaining
column characters with the matching slice of the previous row, carrying the
diagonal and the freshly computed left neighbour. -/
def levCells (ca : Nat) : Str → List Nat → Nat → Nat → List Nat
  | [], _, _, _ => []
  | _, [], _, _ => []
  | cb :: bt, up :: pvt, diag, left =>
    let cost := if ca = cb then 0 else 1
    let cur := min (min (up + 1) (left + 1)) (diag + cost)
    cur :: levCells ca bt pvt up cur

/-- Builds matrix row `i` from row `i-1`. -/
def levRow (ca : Nat) (b : Str) (prev : List Nat) (i : Nat) : List Nat :=
  match prev with
  | [] => [i]
  | diag0 :: rest => i :: levCells ca b rest diag0 i

/-- Fills the remaining rows of the matrix. -/
def levRows (b : Str) : Str → List Nat → Nat → List Nat
  | [], prev, _ => prev
  | ca :: at2, prev, i => levRows b at2 (levRow ca b prev i) (i + 1)

/-- The `levenshtein` distance function of the dedup package (byte-level
dynamic programming over a `(len a + 1) × (len b + 1)` matrix). -/
def levenshtein (a b : Str) : Nat :=
  if a = [] then b.length
  else if b = [] then a.length
  else (levRows b a (List.range (b.length + 1)) 1).getLastD 0

/-- `AgencyMatches`: fuzzy agency-name comparison (exact, containment, or
Levenshtein similarity `1 - distance/maxLen ≥ 0.80`; the real-arithmetic
inequality is taken exact and cross-multiplied: `5·(maxLen − distance) ≥
4·maxLen`). -/
def AgencyMatches (a b : Str) : Bool :=
  if a = [] ∨ b = [] then false
  else if a = b then true
  else if containsB a b || containsB b a then true
  else
    let distance := levenshtein a b
    let maxLen := max a.length b.length
    decide (5 * ((maxLen : Int) - (distance : Int)) ≥ 4 * (maxLen : Int))

/-- Day number of a (valid, positive) date, for `time.Time.Sub` on
midnight-UTC dates expressed in whole days. -/
def rataDie (d : GoDate) : Nat :=
  let y := d.year - 1
  let beforeMonth :=
    [0, 31, 59, 90, 120, 151, 181, 212, 243, 273, 304, 334].getD (d.month - 1) 0
  let leapAdj := if 3 ≤ d.month ∧ isLeapYear d.year then 1 else 0
  365 * y + y / 4 - y / 100 + y / 400 + beforeMonth + leapAdj + d.day

/-- `DatesMatch`: two `YYYY-MM-DD` strings match when equal or within the
3-day tolerance. -/
def DatesMatch (date1 date2 : Str) : Bool :=
  if date1 = date2 then true
  else
    match parseDateISO date1, parseDateISO date2 with
    | some t1, some t2 => ((rataDie t1 : Int) - (rataDie t2 : Int)).natAbs ≤ 3
    | _, _ => false

/-- The fields of `models.RFP` the dedup matcher reads. -/
structure RFP where
  ID : Int
  Title : Str
  Agency : Str
  State : Str
  DueDate : Option GoDate
deriving DecidableEq, Repr

/-- Match scores are exact rationals with denominator 100; we carry them as
integer hundredths: the weights 0.5 / 0.2 / 0.3 are 50 / 20 / 30, the 0.70
threshold is 70. -/
abbrev Score := Nat

/-- `MatchThreshold = 0.7`, in hundredths. -/
def MatchThreshold : Score := 70

/-- `dedup.MatchResult` (score in hundredths). -/
structure MatchResult where
  FoundMatch : Bool
  MatchedRFPID : Int
  MatchedRFPTitle : Str
  MatchScore : Score
  Reason : Str
  CandidatesChecked : Nat
deriving DecidableEq, Repr

/-- `calculateMatchScore`: weighted agency/state/date score of one RFP
against normalized hints (agency 0.5, state 0.2, date 0.3; partial agency
0.5·0.8 = 0.4; missing-hint credits 0.1 and 0.15). -/
def calculateMatchScore (rfp : RFP) (agency state date : Str) : Score :=
  let rfpAgency := NormalizeAgency rfp.Agency
  if rfpAgency ≠ agency ∧ ¬AgencyMatches rfpAgency agency then 0
  else
    let agencyScore : Score := if rfpAgency = agency then 50 else 40
    let stateScore : Score :=
      if state ≠ [] then (if NormalizeState rfp.State = state then 20 else 0)
      else 10
    let dateScore : Score :=
      match rfp.DueDate with
      | some dd =>
        if date ≠ [] then (if DatesMatch date (formatDate dd) then 30 else 0)
        else 15
      | none => if date = [] then 15 else 0
    agencyScore + stateScore + dateScore

/-- `findCandidates`: state filter plus fuzzy agency pre-match. -/
def findCandidates (rfps : List RFP) (normalizedAgency state : Str) : List RFP :=
  rfps.filter fun rfp =>
    decide (¬(state ≠ [] ∧ rfp.State ≠ [] ∧ rfp.State ≠ state)) &&
      AgencyMatches normalizedAgency (NormalizeAgency rfp.Agency)

/-- The candidate loop of `CheckDuplicate`: keeps the best (strictly
greater) score at or above the threshold. -/
def checkLoop (agency state date : Str) :
    List RFP → Option RFP × Score → Option RFP × Score
  | [], acc => acc
  | c :: t, (bm, bsc) =>
    let sc := calculateMatchScore c agency state date
    if sc > bsc ∧ sc ≥ MatchThreshold then checkLoop agency state date t (some c, sc)
    else checkLoop agency state date t (bm, bsc)

/-- `Matcher.CheckDuplicate` over the matcher's RFP corpus. -/
def CheckDuplicate (existingRFPs : List RFP) (agency state dueDate : Str) : MatchResult :=
  if agency = [] then
    { FoundMatch := false, MatchedRFPID := 0, MatchedRFPTitle := [],
      MatchScore := 0, Reason := bs "No agency hint available", CandidatesChecked := 0 }
  else
    let normalizedAgency := NormalizeAgency agency
    let normalizedState := NormalizeState state
    let normalizedDate := NormalizeDate dueDate
    let candidates := findCandidates existingRFPs normalizedAgency normalizedState
    match checkLoop normalizedAgency normalizedState normalizedDate candidates (none, 0) with
    | (some best, bestScore) =>
      { FoundMatch := true, MatchedRFPID := best.ID, MatchedRFPTitle := best.Title,
        MatchScore := bestScore, Reason := [], CandidatesChecked := candidates.length }
    | (none, _) =>
      { FoundMatch := false, MatchedRFPID := 0, MatchedRFPTitle := [],
        MatchScore := 0, Reason := bs "No matching RFP found",
        CandidatesChecked := candidates.length }

/-- The two-RFP corpus of the package's own `TestMatcher_CheckDuplicate`. -/
def testCorpus : List RFP :=
  [{ ID := 1, Title := bs "Parking Management Services",
     Agency := bs "City of Springfield", State := bs "IL",
     DueDate := some ⟨2024, 1, 15⟩ },
   { ID := 2, Title := bs "Street Parking Operations",
     Agency := bs "City of Chicago", State := bs "IL", DueDate := none }]

/-! ## URLs (the `net/url` fragment used by the canonicalizer)

The model keeps the components raw (no percent-decoding of path, host or
fragment; userinfo is not separated from the host), which matches the Go
behaviour on the URLs the pipeline handles; query strings are decoded and
re-encoded exactly as `url.Values` does. -/

/-- The `url.URL` components the canonicalizer reads and writes. -/
structure GoURL where
  scheme : Str
  host : Str
  path : Str
  rawQuery : Str
  fragment : Str
deriving DecidableEq, Repr

/-- ASCII letter test. -/
def isAlphaB (b : Nat) : Bool := (65 ≤ b ∧ b ≤ 90) ∨ (97 ≤ b ∧ b ≤ 122)

/-- Scheme scanner (`getscheme`): `none` is a parse error (`:` first);
otherwise the scheme found (possibly empty) and the remainder. -/
def getSchemeAux (orig : Str) : Str → Str → Bool → Option (Str × Str)
  | [], _, _ => some ([], orig)
  | b :: t, acc, first =>
    if isAlphaB b then getSchemeAux orig t (acc ++ [b]) false
    else if first then (if b = 58 then none else some ([], orig))
    else if isDigitB b ∨ b = 43 ∨ b = 45 ∨ b = 46 then getSchemeAux orig t (acc ++ [b]) false
    else if b = 58 then some (acc, t)
    else some ([], orig)

/-- Splits a URL into scheme and remainder per `getscheme`. -/
def getScheme (s : Str) : Option (Str × Str) := getSchemeAux s s [] true

/-- `url.Parse`: fragment is cut at the first `#`, the query at the first
`?`, then scheme and `//`-authority are read; an authority ends at the
next `/`.  A URL without a `//`-authority parses with an empty host. -/
def urlParse (s : Str) : Option GoURL :=
  let fragCut := cutByteB s 35
  let frag := fragCut.2.getD []
  let queryCut := cutByteB fragCut.1 63
  let query := queryCut.2.getD []
  match getScheme queryCut.1 with
  | none => none
  | some (scheme, rest) =>
    if startsWithB rest (bs "//") then
      let rest2 := rest.drop 2
      let authCut := cutByteB rest2 47
      match authCut.2 with
      | some p => some ⟨scheme, authCut.1, 47 :: p, query, frag⟩
      | none => some ⟨scheme, authCut.1, [], query, frag⟩
    else
      some ⟨scheme, [], rest, query, frag⟩

/-- `validOptionalPort`: empty, or `:` followed by digits. -/
def validOptionalPortB (p : Str) : Bool :=
  match p with
  | [] => true
  | b :: t => b = 58 && t.all isDigitB

/-- Byte offset of the last occurrence of `c`, if any. -/
def lastIndexByteB (s : Str) (c : Nat) : Option Nat :=
  (indexOfB s.reverse [c]).map (fun i => s.length - 1 - i)

/-- `splitHostPort`: splits a valid trailing `:port` off and unwraps a
bracketed IPv6 literal. -/
def splitHostPort (hostPort : Str) : Str × Str :=
  let step1 :=
    match lastIndexByteB hostPort 58 with
    | some colon =>
      if validOptionalPortB (hostPort.drop colon) then
        (hostPort.take colon, hostPort.drop (colon + 1))
      else (hostPort, [])
    | none => (hostPort, [])
  let h := step1.1
  if startsWithB h [91] ∧ endsWithB h [93] then
    ((h.drop 1).take (h.length - 2), step1.2)
  else step1

/-- `URL.Port()`. -/
def portOf (host : Str) : Str := (splitHostPort host).2

/-- `URL.Hostname()`. -/
def hostnameOf (host : Str) : Str := (splitHostPort host).1

/-- Bytes `QueryEscape` leaves unescaped (RFC 3986 unreserved). -/
def isUnreservedB (b : Nat) : Bool :=
  isAlphaB b ∨ isDigitB b ∨ b = 45 ∨ b = 95 ∨ b = 46 ∨ b = 126

/-- Upper-case hexadecimal digit of a value below 16. -/
def hexDigitUpper (n : Nat) : Nat := if n < 10 then 48 + n else 55 + n

/-- `url.QueryEscape` on one byte: unreserved bytes kept, space to `+`,
anything else `%XX`. -/
def queryEscapeByte (b : Nat) : Str :=
  if isUnreservedB b then [b]
  else if b = 32 then [43]
  else [37, hexDigitUpper (b / 16 % 16), hexDigitUpper (b % 16)]

/-- `url.QueryEscape`. -/
def queryEscape (s : Str) : Str := s.flatMap queryEscapeByte

/-- Value of one hexadecimal digit byte. -/
def hexVal (b : Nat) : Option Nat :=
  if 48 ≤ b ∧ b ≤ 57 then some (b - 48)
  else if 65 ≤ b ∧ b ≤ 70 then some (b - 55)
  else if 97 ≤ b ∧ b ≤ 102 then some (b - 87)
  else none

/-- `url.QueryUnescape`: decodes `%XX` and `+`; `none` on a malformed
escape. -/
def queryUnescape : Str → Option Str
  | [] => some []
  | b :: t =>
    if b = 37 then
      match t with
      | x :: y :: t2 =>
        (hexVal x).bind fun hx =>
        (hexVal y).bind fun hy =>
        (queryUnescape t2).map fun r => (16 * hx + hy) :: r
      | _ => none
    else if b = 43 then (queryUnescape t).map (32 :: ·)
    else (queryUnescape t).map (b :: ·)

/-- `url.ParseQuery`, as the ordered list of decoded key/value pairs the
`url.Values` map accumulates (pieces with `;` or bad escapes are skipped,
exactly as `URL.Query()` ignores the error). -/
def parseQueryPairs (q : Str) : List (Str × Str) :=
  if q = [] then []
  else
    (splitOnByteB q 38).filterMap fun piece =>
      if piece = [] then none
      else if containsB piece [59] then none
      else
        let kv := cutByteB piece 61
        match queryUnescape kv.1, queryUnescape (kv.2.getD []) with
        | some k, some v => some (k, v)
        | _, _ => none

/-- Go string order (lexicographic on bytes). -/
def ltStrB : Str → Str → Bool
  | [], [] => false
  | [], _ :: _ => true
  | _ :: _, [] => false
  | a :: s, b :: t => if a < b then true else if b < a then false else ltStrB s t

/-- Inserts a key into a sorted duplicate-free key list. -/
def insertKeySorted (k : Str) : List Str → List Str
  | [] => [k]
  | h :: t =>
    if ltStrB k h then k :: h :: t
    else if k = h then h :: t
    else h :: insertKeySorted k t

/-- The sorted set of keys of a `url.Values` map (`sort.Strings(keys)` over
the map's key set). -/
def sortedKeysOf (pairs : List (Str × Str)) : List Str :=
  pairs.foldr (fun p acc => insertKeySorted p.1 acc) []

/-- The value list `v[k]`, in insertion order. -/
def valuesFor (k : Str) (pairs : List (Str × Str)) : List Str :=
  (pairs.filter (fun p => p.1 = k)).map (fun p => p.2)

/-- `url.Values.Encode`: keys sorted, every value escaped. -/
def valuesEncode (pairs : List (Str × Str)) : Str :=
  List.intercalate [38]
    ((sortedKeysOf pairs).flatMap fun k =>
      (valuesFor k pairs).map fun v => queryEscape k ++ [61] ++ queryEscape v)

/-- The tracking parameters removed by the canonicalizer. -/
def trackingParams : List Str :=
  [bs "utm_source", bs "utm_medium", bs "utm_campaign",
   bs "utm_term", bs "utm_content", bs "fbclid", bs "gclid", bs "ref"]

/-- The `params.Del(p)` loop over `trackingParams`. -/
def delTracking (pairs : List (Str × Str)) : List (Str × Str) :=
  pairs.filter fun p => decide (p.1 ∉ trackingParams)

/-- `URL.String()` for the component shapes produced by `urlParse`. -/
def urlString (u : GoURL) : Str :=
  (if u.scheme ≠ [] then u.scheme ++ [58] else []) ++
  (if (u.scheme ≠ [] ∨ u.host ≠ []) ∧ (u.host ≠ [] ∨ u.path ≠ []) then bs "//" else []) ++
  u.host ++ u.path ++
  (if u.rawQuery ≠ [] then 63 :: u.rawQuery else []) ++
  (if u.fragment ≠ [] then 35 :: u.fragment else [])

/-- `canonicalizeURL`: normalizes a URL for deduplication (lower-case
scheme and host, default port dropped, tracking parameters removed, query
re-encoded with sorted keys); empty string when parsing fails or the host
is empty. -/
def canonicalizeURL (rawURL : Str) : Str :=
  match urlParse rawURL with
  | none => []
  | some u =>
    if u.host = [] then []
    else
      let scheme := toLowerB u.scheme
      let host0 := toLowerB u.host
      let host :=
        if (scheme = bs "http" ∧ portOf host0 = bs "80") ∨
            (scheme = bs "https" ∧ portOf host0 = bs "443") then
          hostnameOf host0
        else host0
      let rawQuery :=
        if u.rawQuery ≠ [] then
          let params := delTracking (parseQueryPairs u.rawQuery)
          if sortedKeysOf params ≠ [] then valuesEncode params else []
        else u.rawQuery
      urlString ⟨scheme, host, u.path, rawQuery, u.fragment⟩

/-- `cleanURL`: strips search-reply artifacts, then canonicalizes. -/
def cleanURL (rawURL : Str) : Str :=
  let r1 := trimRightAnyB rawURL (bs ".,;:!?)]")
  let r2 :=
    match indexOfB r1 (bs "](") with
    | some idx => r1.take idx
    | none => r1
  let r3 := trimSuffixB r2 (bs "%5B")
  let r4 := trimSuffixB r3 (bs "%5D")
  canonicalizeURL r4

/-- Scheme continuation byte (`getscheme` after the first byte). -/
def schemeContB (b : Nat) : Bool := isAlphaB b || isDigitB b || b = 43 || b = 45 || b = 46

/-- Shape of a scheme `getscheme` can return: empty, or an ASCII letter
followed by letters, digits, `+`, `-`, `.`. -/
def schemeShapeB : Str → Bool
  | [] => true
  | b :: t => isAlphaB b && t.all schemeContB

/-- The key-grouped pair list a `url.Values` map round-trips to: for each
sorted key, its values in order. -/
def groupedOf (P : List (Str × Str)) : List (Str × Str) :=
  (sortedKeysOf P).flatMap fun k => (valuesFor k P).map fun v => (k, v)

/-- The host after the canonicalizer's default-port stripping. -/
def canonHost (scheme host0 : Str) : Str :=
  if (scheme = bs "http" ∧ portOf host0 = bs "80") ∨
      (scheme = bs "https" ∧ portOf host0 = bs "443") then
    hostnameOf host0
  else host0

/-- The query after the canonicalizer's tracking-removal and re-encoding. -/
def canonQuery (q : Str) : Str :=
  if q ≠ [] then
    if sortedKeysOf (delTracking (parseQueryPairs q)) ≠ [] then
      valuesEncode (delTracking (parseQueryPairs q))
    else []
  else q

/-- The URL components `canonicalizeURL` serializes. -/
def canonOf (u : GoURL) : GoURL :=
  ⟨toLowerB u.scheme, canonHost (toLowerB u.scheme) (toLowerB u.host), u.path,
    canonQuery u.rawQuery, u.fragment⟩

/-- The search-reply artifact stripping `cleanURL` performs before
canonicalizing. -/
def stripArtifacts (rawURL : Str) : Str :=
  let r1 := trimRightAnyB rawURL (bs ".,;:!?)]")
  let r2 :=
    match indexOfB r1 (bs "](") with
    | some idx => r1.take idx
    | none => r1
  let r3 := trimSuffixB r2 (bs "%5B")
  trimSuffixB r3 (bs "%5D")

/-! ## Validator content-type classification (`discovery/internal/validation`) -/

/-- Login-form indicators of the validator's `detectLoginWall`. -/
def loginPatternsV : List Str :=
  [bs "sign in", bs "log in", bs "login", bs "password", bs "authenticate",
   bs "access denied", bs "restricted access", bs "registration required",
   bs "create an account", bs "you must be logged in", bs "please register",
   bs "session expired"]

/-- A double quote, a password marker, a single quote, as byte strings. -/
def dq : Str := [34]

/-- Single-quote byte string. -/
def sq : Str := [39]

/-- The four password-input attribute forms the validator greps for:
`type="password"`, `type='password'`, `name="password"`, `name='password'`. -/
def hasPasswordAttr (bodyLower : Str) : Bool :=
  containsB bodyLower (bs "type=" ++ dq ++ bs "password" ++ dq) ||
  containsB bodyLower (bs "type=" ++ sq ++ bs "password" ++ sq) ||
  containsB bodyLower (bs "name=" ++ dq ++ bs "password" ++ dq) ||
  containsB bodyLower (bs "name=" ++ sq ++ bs "password" ++ sq)

/-- The `for _, pattern := range loginPatterns` loop body. -/
def loginLoopV (bodyLower : Str) : List Str → Bool
  | [] => false
  | p :: rest =>
    if containsB bodyLower p then
      if hasPasswordAttr bodyLower then true else loginLoopV bodyLower rest
    else loginLoopV bodyLower rest

/-- Authentication-redirect URL fragments. -/
def authURLPatterns : List Str :=
  [bs "/login", bs "/signin", bs "/auth", bs "/sso", bs "/oauth", bs "/saml",
   bs "returnurl=", bs "redirect=", bs "auth.php", bs "login.aspx"]

/-- `Validator.detectLoginWall` (body already lower-cased by the caller). -/
def detectLoginWallV (bodyLower finalURL : Str) : Bool :=
  if loginLoopV bodyLower loginPatternsV then true
  else
    let finalURLLower := toLowerB finalURL
    authURLPatterns.any fun pattern => containsB finalURLLower pattern

/-- Known procurement-portal domains. -/
def portalDomains : List Str :=
  [bs "bonfirehub.com", bs "opengov.com", bs "planetbids.com", bs "bidnet.com",
   bs "publicpurchase.com", bs "bidsync.com", bs "ionwave.net",
   bs "vendorregistry.com", bs "negometrix.com", bs "procurato.com"]

/-- `Validator.detectPortalListing`. -/
def detectPortalListing (finalURL : Str) : Bool :=
  let finalURLLower := toLowerB finalURL
  portalDomains.any fun domain => containsB finalURLLower domain

/-- The thirteen RFP-related terms of `detectRFPPage`. -/
def rfpTerms : List Str :=
  [bs "request for proposal", bs "request for quote", bs "request for bid",
   bs "rfp", bs "rfq", bs "rfb", bs "solicitation", bs "bid submission",
   bs "proposal submission", bs "procurement", bs "due date", bs "closing date",
   bs "submission deadline"]

/-- The `matchCount` accumulation loop of `detectRFPPage`. -/
def countTermsIn (bodyLower : Str) : List Str → Nat → Nat
  | [], acc => acc
  | t :: rest, acc =>
    if containsB bodyLower t then countTermsIn bodyLower rest (acc + 1)
    else countTermsIn bodyLower rest acc

/-- `Validator.detectRFPPage`: at least two RFP terms. -/
def detectRFPPage (bodyLower : Str) : Bool :=
  countTermsIn bodyLower rfpTerms 0 ≥ 2

/-- `Validator.detectContentType`: MIME/extension → pdf, then login wall,
portal listing, RFP page, otherwise other. -/
def detectContentType (mimeType finalURL bodyText : Str) : Str :=
  let mime := toLowerB mimeType
  if containsB mime (bs "pdf") then bs "pdf"
  else
    let pathPdf :=
      match urlParse finalURL with
      | some p => endsWithB (toLowerB p.path) (bs ".pdf")
      | none => false
    if pathPdf then bs "pdf"
    else
      let bodyLower := toLowerB bodyText
      if detectLoginWallV bodyLower finalURL then bs "login_wall"
      else if detectPortalListing finalURL then bs "portal_listing"
      else if detectRFPPage bodyLower then bs "rfp_page"
      else bs "other"

/-! ## Research agent (`discovery/internal/research`)

The agent's HTTP fetch (including `htmlToText`) and the LLM structured
extraction are external effects; an `AgentEnv` supplies the outcome of the
n-th fetch call (error, or final URL and extracted page text) and of the
n-th extraction call (error or details, plus the token count). -/

/-- Research status strings. -/
def StatusResearching : Str := bs "researching"

/-- Terminal status `researched`. -/
def StatusResearched : Str := bs "researched"

/-- Terminal status `needs_manual`. -/
def StatusNeedsManual : Str := bs "needs_manual"

/-- Terminal status `needs_manual_upload`. -/
def StatusNeedsManualUpload : Str := bs "needs_manual_upload"

/-- Terminal status `research_exhausted`. -/
def StatusExhausted : Str := bs "research_exhausted"

/-- Status `failed`. -/
def StatusFailed : Str := bs "failed"

/-- `research.ExtractedDetails`. -/
structure ExtractedDetails where
  Title : Str
  Agency : Str
  City : Str
  State : Str
  DueDate : Str
  ScopeSummary : Str
  EstimatedValue : Str
  Incumbent : Str
  Category : Str
  VenueType : Str
deriving DecidableEq, Repr

/-- All-empty details record. -/
def emptyDetails : ExtractedDetails :=
  ⟨[], [], [], [], [], [], [], [], [], []⟩

/-- Login-wall indicator phrases of the agent (`actions.go`). -/
def loginIndicators : List Str :=
  [bs "sign in", bs "log in", bs "login", bs "signin", bs "create account",
   bs "register", bs "authentication required", bs "access denied",
   bs "subscription required", bs "members only", bs "please log in",
   bs "login to view", bs "sign in to continue"]

/-- The form-context words of the agent's `±100`-byte window check. -/
def formTermWords : List Str :=
  [bs "form", bs "password", bs "email", bs "username", bs "required"]

/-- The agent's `detectLoginWall`: an indicator counts only when the
100 bytes around its first occurrence contain a form-related term. -/
def detectLoginWallA (content : Str) : Bool :=
  let contentLower := toLowerB content
  loginIndicators.any fun indicator =>
    match indexOfB contentLower indicator with
    | none => false
    | some pos =>
      let start := pos - 100
      let stop := min (pos + 100) contentLower.length
      let surrounding := (contentLower.drop start).take (stop - start)
      formTermWords.any fun w => containsB surrounding w

/-- Matches the `href`-attribute PDF pattern at the head of `s`: on a hit,
returns the captured URL and the remainder after the closing quote. -/
def matchHrefAt (s : Str) : Option (Str × Str) :=
  if s.length ≥ 4 ∧ toLowerB (s.take 4) = bs "href" then
    match ((s.drop 4).dropWhile isRegexSpaceB) with
    | 61 :: r2 =>
      match r2.dropWhile isRegexSpaceB with
      | q :: r4 =>
        if q = 34 ∨ q = 39 then
          let captured := r4.takeWhile fun b => decide (b ≠ 34 ∧ b ≠ 39)
          let rest := r4.drop captured.length
          match rest with
          | q2 :: r5 =>
            if (q2 = 34 ∨ q2 = 39) ∧ containsB (toLowerB captured) (bs ".pdf") then
              some (captured, r5)
            else none
          | [] => none
        else none
      | [] => none
    | _ => none
  else none

/-- Scans for all non-overlapping `href="….pdf…"` matches (the
`FindAllStringSubmatch` loop), fuelled by the content length. -/
def findPDFMatches : Nat → Str → List Str
  | 0, _ => []
  | _, [] => []
  | fuel + 1, s =>
    match matchHrefAt s with
    | some (url, rest) => url :: findPDFMatches fuel rest
    | none => findPDFMatches fuel (s.drop 1)

/-- The dedup-and-filter loop of `actionDiscoverPDFs`: relative URLs are
skipped, duplicates kept once. -/
def dedupPDFURLs : List Str → List Str → List Str
  | [], _ => []
  | u :: t, seen =>
    if ¬startsWithB u (bs "http") then dedupPDFURLs t seen
    else if decide (u ∈ seen) then dedupPDFURLs t seen
    else u :: dedupPDFURLs t (u :: seen)

/-- PDF links discovered in a page (`actionDiscoverPDFs`). -/
def discoverPDFLinks (content : Str) : List Str :=
  dedupPDFURLs (findPDFMatches content.length content) []

/-- `research.ResearchContext` (the fields the loop reads or writes). -/
structure ResearchContext where
  resultID : Int
  originalURL : Str
  currentURL : Str
  title : Str
  snippet : Str
  hintAgency : Str
  hintState : Str
  pageContent : Str
  extractedDetails : Option ExtractedDetails
  foundPDFs : List Str
  status : Str
  fetchFailed : Bool
  fetchError : Str
  pdfSearchDone : Bool
deriving DecidableEq, Repr

/-- `research.ResearchStep` (summaries and timings omitted). -/
structure ResearchStep where
  stepNumber : Nat
  action : Str
  success : Bool
  tokensUsed : Nat
deriving DecidableEq, Repr

/-- Outcome of one extraction call: error or details, plus tokens used. -/
structure ExtractOutcome where
  res : Except Str ExtractedDetails
  tokens : Nat

/-- The external effects of the agent, indexed by call number: a fetch
yields an error or `(finalURL, extracted page text)`; an extraction yields
an error or an `ExtractedDetails`. -/
structure AgentEnv where
  fetch : Nat → Except Str (Str × Str)
  extract : Nat → ExtractOutcome

/-- Call counters for the environment streams. -/
structure AgentWorld where
  fetchN : Nat
  extractN : Nat
deriving DecidableEq, Repr

/-- `Agent.decideAction`: the decision table, evaluated top to bottom. -/
def decideAction (rc : ResearchContext) : Str :=
  if rc.fetchFailed then bs "mark_needs_manual"
  else if rc.pageContent = [] then bs "fetch_page"
  else if detectLoginWallA rc.pageContent then bs "mark_login_required"
  else if rc.extractedDetails = none ∨
      (rc.extractedDetails.map ExtractedDetails.Title).getD [] = [] then bs "extract_details"
  else if ¬rc.pdfSearchDone then bs "discover_pdfs"
  else if rc.extractedDetails ≠ none ∧
      (rc.extractedDetails.map ExtractedDetails.Title).getD [] ≠ [] then bs "mark_complete"
  else bs "mark_needs_manual"

/-- `Agent.executeStep`: decides an action, executes it, and returns the
recorded step, the updated context, the updated call counters and the
returned error — which, as in the source, is always `nil`. -/
def executeStep (env : AgentEnv) (w : AgentWorld) (rc : ResearchContext) (stepNumber : Nat) :
    ResearchStep × ResearchContext × AgentWorld × Option Str :=
  let action := decideAction rc
  if action = bs "fetch_page" then
    match env.fetch w.fetchN with
    | .error e =>
      (⟨stepNumber, action, false, 0⟩,
       { rc with fetchFailed := true, fetchError := e },
       { w with fetchN := w.fetchN + 1 }, none)
    | .ok (furl, content) =>
      (⟨stepNumber, action, true, 0⟩,
       { rc with currentURL := furl, pageContent := content },
       { w with fetchN := w.fetchN + 1 }, none)
  else if action = bs "extract_details" then
    let o := env.extract w.extractN
    match o.res with
    | .error _ =>
      (⟨stepNumber, action, false, o.tokens⟩, rc, { w with extractN := w.extractN + 1 }, none)
    | .ok d =>
      (⟨stepNumber, action, true, o.tokens⟩,
       { rc with extractedDetails := some d },
       { w with extractN := w.extractN + 1 }, none)
  else if action = bs "discover_pdfs" then
    (⟨stepNumber, action, true, 0⟩,
     { rc with pdfSearchDone := true, foundPDFs := discoverPDFLinks rc.pageContent }, w, none)
  else if action = bs "mark_complete" then
    (⟨stepNumber, action, true, 0⟩, { rc with status := StatusResearched }, w, none)
  else if action = bs "mark_needs_manual" then
    (⟨stepNumber, action, true, 0⟩, { rc with status := StatusNeedsManual }, w, none)
  else if action = bs "mark_login_required" then
    (⟨stepNumber, action, true, 0⟩, { rc with status := StatusNeedsManualUpload }, w, none)
  else
    (⟨stepNumber, action, false, 0⟩, rc, w, none)

/-- Result of the research loop before the exhaustion check. -/
structure LoopOut where
  rc : ResearchContext
  steps : List ResearchStep
  stepCount : Nat
  tokens : Nat
  w : AgentWorld
  err : Option Str

/-- The `for stepCount < maxSteps && status == researching` loop of
`Agent.Research`, with the remaining iteration budget as fuel. -/
def researchLoop (env : AgentEnv) : Nat → Nat → AgentWorld → ResearchContext → LoopOut
  | 0, stepCount, w, rc => ⟨rc, [], stepCount, 0, w, none⟩
  | fuel + 1, stepCount, w, rc =>
    if rc.status ≠ StatusResearching then ⟨rc, [], stepCount, 0, w, none⟩
    else
      let n := stepCount + 1
      let r := executeStep env w rc n
      match r.2.2.2 with
      | some e => ⟨r.2.1, [], n, 0, r.2.2.1, some e⟩
      | none =>
        let rest := researchLoop env fuel n r.2.2.1 r.2.1
        ⟨rest.rc, r.1 :: rest.steps, rest.stepCount, r.1.tokensUsed + rest.tokens, rest.w, rest.err⟩

/-- The `models.SearchResult` fields `Agent.Research` reads. -/
structure SearchResultIn where
  ID : Int
  URL : Str
  FinalURL : Str
  Title : Str
  Snippet : Str
  HintAgency : Str
  HintState : Str
deriving DecidableEq, Repr

/-- `research.ResearchResult` (the `Error` field is `errMsg`). -/
structure ResearchResult where
  success : Bool
  resultID : Int
  status : Str
  stepsTaken : Nat
  totalTokens : Nat
  extractedDetails : Option ExtractedDetails
  foundPDFs : List Str
  steps : List ResearchStep
  errMsg : Str
deriving DecidableEq, Repr

/-- The `ResearchContext` `Agent.Research` initialises from a search
result (final URL preferred over the original when present). -/
def initialContext (result : SearchResultIn) : ResearchContext :=
  { resultID := result.ID, originalURL := result.URL,
    currentURL := if result.FinalURL = [] then result.URL else result.FinalURL,
    title := result.Title, snippet := result.Snippet,
    hintAgency := result.HintAgency, hintState := result.HintState,
    pageContent := [], extractedDetails := none, foundPDFs := [],
    status := StatusResearching, fetchFailed := false, fetchError := [],
    pdfSearchDone := false }

/-- `Agent.Research`: runs the bounded loop, appends the synthetic
`give_up` step when the budget is exhausted, and returns the result paired
with the function's error return (always `nil` in the source). -/
def Research (env : AgentEnv) (maxSteps : Nat) (result : SearchResultIn) :
    ResearchResult × Option Str :=
  let L := researchLoop env maxSteps 0 ⟨0, 0⟩ (initialContext result)
  match L.err with
  | some e =>
    ({ success := false, resultID := result.ID, status := StatusFailed,
       stepsTaken := L.stepCount, totalTokens := 0, extractedDetails := none,
       foundPDFs := [], steps := L.steps, errMsg := e }, none)
  | none =>
    let exhausted := L.stepCount ≥ maxSteps ∧ L.rc.status = StatusResearching
    let finalStatus := if exhausted then StatusExhausted else L.rc.status
    let steps :=
      if exhausted then
        L.steps ++ [⟨L.stepCount + 1, bs "give_up", false, 0⟩]
      else L.steps
    ({ success := true, resultID := result.ID, status := finalStatus,
       stepsTaken := L.stepCount, totalTokens := L.tokens,
       extractedDetails := L.rc.extractedDetails, foundPDFs := L.rc.foundPDFs,
       steps := steps, errMsg := [] }, none)

/-! ## PDF storage keys (`pdf` package) -/

/-- `path.Ext`: the suffix beginning at the final dot of the last
path element, or empty. -/
def pathExt (p : Str) : Str :=
  let afterSlash := p.reverse.takeWhile fun b => decide (b ≠ 47)
  match cutByteB afterSlash 46 with
  | (pre, some _) => 46 :: pre.reverse
  | (_, none) => []

/-- `path.Base`: last element of the path after dropping trailing
slashes; `"."` for the empty path, `"/"` when only slashes remain. -/
def pathBase (p : Str) : Str :=
  if p = [] then bs "."
  else
    let p2 := trimRightAnyB p [47]
    if p2 = [] then bs "/"
    else (p2.reverse.takeWhile fun b => decide (b ≠ 47)).reverse

/-- The byte replacements of `sanitizeFilename`'s `strings.NewReplacer`
(slash, backslash, colon, star, question mark, double quote, angle
brackets, pipe and space all become underscores). -/
def sanitizeReplaceByte (b : Nat) : Nat :=
  if b = 47 ∨ b = 92 ∨ b = 58 ∨ b = 42 ∨ b = 63 ∨ b = 34 ∨ b = 60 ∨ b = 124 ∨ b = 62 ∨ b = 32
  then 95 else b

/-- `sanitizeFilename`: replaces problematic bytes, then truncates names
longer than 200 bytes to `filename[:200-len(ext)] + ext`.  When the
extension itself exceeds 200 bytes the Go slice index `200 - len(ext)` is
negative and the slice expression panics; the panic is modelled as
`none`. -/
def sanitizeFilename (filename : Str) : Option Str :=
  let f := filename.map sanitizeReplaceByte
  if f.length > 200 then
    let ext := pathExt f
    if (200 : Int) - (ext.length : Int) < 0 then none
    else some (f.take (200 - ext.length) ++ ext)
  else some f

/-- Decimal digits of a natural number (fuelled). -/
def natDigitsAux : Nat → Nat → Str
  | 0, _ => []
  | _ + 1, 0 => []
  | fuel + 1, n => natDigitsAux fuel (n / 10) ++ [48 + n % 10]

/-- Go `%d` for a natural number. -/
def natToStr (n : Nat) : Str := if n = 0 then [48] else natDigitsAux n n

/-- Go `%d` for an `int`. -/
def intToStr (i : Int) : Str :=
  if i < 0 then 45 :: natToStr i.natAbs else natToStr i.natAbs

/-- `Downloader.generateKey`: `pdfs/{rfp_id}/{sanitized_filename}` with a
`sha256`-based fallback when the URL has no usable filename.  The hash is
external to the model and passed as the `hashHex8` parameter (the first
eight hash bytes in hex); a `none` result models a panic in
`sanitizeFilename`. -/
def generateKey (hashHex8 : Str → Str) (pdfURL : Str) (rfpID : Int) : Option Str :=
  let fallback := bs "pdfs/" ++ intToStr rfpID ++ [47] ++ hashHex8 pdfURL ++ bs ".pdf"
  match urlParse pdfURL with
  | none => some fallback
  | some u =>
    let filename := pathBase u.path
    if filename = [] ∨ filename = bs "." ∨ filename = bs "/" then some fallback
    else
      (sanitizeFilename filename).map fun f =>
        let f2 := if ¬endsWithB (toLowerB f) (bs ".pdf") then f ++ bs ".pdf" else f
        bs "pdfs/" ++ intToStr rfpID ++ [47] ++ f2

/-! ## Scheduler search phase (`discovery/internal/scheduler`)

Database and search-provider effects are paired with each query config: the
grounded-search response (or its failure), and the success of the two store
operations the phase performs.  `SaveSearchQueryAndResults` is transactional:
on failure nothing is written. -/

/-- `search.Result`. -/
structure GoSearchResult where
  url : Str
  title : Str
  snippet : Str
deriving DecidableEq, Repr

/-- `models.SearchQueryConfig` (the fields the phase reads). -/
structure SearchQueryConfig where
  id : Int
  name : Str
  queryTemplate : Str
  enabled : Bool
deriving DecidableEq, Repr

/-- One query config together with the outcome of its external calls. -/
structure SearchCase where
  cfg : SearchQueryConfig
  searchResp : Option (List GoSearchResult)
  batchCheckOk : Bool
  saveOk : Bool
  saveEmptyOk : Bool
deriving DecidableEq, Repr

/-- The store as the search phase sees it: the `search_results` URLs
already present, and the rows inserted so far in each table. -/
structure StoreState where
  seenURLs : List Str
  queryRowsInserted : Nat
  resultRowsInserted : List Str
deriving DecidableEq, Repr

/-- The counters of `CycleStats` the search phase touches. -/
structure SearchStats where
  queriesExecuted : Nat
  queriesFailed : Nat
  resultsFound : Nat
  resultsSkipped : Nat
  resultsNew : Nat
deriving DecidableEq, Repr

/-- Zero stats. -/
def emptyStats : SearchStats := ⟨0, 0, 0, 0, 0⟩

/-- One iteration of the `for _, cfg := range configs` loop of
`executeSearchPhase`: returns the updated store, stats, and the saved
results appended to `allNewResults`. -/
def runSearchCase (skipSeenURLs : Bool) (st : StoreState) (stats : SearchStats)
    (c : SearchCase) : StoreState × SearchStats × List GoSearchResult :=
  if ¬c.cfg.enabled then (st, stats, [])
  else
    match c.searchResp with
    | none => (st, { stats with queriesFailed := stats.queriesFailed + 1 }, [])
    | some results =>
      let stats := { stats with queriesExecuted := stats.queriesExecuted + 1,
                                resultsFound := stats.resultsFound + results.length }
      if results.length = 0 then
        (if c.saveEmptyOk then { st with queryRowsInserted := st.queryRowsInserted + 1 } else st,
         stats, [])
      else
        let seenOf := fun (r : GoSearchResult) => decide (r.url ∈ st.seenURLs)
        let newResults :=
          if skipSeenURLs then
            if c.batchCheckOk then results.filter (fun r => !seenOf r) else results
          else results
        let skipped :=
          if skipSeenURLs ∧ c.batchCheckOk then (results.filter seenOf).length else 0
        let stats := { stats with resultsSkipped := stats.resultsSkipped + skipped,
                                  resultsNew := stats.resultsNew + newResults.length }
        if newResults.length = 0 then (st, stats, [])
        else if ¬c.saveOk then (st, stats, [])
        else
          ({ st with queryRowsInserted := st.queryRowsInserted + 1,
                     resultRowsInserted := st.resultRowsInserted ++ newResults.map (·.url),
                     seenURLs := st.seenURLs ++ newResults.map (·.url) },
           stats, newResults)

/-- `executeSearchPhase` over all configs. -/
def executeSearchPhase (skipSeenURLs : Bool) :
    List SearchCase → StoreState → SearchStats → StoreState × SearchStats × List GoSearchResult
  | [], st, stats => (st, stats, [])
  | c :: rest, st, stats =>
    let r := runSearchCase skipSeenURLs st stats c
    let acc := executeSearchPhase skipSeenURLs rest r.1 r.2.1
    (acc.1, acc.2.1, r.2.2 ++ acc.2.2)

/-! ## Statements taken from the specification

The following definitions restate, in the specification's own terms, the
content-type classification rules; they are compared with the classifier
translated from the source. -/

/-- Specification rule 1: MIME contains `pdf`, or the final URL's path ends
in `.pdf`. -/
def specRulePDF (mimeType finalURL : Str) : Bool :=
  containsB (toLowerB mimeType) (bs "pdf") ||
    match urlParse finalURL with
    | some p => endsWithB (toLowerB p.path) (bs ".pdf")
    | none => false

/-- Specification rule 2: a login phrase in the body together with a
password input attribute, or an auth-pattern substring in the final URL. -/
def specRuleLoginWall (bodyText finalURL : Str) : Bool :=
  (loginPatternsV.any (fun p => containsB (toLowerB bodyText) p) &&
    hasPasswordAttr (toLowerB bodyText)) ||
  authURLPatterns.any (fun p => containsB (toLowerB finalURL) p)

/-- Specification rule 3: a known procurement-portal domain occurs in the
final URL. -/
def specRulePortal (finalURL : Str) : Bool :=
  portalDomains.any (fun d => containsB (toLowerB finalURL) d)

/-- Specification rule 4: the body contains at least two of the thirteen
RFP terms. -/
def specRuleRFP (bodyText : Str) : Bool :=
  decide (2 ≤ rfpTerms.countP (fun t => containsB (toLowerB bodyText) t))

/-- The specification's five-rule cascade, first match wins. -/
def specClassify (mimeType finalURL bodyText : Str) : Str :=
  if specRulePDF mimeType finalURL then bs "pdf"
  else if specRuleLoginWall bodyText finalURL then bs "login_wall"
  else if specRulePortal finalURL then bs "portal_listing"
  else if specRuleRFP bodyText then bs "rfp_page"
  else bs "other"

/-- An action is terminal when it sets a terminal research status
(`mark_complete`, `mark_needs_manual`, `mark_login_required`) or is the
synthetic `give_up`. -/
def isTerminalAction (a : Str) : Bool :=
  a = bs "mark_complete" || a = bs "mark_needs_manual" ||
    a = bs "mark_login_required" || a = bs "give_up"

/-- Invariants of the research loop, relative to the step count `sc` at
entry and the remaining budget `fuel`: step numbers continue densely from
`sc+1`; the final count is the entry count plus the steps taken; at most
`fuel` steps are taken, none of them synthetic `give_up`s and none setting
`research_exhausted`; if the loop leaves the context `researching` it used
its whole budget on non-terminal steps, and otherwise exactly its last
step is terminal. -/
def LoopSpec (sc fuel : Nat) (L : LoopOut) : Prop :=
  (∀ i (hi : i < L.steps.length), (L.steps[i]).stepNumber = sc + i + 1) ∧
  L.stepCount = sc + L.steps.length ∧
  L.steps.length ≤ fuel ∧
  (∀ s ∈ L.steps, s.action ≠ bs "give_up") ∧
  L.rc.status ≠ StatusExhausted ∧
  (L.rc.status = StatusResearching →
    L.steps.length = fuel ∧ ∀ s ∈ L.steps, isTerminalAction s.action = false) ∧
  (L.rc.status ≠ StatusResearching →
    ∃ hne : L.steps ≠ [],
      isTerminalAction (L.steps.getLast hne).action = true ∧
      ∀ s ∈ L.steps.dropLast, isTerminalAction s.action = false)

/-! ## Concrete inputs used by counterexamples and witnesses -/

/-- A 251-byte filename that is all extension: a dot followed by 250 `a`s. -/
def longDotName : Str := 46 :: List.replicate 250 97

/-- An environment whose every fetch fails with an HTTP 404. -/
def envFetchFails : AgentEnv :=
  ⟨fun _ => .error (bs "HTTP 404"), fun _ => ⟨.error (bs "not called"), 0⟩⟩

/-- An environment where the fetch succeeds with plain page text and every
extraction succeeds with an empty title. -/
def envEmptyTitle : AgentEnv :=
  ⟨fun _ => .ok (bs "https://example.com/rfp", bs "Welcome to the city procurement page"),
   fun _ => ⟨.ok emptyDetails, 7⟩⟩

/-- A plain search result fed to the agent. -/
def searchInput1 : SearchResultIn :=
  ⟨1, bs "https://example.com/rfp", [], bs "T", [], [], []⟩

/-- An RFP stored with a full state name rather than the 2-letter code. -/
def rfpFlorida : RFP :=
  { ID := 1, Title := bs "Parking RFP", Agency := bs "Parks",
    State := bs "Florida", DueDate := some ⟨2024, 1, 15⟩ }

/-- An RFP stored with the two-letter state code. -/
def rfpParksFL : RFP :=
  { ID := 1, Title := bs "Parking RFP", Agency := bs "Parks",
    State := bs "FL", DueDate := some ⟨2024, 1, 15⟩ }

/-- Two identical RFPs, the higher id first in corpus order. -/
def tieCorpus : List RFP :=
  [{ ID := 2, Title := bs "B", Agency := bs "parks", State := [], DueDate := none },
   { ID := 1, Title := bs "A", Agency := bs "parks", State := [], DueDate := none }]

/-- A one-config search case whose single result URL is already stored. -/
def seenCase : SearchCase :=
  { cfg := { id := 1, name := bs "q", queryTemplate := bs "parking RFP", enabled := true },
    searchResp := some [⟨bs "https://a.com/x", bs "t", []⟩],
    batchCheckOk := true, saveOk := true, saveEmptyOk := true }

/-- The store that already contains that URL. -/
def seenStore : StoreState := ⟨[bs "https://a.com/x"], 0, []⟩
/-! # Theorems -/

/-! ## Sanity checks against the Go packages' own test vectors -/

example : bs "abc" = [97, 98, 99] := by decide
example : toLowerB (bs "AbC") = bs "abc" := by decide
example : containsB (bs "hello world") (bs "lo wo") = true := by decide
example : containsB (bs "hello") (bs "low") = false := by decide
example : indexOfB (bs "abcabc") (bs "cab") = some 2 := by decide
example : trimSpaceB (bs "  hi  ") = bs "hi" := by decide
example : trimRightAnyB (bs "url.,;") (bs ".,;:!?)]") = bs "url" := by decide
example : splitOnByteB (bs "a&b&&c") 38 = [bs "a", bs "b", [], bs "c"] := by decide
example : NormalizeDate (bs "2024-01-15") = bs "2024-01-15" := by decide
example : NormalizeDate (bs "01/15/2024") = bs "2024-01-15" := by decide
example : NormalizeDate (bs "1/15/2024") = bs "2024-01-15" := by decide
example : NormalizeDate (bs "January 15, 2024") = bs "2024-01-15" := by decide
example : NormalizeDate (bs "Jan 15, 2024") = bs "2024-01-15" := by decide
example : NormalizeDate (bs "2024/01/15") = bs "2024-01-15" := by decide
example : NormalizeDate (bs "invalid date") = [] := by decide
example : NormalizeDate [] = [] := by decide
example : NormalizeAgency (bs "City of Springfield") = bs "springfield" := by decide
example : NormalizeAgency (bs "CITY OF SPRINGFIELD") = bs "springfield" := by decide
example : NormalizeAgency (bs "Tampa, City of") = bs "tampa" := by decide
example : NormalizeAgency (bs "Los Angeles, County of") = bs "los angeles" := by decide
example : NormalizeAgency (bs "  City of   Springfield  ") = bs "springfield" := by decide
example : NormalizeAgency (bs "City of St. Louis") = bs "st louis" := by decide
example : NormalizeState (bs "ca") = bs "CA" := by decide
example : NormalizeState (bs "California") = bs "CA" := by decide
example : NormalizeState (bs "new york") = bs "NY" := by decide
example : NormalizeState (bs "Invalid") = [] := by decide
example : NormalizeState [] = [] := by decide
example : levenshtein [] [] = 0 := by decide
example : levenshtein (bs "hello") [] = 5 := by decide
example : levenshtein [] (bs "hello") = 5 := by decide
example : levenshtein (bs "hello") (bs "hallo") = 1 := by decide
example : levenshtein (bs "hello") (bs "helo") = 1 := by decide
example : levenshtein (bs "sitting") (bs "kitten") = 3 := by decide
example : AgencyMatches (bs "springfield") (bs "springfield") = true := by decide
example : AgencyMatches (bs "springfield") (bs "spring") = true := by decide
example : AgencyMatches (bs "springfield") (bs "springfild") = true := by decide
example : AgencyMatches (bs "springfield") (bs "chicago") = false := by decide
example : AgencyMatches [] (bs "springfield") = false := by decide
example : DatesMatch (bs "2024-01-15") (bs "2024-01-15") = true := by decide
example : DatesMatch (bs "2024-01-15") (bs "2024-01-18") = true := by decide
example : DatesMatch (bs "2024-01-15") (bs "2024-01-20") = false := by decide
example : DatesMatch (bs "2024-01-15") (bs "invalid") = false := by decide
example : DatesMatch (bs "2024-03-01") (bs "2024-02-27") = true := by decide
example :
    (CheckDuplicate testCorpus (bs "City of Springfield") (bs "IL") (bs "2024-01-15")).FoundMatch
      = true := by decide
example :
    (CheckDuplicate testCorpus (bs "City of Springfield") (bs "IL") (bs "2024-01-15")).MatchedRFPID
      = 1 := by decide
example :
    (CheckDuplicate testCorpus (bs "Springfield") (bs "Illinois") (bs "January 15, 2024")).MatchedRFPID
      = 1 := by decide
example :
    (CheckDuplicate testCorpus (bs "City of Springfield") (bs "IL") (bs "2024-01-14")).FoundMatch
      = true := by decide
example :
    (CheckDuplicate testCorpus (bs "City of Boston") (bs "MA") (bs "2024-01-15")).FoundMatch
      = false := by decide
example :
    (CheckDuplicate testCorpus [] (bs "IL") (bs "2024-01-15")).FoundMatch = false := by decide
example :
    (CheckDuplicate [] (bs "City of Springfield") (bs "IL") (bs "2024-01-15")).CandidatesChecked
      = 0 := by decide
example : portOf (bs "example.com:80") = bs "80" := by decide
example : portOf (bs "example.com") = [] := by decide
example : portOf (bs "example.com:8x") = [] := by decide
example : hostnameOf (bs "example.com:80") = bs "example.com" := by decide
example : queryEscape (bs "a b.c/d") = bs "a+b.c%2Fd" := by decide
example : queryUnescape (bs "a+b.c%2Fd") = some (bs "a b.c/d") := by decide
example : queryUnescape (bs "%zz") = none := by decide
example : canonicalizeURL (bs "https://example.com/path") = bs "https://example.com/path" := by
  decide
example : canonicalizeURL (bs "https://EXAMPLE.COM/path") = bs "https://example.com/path" := by
  decide
example : canonicalizeURL (bs "https://example.com/path?utm_source=google&id=123")
    = bs "https://example.com/path?id=123" := by decide
example : canonicalizeURL (bs "https://example.com/path?utm_source=a&utm_medium=b&fbclid=c")
    = bs "https://example.com/path" := by decide
example : canonicalizeURL (bs "https://example.com/path?z=1&a=2")
    = bs "https://example.com/path?a=2&z=1" := by decide
example : canonicalizeURL (bs "not-a-url") = [] := by decide
example : canonicalizeURL (bs "http://example.com:80/x") = bs "http://example.com/x" := by decide
example : cleanURL (bs "https://example.com/path.") = bs "https://example.com/path" := by decide
example : cleanURL (bs "https://example.com/path](https://other.com")
    = bs "https://example.com/path" := by decide
example : cleanURL (bs "https://example.com/path%5D") = bs "https://example.com/path" := by decide
example : detectContentType (bs "application/pdf") (bs "http://x.com/a") [] = bs "pdf" := by decide
example : detectContentType (bs "text/html") (bs "http://x.com/Doc.PDF") [] = bs "pdf" := by decide
example :
    detectContentType (bs "text/html") (bs "http://x.com/a")
      (bs "Please Sign In <input type=" ++ dq ++ bs "password" ++ dq ++ bs ">")
      = bs "login_wall" := by decide
example :
    detectContentType (bs "text/html") (bs "https://app.bonfirehub.com/rfp/1") []
      = bs "portal_listing" := by decide
example :
    detectContentType (bs "text/html") (bs "http://x.com/a")
      (bs "Request for Proposal. Due Date: Jan 5") = bs "rfp_page" := by decide
example : detectContentType (bs "text/html") (bs "http://x.com/a") (bs "hello")
    = bs "other" := by decide
example : detectLoginWallA (bs "Access denied. Please log in with your username and password.")
    = true := by decide
example :
    detectLoginWallA (bs "Request for Proposal: Parking Services. Due Date: January 15, 2024.")
      = false := by decide
example : detectLoginWallA (bs "Contact us if you need login assistance. RFP details below.")
    = false := by decide
example :
    discoverPDFLinks
      (bs "<a href=" ++ dq ++ bs "https://example.com/rfp.pdf" ++ dq ++
        bs ">RFP</a> <a href=" ++ dq ++ bs "https://example.com/specs.pdf" ++ dq ++
        bs "> <a href=" ++ dq ++ bs "https://example.com/o.html" ++ dq ++ bs ">")
      = [bs "https://example.com/rfp.pdf", bs "https://example.com/specs.pdf"] := by decide
example :
    decideAction
      { resultID := 1, originalURL := bs "https://example.com",
        currentURL := bs "https://example.com", title := [], snippet := [],
        hintAgency := [], hintState := [], pageContent := [],
        extractedDetails := none, foundPDFs := [], status := StatusResearching,
        fetchFailed := false, fetchError := [], pdfSearchDone := false }
      = bs "fetch_page" := by decide
example :
    decideAction
      { resultID := 1, originalURL := [], currentURL := [], title := [], snippet := [],
        hintAgency := [], hintState := [], pageContent := bs "Some RFP content here",
        extractedDetails := none, foundPDFs := [], status := StatusResearching,
        fetchFailed := false, fetchError := [], pdfSearchDone := false }
      = bs "extract_details" := by decide
example :
    decideAction
      { resultID := 1, originalURL := [], currentURL := [], title := [], snippet := [],
        hintAgency := [], hintState := [], pageContent := bs "Content",
        extractedDetails := some { emptyDetails with Title := bs "Test RFP", Agency := bs "Test Agency" },
        foundPDFs := [], status := StatusResearching,
        fetchFailed := false, fetchError := [], pdfSearchDone := false }
      = bs "discover_pdfs" := by decide
example :
    decideAction
      { resultID := 1, originalURL := [], currentURL := [], title := [], snippet := [],
        hintAgency := [], hintState := [], pageContent := bs "Content",
        extractedDetails := some { emptyDetails with Title := bs "Test RFP" },
        foundPDFs := [], status := StatusResearching,
        fetchFailed := false, fetchError := [], pdfSearchDone := true }
      = bs "mark_complete" := by decide
example :
    decideAction
      { resultID := 1, originalURL := [], currentURL := [], title := [], snippet := [],
        hintAgency := [], hintState := [], pageContent := [],
        extractedDetails := none, foundPDFs := [], status := StatusResearching,
        fetchFailed := true, fetchError := bs "Connection refused", pdfSearchDone := false }
      = bs "mark_needs_manual" := by decide
example : pathExt (bs "a/b/doc.pdf") = bs ".pdf" := by decide
example : pathExt (bs "archive.tar.gz") = bs ".gz" := by decide
example : pathExt (bs "noext") = [] := by decide
example : pathExt (bs "dir.d/noext") = [] := by decide
example : pathBase (bs "/x/y.pdf") = bs "y.pdf" := by decide
example : pathBase (bs "/x/y/") = bs "y" := by decide
example : pathBase (bs "///") = bs "/" := by decide
example : pathBase [] = bs "." := by decide
example : sanitizeFilename (bs "a b:c.pdf") = some (bs "a_b_c.pdf") := by decide
example : intToStr 42 = bs "42" := by decide
example : intToStr (-7) = bs "-7" := by decide
example :
    generateKey (fun _ => bs "0011223344556677") (bs "https://example.com/docs/rfp.pdf") 42
      = some (bs "pdfs/42/rfp.pdf") := by decide
example :
    generateKey (fun _ => bs "0011223344556677") (bs "https://example.com/") 42
      = some (bs "pdfs/42/0011223344556677.pdf") := by decide



/-- Helper: a serialized URL with a scheme or a host is never empty. -/
theorem urlString_ne_nil (u : GoURL) (h : u.scheme ≠ [] ∨ u.host ≠ []) :
    urlString u ≠ [] := by
  unfold urlString
  by_cases hs : u.scheme = []
  · rcases h with h | h
    · exact absurd hs h
    · have hc : ((u.scheme ≠ [] ∨ u.host ≠ []) ∧ (u.host ≠ [] ∨ u.path ≠ [])) := by
        exact ⟨Or.inr h, Or.inl h⟩
      rw [if_neg (not_not_intro hs), if_pos hc]
      simp [bs, List.append_eq_nil]
  · rw [if_pos hs]
    simp [List.append_eq_nil]

/-- C9.  The claim that `sanitizeFilename` is total and bounded fails on
the code: for the 251-byte filename `longDotName`, whose extension is the
whole name, the Go expression `filename[:200-len(ext)]` slices with the
negative index `200 − 251` and panics (modelled as `none`); `generateKey`
therefore panics as well for a pdf_url bearing that filename, whatever the
hash function computes. -/
theorem C9_sanitizeFilename_panics :
    sanitizeFilename longDotName = none ∧
      ∀ hashHex8 : Str → Str,
        generateKey hashHex8 (bs "http://example.com/" ++ longDotName) 1 = none :=
  ⟨by decide, fun _ => rfl⟩

/-- C5, counterexample.  The canonicalizer does not reject non-http(s)
schemes: a well-formed `ftp://` URL with a non-empty host is returned
unchanged, not mapped to the empty string. -/
theorem C5_counterexample :
    canonicalizeURL (bs "ftp://example.com") = bs "ftp://example.com" ∧
      canonicalizeURL (bs "ftp://example.com") ≠ [] := by
  constructor
  · decide
  · decide

/-- C5, amended.  The canonicalizer rejects exactly the inputs that fail to
parse or parse with an empty host; the scheme is never examined for
rejection. -/
theorem C5_reject_iff_no_host (s : Str) :
    canonicalizeURL s = [] ↔ ∀ u, urlParse s = some u → u.host = [] := by
  unfold canonicalizeURL
  cases h : urlParse s with
  | none => simp
  | some u =>
    dsimp only
    by_cases hh : u.host = []
    · simp [hh]
    · rw [if_neg hh]
      constructor
      · intro he
        exfalso
        refine urlString_ne_nil _ ?_ he
        by_cases hport :
            ((toLowerB u.scheme = bs "http" ∧ portOf (toLowerB u.host) = bs "80") ∨
              (toLowerB u.scheme = bs "https" ∧ portOf (toLowerB u.host) = bs "443"))
        · left
          rcases hport with ⟨h1, _⟩ | ⟨h1, _⟩ <;> simp [h1, bs]
        · right
          rw [if_neg hport]
          simpa [toLowerB] using hh
      · intro hall
        exact absurd (hall u rfl) hh

/-- Helper: the validator's login-pattern loop is the conjunction of "some
pattern occurs" with the password-attribute check. -/
theorem loginLoopV_eq (bodyLower : Str) (pats : List Str) :
    loginLoopV bodyLower pats =
      (pats.any (fun p => containsB bodyLower p) && hasPasswordAttr bodyLower) := by
  induction pats with
  | nil => simp [loginLoopV]
  | cons p rest ih =>
    simp only [loginLoopV, List.any_cons]
    cases hc : containsB bodyLower p <;> cases ha : hasPasswordAttr bodyLower <;>
      simp [hc, ha, ih]

/-- Helper: the `matchCount` loop counts the terms contained in the body. -/
theorem countTermsIn_eq (bodyLower : Str) (terms : List Str) (acc : Nat) :
    countTermsIn bodyLower terms acc =
      acc + terms.countP (fun t => containsB bodyLower t) := by
  induction terms generalizing acc with
  | nil => simp [countTermsIn]
  | cons t rest ih =>
    simp only [countTermsIn, List.countP_cons]
    cases hc : containsB bodyLower t <;> (simp [hc, ih]; try omega)

/-- C6.  `detectContentType` applies the five specification rules in fixed
order with first match winning: (1) pdf by MIME or final path; (2) login
wall by body phrase plus password attribute, or auth URL pattern; (3)
portal listing by domain; (4) rfp page by at least two of the thirteen
terms; (5) other. -/
theorem C6_classifier_rules (mimeType finalURL bodyText : Str) :
    detectContentType mimeType finalURL bodyText = specClassify mimeType finalURL bodyText := by
  unfold detectContentType specClassify specRulePDF specRuleLoginWall specRulePortal
    specRuleRFP detectLoginWallV detectPortalListing detectRFPPage
  dsimp only
  rw [loginLoopV_eq, countTermsIn_eq]
  cases h1 : containsB (toLowerB mimeType) (bs "pdf")
  case true => simp
  case false =>
    cases h2 : (match urlParse finalURL with
      | some p => endsWithB (toLowerB p.path) (bs ".pdf")
      | none => false)
    case true => simp [h2]
    case false =>
      cases h3 : (loginPatternsV.any fun p => containsB (toLowerB bodyText) p) <;>
        cases h4 : hasPasswordAttr (toLowerB bodyText) <;>
          cases h5 : (authURLPatterns.any fun p => containsB (toLowerB finalURL) p) <;>
            cases h6 : (portalDomains.any fun d => containsB (toLowerB finalURL) d) <;>
              simp

/-- Helper: one search-phase iteration writes nothing to `search_results`
when the batch seen-check succeeds and every returned URL is already
stored. -/
theorem runSearchCase_no_insert (st : StoreState) (stats : SearchStats) (c : SearchCase)
    (h : c.cfg.enabled = true → ∀ rs, c.searchResp = some rs →
      c.batchCheckOk = true ∧ ∀ r ∈ rs, r.url ∈ st.seenURLs) :
    (runSearchCase true st stats c).1.seenURLs = st.seenURLs ∧
      (runSearchCase true st stats c).1.resultRowsInserted = st.resultRowsInserted ∧
      (runSearchCase true st stats c).2.2 = [] := by
  unfold runSearchCase
  by_cases he : c.cfg.enabled = true
  · rw [if_neg (by simp [he])]
    cases hr : c.searchResp with
    | none => exact ⟨rfl, rfl, rfl⟩
    | some rs =>
      obtain ⟨hb, hseen⟩ := h he rs hr
      dsimp only
      by_cases hlen : rs.length = 0
      · rw [if_pos hlen]
        by_cases hse : c.saveEmptyOk <;> simp [hse]
      · rw [if_neg hlen, hb]
        have hfilter : rs.filter (fun r => !decide (r.url ∈ st.seenURLs)) = [] := by
          rw [List.filter_eq_nil_iff]
          intro r hr2
          simp [hseen r hr2]
        simp only [if_pos rfl, hfilter]
        simp
  · rw [if_pos (by simp [he])]
    exact ⟨rfl, rfl, rfl⟩

/-- C8.  With `skip_seen_urls = true`, successful batch seen-checks, and a
store that already holds a `search_results` row for every URL the cycle's
searches return, the search phase inserts no `search_results` rows (the
store's URL set and row list are unchanged and no saved results are
passed on); only zero-result `search_queries` bookkeeping rows may be
written. -/
theorem C8_rerun_inserts_nothing (cases0 : List SearchCase) (st0 : StoreState)
    (stats0 : SearchStats)
    (h : ∀ c ∈ cases0, c.cfg.enabled = true → ∀ rs, c.searchResp = some rs →
      c.batchCheckOk = true ∧ ∀ r ∈ rs, r.url ∈ st0.seenURLs) :
    (executeSearchPhase true cases0 st0 stats0).1.resultRowsInserted = st0.resultRowsInserted ∧
      (executeSearchPhase true cases0 st0 stats0).1.seenURLs = st0.seenURLs ∧
      (executeSearchPhase true cases0 st0 stats0).2.2 = [] := by
  induction cases0 generalizing st0 stats0 with
  | nil => exact ⟨rfl, rfl, rfl⟩
  | cons c rest ih =>
    obtain ⟨hseen1, hrows1, hres1⟩ := runSearchCase_no_insert st0 stats0 c (h c (by simp))
    simp only [executeSearchPhase, hres1, List.nil_append]
    have ih2 := ih (runSearchCase true st0 stats0 c).1 (runSearchCase true st0 stats0 c).2.1
      (fun c' hc' he rs hrs => by
        obtain ⟨hb, hs⟩ := h c' (by simp [hc']) he rs hrs
        exact ⟨hb, fun r hrin => by rw [hseen1]; exact hs r hrin⟩)
    rw [hseen1, hrows1] at ih2
    exact ih2

/-- C8, witness: a cycle whose single query returns one already-stored URL
writes nothing. -/
theorem C8_rerun_inserts_nothing_witness :
    (executeSearchPhase true [seenCase] seenStore emptyStats).1.resultRowsInserted
        = seenStore.resultRowsInserted ∧
      (executeSearchPhase true [seenCase] seenStore emptyStats).1.seenURLs = seenStore.seenURLs ∧
      (executeSearchPhase true [seenCase] seenStore emptyStats).2.2 = [] :=
  C8_rerun_inserts_nothing [seenCase] seenStore emptyStats (by decide)

/-- Helper: `executeStep` returns a `nil` error in every branch, exactly as
the source's `return step, nil`. -/
theorem executeStep_err_none (env : AgentEnv) (w : AgentWorld) (rc : ResearchContext) (n : Nat) :
    (executeStep env w rc n).2.2.2 = none := by
  simp only [executeStep]
  split_ifs <;> first
    | rfl
    | (cases h : env.fetch w.fetchN <;> simp)
    | (cases h : (env.extract w.extractN).res <;> simp)

/-- Helper: the research loop never produces an error. -/
theorem researchLoop_err_none (env : AgentEnv) :
    ∀ (fuel sc : Nat) (w : AgentWorld) (rc : ResearchContext),
      (researchLoop env fuel sc w rc).err = none := by
  intro fuel
  induction fuel with
  | zero => intro sc w rc; rfl
  | succ f ih =>
    intro sc w rc
    simp only [researchLoop]
    by_cases h : rc.status ≠ StatusResearching
    · simp [h]
    · rw [if_neg h]
      rw [executeStep_err_none]
      exact ih _ _ _

/-- C10, counterexample.  When a step's execution fails (here the fetch
returns HTTP 404), `Research` does not report the failure through
`Success=false` / `Status=failed` / a set `Error` field: the failed fetch
is recorded on the step itself, the agent marks the result for manual
review, and the returned result has `Success=true` with an empty error. -/
theorem C10_counterexample :
    ((Research envFetchFails 5 searchInput1).1.steps.map fun s => (s.action, s.success))
        = [(bs "fetch_page", false), (bs "mark_needs_manual", true)] ∧
      (Research envFetchFails 5 searchInput1).1.success = true ∧
      (Research envFetchFails 5 searchInput1).1.status = StatusNeedsManual ∧
      (Research envFetchFails 5 searchInput1).1.errMsg = [] := by
  refine ⟨by decide, by decide, by decide, by decide⟩

/-- Helper: `decideAction` only ever returns one of its six action names. -/
theorem decideAction_cases (rc : ResearchContext) :
    decideAction rc = bs "mark_needs_manual" ∨ decideAction rc = bs "fetch_page" ∨
      decideAction rc = bs "mark_login_required" ∨ decideAction rc = bs "extract_details" ∨
      decideAction rc = bs "discover_pdfs" ∨ decideAction rc = bs "mark_complete" := by
  unfold decideAction
  split_ifs <;> simp

/-- Helper: a loop entered with a terminal status returns at once. -/
theorem researchLoop_not_researching (env : AgentEnv) (fuel sc : Nat) (w : AgentWorld)
    (rc : ResearchContext) (h : rc.status ≠ StatusResearching) :
    researchLoop env fuel sc w rc = ⟨rc, [], sc, 0, w, none⟩ := by
  cases fuel with
  | zero => rfl
  | succ f => simp only [researchLoop, if_pos h]

/-- Helper: `executeStep` on a `fetch_page` decision. -/
theorem executeStep_fetch (env : AgentEnv) (w : AgentWorld) (rc : ResearchContext) (n : Nat)
    (h : decideAction rc = bs "fetch_page") :
    executeStep env w rc n =
      match env.fetch w.fetchN with
      | .error e =>
        (⟨n, bs "fetch_page", false, 0⟩,
         { rc with fetchFailed := true, fetchError := e },
         { w with fetchN := w.fetchN + 1 }, none)
      | .ok (furl, content) =>
        (⟨n, bs "fetch_page", true, 0⟩,
         { rc with currentURL := furl, pageContent := content },
         { w with fetchN := w.fetchN + 1 }, none) := by
  unfold executeStep
  rw [h, if_pos rfl]

/-- Helper: `executeStep` on an `extract_details` decision. -/
theorem executeStep_extract (env : AgentEnv) (w : AgentWorld) (rc : ResearchContext) (n : Nat)
    (h : decideAction rc = bs "extract_details") :
    executeStep env w rc n =
      match (env.extract w.extractN).res with
      | .error _ =>
        (⟨n, bs "extract_details", false, (env.extract w.extractN).tokens⟩, rc,
         { w with extractN := w.extractN + 1 }, none)
      | .ok d =>
        (⟨n, bs "extract_details", true, (env.extract w.extractN).tokens⟩,
         { rc with extractedDetails := some d },
         { w with extractN := w.extractN + 1 }, none) := by
  unfold executeStep
  rw [h, if_neg (by decide), if_pos rfl]

/-- Helper: `executeStep` on a `discover_pdfs` decision. -/
theorem executeStep_discover (env : AgentEnv) (w : AgentWorld) (rc : ResearchContext) (n : Nat)
    (h : decideAction rc = bs "discover_pdfs") :
    executeStep env w rc n =
      (⟨n, bs "discover_pdfs", true, 0⟩,
       { rc with pdfSearchDone := true, foundPDFs := discoverPDFLinks rc.pageContent },
       w, none) := by
  unfold executeStep
  rw [h, if_neg (by decide), if_neg (by decide), if_pos rfl]

/-- Helper: `executeStep` on a `mark_complete` decision. -/
theorem executeStep_complete (env : AgentEnv) (w : AgentWorld) (rc : ResearchContext) (n : Nat)
    (h : decideAction rc = bs "mark_complete") :
    executeStep env w rc n =
      (⟨n, bs "mark_complete", true, 0⟩, { rc with status := StatusResearched }, w, none) := by
  unfold executeStep
  rw [h, if_neg (by decide), if_neg (by decide), if_neg (by decide), if_pos rfl]

/-- Helper: `executeStep` on a `mark_needs_manual` decision. -/
theorem executeStep_needs_manual (env : AgentEnv) (w : AgentWorld) (rc : ResearchContext) (n : Nat)
    (h : decideAction rc = bs "mark_needs_manual") :
    executeStep env w rc n =
      (⟨n, bs "mark_needs_manual", true, 0⟩, { rc with status := StatusNeedsManual }, w, none) := by
  unfold executeStep
  rw [h, if_neg (by decide), if_neg (by decide), if_neg (by decide), if_neg (by decide),
    if_pos rfl]

/-- Helper: `executeStep` on a `mark_login_required` decision. -/
theorem executeStep_login (env : AgentEnv) (w : AgentWorld) (rc : ResearchContext) (n : Nat)
    (h : decideAction rc = bs "mark_login_required") :
    executeStep env w rc n =
      (⟨n, bs "mark_login_required", true, 0⟩,
       { rc with status := StatusNeedsManualUpload }, w, none) := by
  unfold executeStep
  rw [h, if_neg (by decide), if_neg (by decide), if_neg (by decide), if_neg (by decide),
    if_neg (by decide), if_pos rfl]

/-- Helper: one executed step records the given step number, is never the
synthetic `give_up`, flips the status away from `researching` exactly when
its action is terminal, and never sets `research_exhausted`. -/
theorem executeStep_props (env : AgentEnv) (w : AgentWorld) (rc : ResearchContext) (n : Nat)
    (hrc : rc.status = StatusResearching) :
    (executeStep env w rc n).1.stepNumber = n ∧
      (executeStep env w rc n).1.action ≠ bs "give_up" ∧
      ((executeStep env w rc n).2.1.status = StatusResearching ↔
        isTerminalAction (executeStep env w rc n).1.action = false) ∧
      (executeStep env w rc n).2.1.status ≠ StatusExhausted := by
  rcases decideAction_cases rc with h | h | h | h | h | h
  · rw [executeStep_needs_manual env w rc n h]
    refine ⟨rfl, ?_, ?_, ?_⟩ <;> (dsimp only; try rw [hrc]) <;> decide
  · rw [executeStep_fetch env w rc n h]
    cases hf : env.fetch w.fetchN with
    | error e =>
      refine ⟨rfl, ?_, ?_, ?_⟩ <;> (dsimp only; try rw [hrc]) <;> decide
    | ok p =>
      obtain ⟨furl, content⟩ := p
      refine ⟨rfl, ?_, ?_, ?_⟩ <;> (dsimp only; try rw [hrc]) <;> decide
  · rw [executeStep_login env w rc n h]
    refine ⟨rfl, ?_, ?_, ?_⟩ <;> (dsimp only; try rw [hrc]) <;> decide
  · rw [executeStep_extract env w rc n h]
    cases he : (env.extract w.extractN).res with
    | error e =>
      refine ⟨rfl, ?_, ?_, ?_⟩ <;> (dsimp only; try rw [hrc]) <;> decide
    | ok d =>
      refine ⟨rfl, ?_, ?_, ?_⟩ <;> (dsimp only; try rw [hrc]) <;> decide
  · rw [executeStep_discover env w rc n h]
    refine ⟨rfl, ?_, ?_, ?_⟩ <;> (dsimp only; try rw [hrc]) <;> decide
  · rw [executeStep_complete env w rc n h]
    refine ⟨rfl, ?_, ?_, ?_⟩ <;> (dsimp only; try rw [hrc]) <;> decide

/-- Helper: one unfolding of the research loop while still researching. -/
theorem researchLoop_succ (env : AgentEnv) (f sc : Nat) (w : AgentWorld)
    (rc : ResearchContext) (hrc : rc.status = StatusResearching) :
    researchLoop env (f + 1) sc w rc =
      ⟨(researchLoop env f (sc + 1) (executeStep env w rc (sc + 1)).2.2.1
          (executeStep env w rc (sc + 1)).2.1).rc,
       (executeStep env w rc (sc + 1)).1 ::
         (researchLoop env f (sc + 1) (executeStep env w rc (sc + 1)).2.2.1
           (executeStep env w rc (sc + 1)).2.1).steps,
       (researchLoop env f (sc + 1) (executeStep env w rc (sc + 1)).2.2.1
         (executeStep env w rc (sc + 1)).2.1).stepCount,
       (executeStep env w rc (sc + 1)).1.tokensUsed +
         (researchLoop env f (sc + 1) (executeStep env w rc (sc + 1)).2.2.1
           (executeStep env w rc (sc + 1)).2.1).tokens,
       (researchLoop env f (sc + 1) (executeStep env w rc (sc + 1)).2.2.1
         (executeStep env w rc (sc + 1)).2.1).w,
       (researchLoop env f (sc + 1) (executeStep env w rc (sc + 1)).2.2.1
         (executeStep env w rc (sc + 1)).2.1).err⟩ := by
  simp only [researchLoop]
  rw [if_neg (not_not_intro hrc)]
  rw [executeStep_err_none]

/-- Helper: the research loop satisfies its invariants. -/
theorem researchLoop_props (env : AgentEnv) :
    ∀ (fuel sc : Nat) (w : AgentWorld) (rc : ResearchContext),
      rc.status = StatusResearching → LoopSpec sc fuel (researchLoop env fuel sc w rc) := by
  intro fuel
  induction fuel with
  | zero =>
    intro sc w rc hrc
    refine ⟨?_, ?_, ?_, ?_, ?_, ?_, ?_⟩
    · intro i hi; exact absurd hi (by simp [researchLoop])
    · rfl
    · simp [researchLoop]
    · simp [researchLoop]
    · show rc.status ≠ StatusExhausted
      rw [hrc]; decide
    · intro _; exact ⟨rfl, by simp [researchLoop]⟩
    · intro hcon; exact absurd hrc hcon
  | succ f ih =>
    intro sc w rc hrc
    obtain ⟨hnum, hgive, hiff, hnex⟩ := executeStep_props env w rc (sc + 1) hrc
    rw [researchLoop_succ env f sc w rc hrc]
    by_cases hres : (executeStep env w rc (sc + 1)).2.1.status = StatusResearching
    · -- non-terminal step: the loop continues
      have hnt : isTerminalAction (executeStep env w rc (sc + 1)).1.action = false :=
        hiff.mp hres
      obtain ⟨inum, icount, ilen, igive, inex, ires, iterm⟩ :=
        ih (sc + 1) (executeStep env w rc (sc + 1)).2.2.1 (executeStep env w rc (sc + 1)).2.1 hres
      refine ⟨?_, ?_, ?_, ?_, ?_, ?_, ?_⟩
      · intro i hi
        match i with
        | 0 => simpa using hnum
        | j + 1 =>
          have hj : j < (researchLoop env f (sc + 1) (executeStep env w rc (sc + 1)).2.2.1
              (executeStep env w rc (sc + 1)).2.1).steps.length := by
            simpa using hi
          have := inum j hj
          simpa [this] using by omega
      · simp only [List.length_cons]
        rw [icount]; omega
      · simp only [List.length_cons]; omega
      · intro s hs
        rcases List.mem_cons.mp hs with h | h
        · rw [h]; exact hgive
        · exact igive s h
      · exact inex
      · intro hres2
        obtain ⟨hlen, hall⟩ := ires hres2
        refine ⟨by simp [hlen], ?_⟩
        intro s hs
        rcases List.mem_cons.mp hs with h | h
        · rw [h]; exact hnt
        · exact hall s h
      · intro hne2
        obtain ⟨hne3, hlast, hdrop⟩ := iterm hne2
        refine ⟨by simp, ?_, ?_⟩
        · rwa [List.getLast_cons hne3]
        · rw [List.dropLast_cons_of_ne_nil hne3]
          intro s hs
          rcases List.mem_cons.mp hs with h | h
          · rw [h]; exact hnt
          · exact hdrop s h
    · -- terminal step: the loop stops
      have hterm : isTerminalAction (executeStep env w rc (sc + 1)).1.action = true := by
        cases hx : isTerminalAction (executeStep env w rc (sc + 1)).1.action
        · exact absurd (hiff.mpr hx) hres
        · rfl
      rw [researchLoop_not_researching env f (sc + 1) _ _ hres]
      refine ⟨?_, ?_, ?_, ?_, ?_, ?_, ?_⟩
      · intro i hi
        match i with
        | 0 => simpa using hnum
        | j + 1 => exact absurd hi (by simp)
      · simp
      · simp
      · intro s hs
        rcases List.mem_cons.mp hs with h | h
        · rw [h]; exact hgive
        · exact absurd h (List.not_mem_nil s)
      · exact hnex
      · intro hcon; exact absurd hcon hres
      · intro _
        exact ⟨by simp, by simpa using hterm, by simp⟩

/-- C3.  For every environment, search result and budget `max_steps ≥ 1`,
the recorded research steps are numbered densely from 1 (hence strictly
increasing), contain exactly one terminal action which is the last (and so
highest-numbered) step, and number at most `max_steps + 1`; the final
status is `research_exhausted` exactly when the budget ran out without a
terminal action, in which case the last step is the synthetic `give_up`. -/
theorem C3_research_step_log (env : AgentEnv) (maxSteps : Nat) (input : SearchResultIn)
    (_hpos : 1 ≤ maxSteps) :
    (∀ i (hi : i < (Research env maxSteps input).1.steps.length),
      ((Research env maxSteps input).1.steps[i]).stepNumber = i + 1) ∧
    (Research env maxSteps input).1.steps.countP (fun s => isTerminalAction s.action) = 1 ∧
    (∃ hne : (Research env maxSteps input).1.steps ≠ [],
      isTerminalAction ((Research env maxSteps input).1.steps.getLast hne).action = true) ∧
    (Research env maxSteps input).1.steps.length ≤ maxSteps + 1 ∧
    ((Research env maxSteps input).1.status = StatusExhausted ↔
      ∃ hne : (Research env maxSteps input).1.steps ≠ [],
        ((Research env maxSteps input).1.steps.getLast hne).action = bs "give_up") := by
  have hrc0 : (initialContext input).status = StatusResearching := rfl
  obtain ⟨inum, icount, ilen, igive, inex, ires, iterm⟩ :=
    researchLoop_props env maxSteps 0 ⟨0, 0⟩ (initialContext input) hrc0
  have herr := researchLoop_err_none env maxSteps 0 ⟨0, 0⟩ (initialContext input)
  unfold Research
  dsimp only
  rw [herr]
  set L := researchLoop env maxSteps 0 ⟨0, 0⟩ (initialContext input) with hLdef
  by_cases hres : L.rc.status = StatusResearching
  · obtain ⟨hlen, hall⟩ := ires hres
    have hx : L.stepCount ≥ maxSteps ∧ L.rc.status = StatusResearching := by
      refine ⟨?_, hres⟩
      rw [icount, hlen]
      omega
    rw [if_pos hx, if_pos hx]
    dsimp only
    have hcount0 : L.steps.countP (fun s => isTerminalAction s.action) = 0 := by
      rw [List.countP_eq_zero]
      intro s hs
      simp [hall s hs]
    have hgn : L.stepCount + 1 = L.steps.length + 1 := by rw [icount]; omega
    refine ⟨?_, ?_, ?_, ?_, ?_⟩
    · intro i hi
      have hi2 : i < L.steps.length + 1 := by simpa using hi
      rcases Nat.lt_or_ge i L.steps.length with hlt | hge
      · rw [List.getElem_append_left hlt]
        simpa using inum i hlt
      · have hieq : i = L.steps.length := by omega
        subst hieq
        rw [List.getElem_append_right (by omega)]
        simp [hgn, icount]
    · rw [List.countP_append, hcount0]
      simp [isTerminalAction]
    · refine ⟨by simp, ?_⟩
      rw [List.getLast_append_singleton]
      dsimp only
      decide
    · simp only [List.length_append, List.length_singleton]
      omega
    · constructor
      · intro _
        refine ⟨by simp, ?_⟩
        rw [List.getLast_append_singleton]
      · intro _; rfl
  · have hx : ¬(L.stepCount ≥ maxSteps ∧ L.rc.status = StatusResearching) :=
      fun hc => hres hc.2
    rw [if_neg hx, if_neg hx]
    dsimp only
    obtain ⟨hne, hlast, hdrop⟩ := iterm hres
    refine ⟨?_, ?_, ?_, ?_, ?_⟩
    · intro i hi
      simpa using inum i hi
    · have hsplit := List.dropLast_append_getLast hne
      calc L.steps.countP (fun s => isTerminalAction s.action)
          = (L.steps.dropLast ++ [L.steps.getLast hne]).countP
              (fun s => isTerminalAction s.action) := by rw [hsplit]
        _ = 1 := by
            rw [List.countP_append]
            have : L.steps.dropLast.countP (fun s => isTerminalAction s.action) = 0 := by
              rw [List.countP_eq_zero]
              intro s hs
              simp [hdrop s hs]
            rw [this]
            simp [hlast]
    · exact ⟨hne, hlast⟩
    · omega
    · constructor
      · intro hcon; exact absurd hcon inex
      · intro ⟨hne2, hgu⟩
        exact absurd hgu (igive _ (List.getLast_mem hne2))

/-- C3, witness: the invariants instantiated on a concrete failing-fetch
run with the default budget of five steps. -/
theorem C3_research_step_log_witness :
    (∀ i (hi : i < (Research envFetchFails 5 searchInput1).1.steps.length),
      ((Research envFetchFails 5 searchInput1).1.steps[i]).stepNumber = i + 1) ∧
    (Research envFetchFails 5 searchInput1).1.steps.countP
        (fun s => isTerminalAction s.action) = 1 ∧
    (∃ hne : (Research envFetchFails 5 searchInput1).1.steps ≠ [],
      isTerminalAction ((Research envFetchFails 5 searchInput1).1.steps.getLast hne).action
        = true) ∧
    (Research envFetchFails 5 searchInput1).1.steps.length ≤ 5 + 1 ∧
    ((Research envFetchFails 5 searchInput1).1.status = StatusExhausted ↔
      ∃ hne : (Research envFetchFails 5 searchInput1).1.steps ≠ [],
        ((Research envFetchFails 5 searchInput1).1.steps.getLast hne).action = bs "give_up") :=
  C3_research_step_log envFetchFails 5 searchInput1 (by decide)

/-- Helper: while the context holds a fetched page that is not a login
wall and whose extraction keeps producing an empty title, every loop step
is another `extract_details` and the context stays `researching`. -/
theorem researchLoop_extract_forever (env : AgentEnv) (content : Str)
    (hcne : content ≠ []) (hlogin : detectLoginWallA content = false)
    (hextract : ∀ k, ∃ d, (env.extract k).res = .ok d ∧ d.Title = []) :
    ∀ (fuel sc : Nat) (w : AgentWorld) (rc : ResearchContext),
      rc.status = StatusResearching → rc.fetchFailed = false →
      rc.pageContent = content →
      (rc.extractedDetails = none ∨ ∃ d, rc.extractedDetails = some d ∧ d.Title = []) →
      ((researchLoop env fuel sc w rc).steps.map (fun s => s.action) =
          List.replicate fuel (bs "extract_details")) ∧
        (researchLoop env fuel sc w rc).rc.status = StatusResearching ∧
        (researchLoop env fuel sc w rc).stepCount = sc + fuel := by
  intro fuel
  induction fuel with
  | zero =>
    intro sc w rc hst _ _ _
    exact ⟨rfl, hst, rfl⟩
  | succ f ih =>
    intro sc w rc hst hff hpc hed
    have hda : decideAction rc = bs "extract_details" := by
      unfold decideAction
      rw [if_neg (by simp [hff]), if_neg (by rw [hpc]; simpa using hcne),
        if_neg (by rw [hpc]; simp [hlogin]), if_pos ?_]
      rcases hed with h | ⟨d, hd, hdt⟩
      · exact Or.inl h
      · right; simp [hd, hdt]
    obtain ⟨d, hd, hdt⟩ := hextract w.extractN
    have hexec := executeStep_extract env w rc (sc + 1) hda
    rw [hd] at hexec
    rw [researchLoop_succ env f sc w rc hst, hexec]
    obtain ⟨msteps, mstatus, mcount⟩ :=
      ih (sc + 1) { w with extractN := w.extractN + 1 }
        { rc with extractedDetails := some d } hst hff hpc (Or.inr ⟨d, rfl, hdt⟩)
    refine ⟨?_, mstatus, ?_⟩
    · simp only [List.map_cons, msteps]
      rfl
    · rw [mcount]; omega

/-- C2, counterexample.  On an all-200 fetch of a page that is not a login
wall, with structured extraction returning an empty title, the agent does
not proceed to `discover_pdfs` and `mark_needs_manual` as the claim says:
`decideAction` keeps choosing `extract_details` (extraction absent *or
empty title* re-extracts), the budget runs out, and the run ends with a
synthetic `give_up` and status `research_exhausted`. -/
theorem C2_counterexample :
    ((Research envEmptyTitle 5 searchInput1).1.steps.map fun s => s.action) =
        [bs "fetch_page", bs "extract_details", bs "extract_details", bs "extract_details",
         bs "extract_details", bs "give_up"] ∧
      (Research envEmptyTitle 5 searchInput1).1.status = StatusExhausted ∧
      ((Research envEmptyTitle 5 searchInput1).1.steps.map fun s => s.action) ≠
        [bs "fetch_page", bs "extract_details", bs "discover_pdfs", bs "mark_needs_manual"] := by
  refine ⟨by decide, by decide, by decide⟩

/-- C2, amended.  When the fetch succeeds with non-empty non-login-wall
page text and every extraction yields an empty title, the step sequence is
`fetch_page`, then `extract_details` repeated for the whole remaining
budget, then the synthetic `give_up`, with final status
`research_exhausted`; `discover_pdfs` and `mark_needs_manual` are never
reached. -/
theorem C2_empty_title_exhausts (env : AgentEnv) (maxSteps : Nat) (furl content : Str)
    (input : SearchResultIn) (hpos : 1 ≤ maxSteps)
    (hfetch : env.fetch 0 = .ok (furl, content))
    (hcne : content ≠ [])
    (hlogin : detectLoginWallA content = false)
    (hextract : ∀ k, ∃ d, (env.extract k).res = .ok d ∧ d.Title = []) :
    ((Research env maxSteps input).1.steps.map fun s => s.action) =
        bs "fetch_page" ::
          (List.replicate (maxSteps - 1) (bs "extract_details") ++ [bs "give_up"]) ∧
      (Research env maxSteps input).1.status = StatusExhausted := by
  obtain ⟨k, rfl⟩ : ∃ k, maxSteps = k + 1 := ⟨maxSteps - 1, by omega⟩
  have hda : decideAction (initialContext input) = bs "fetch_page" := by
    unfold decideAction
    rw [if_neg (by simp [initialContext]), if_pos (by simp [initialContext])]
  have hexec := executeStep_fetch env ⟨0, 0⟩ (initialContext input) 1 hda
  rw [hfetch] at hexec
  unfold Research
  dsimp only
  rw [researchLoop_err_none]
  dsimp only
  rw [researchLoop_succ env k 0 ⟨0, 0⟩ (initialContext input) rfl, hexec]
  dsimp only
  obtain ⟨msteps, mstatus, mcount⟩ :=
    researchLoop_extract_forever env content hcne hlogin hextract k 1 ⟨1, 0⟩
      { initialContext input with currentURL := furl, pageContent := content }
      rfl rfl rfl (Or.inl rfl)
  rw [if_pos ⟨by rw [mcount]; omega, mstatus⟩, if_pos ⟨by rw [mcount]; omega, mstatus⟩]
  constructor
  · simp only [List.map_append, List.map_cons, msteps, List.map_nil]
    simp [mcount]
  · rfl

/-- C2, amended, witness: the concrete empty-title environment with the
default budget of five steps. -/
theorem C2_empty_title_exhausts_witness :
    ((Research envEmptyTitle 5 searchInput1).1.steps.map fun s => s.action) =
        bs "fetch_page" ::
          (List.replicate (5 - 1) (bs "extract_details") ++ [bs "give_up"]) ∧
      (Research envEmptyTitle 5 searchInput1).1.status = StatusExhausted :=
  C2_empty_title_exhausts envEmptyTitle 5 (bs "https://example.com/rfp")
    (bs "Welcome to the city procurement page") searchInput1 (by decide) rfl (by decide)
    (by decide) (fun k => ⟨emptyDetails, rfl, rfl⟩)

/-- C10, amended.  `Agent.Research` never returns a non-nil error, for
every environment, budget and input — step failures are recorded on the
steps and the result always carries `Success=true`; the
`Success=false`/`Status=failed` branch is unreachable. -/
theorem C10_research_never_errs (env : AgentEnv) (maxSteps : Nat) (input : SearchResultIn) :
    (Research env maxSteps input).2 = none ∧ (Research env maxSteps input).1.success = true := by
  unfold Research
  dsimp only
  rw [researchLoop_err_none]
  exact ⟨rfl, rfl⟩


/-- Helper: `dropWhile` is the identity when no element satisfies the
predicate. -/
theorem dropWhile_eq_self_of_none (p : Nat → Bool) :
    ∀ s : Str, (∀ b ∈ s, p b = false) → s.dropWhile p = s := by
  intro s h
  induction s with
  | nil => rfl
  | cons b t ih =>
    rw [List.dropWhile_cons, if_neg (by simp [h b (by simp)])]

/-- Helper: `strings.TrimSpace` leaves a space-free string unchanged. -/
theorem trimSpaceB_eq_self (s : Str) (h : ∀ b ∈ s, isSpaceB b = false) :
    trimSpaceB s = s := by
  unfold trimSpaceB
  rw [dropWhile_eq_self_of_none _ s h,
    dropWhile_eq_self_of_none _ s.reverse (by intro b hb; exact h b (List.mem_reverse.mp hb)),
    List.reverse_reverse]

/-- Helper: no byte of a formatted date is white space. -/
theorem formatDate_no_space (d : GoDate) : ∀ b ∈ formatDate d, isSpaceB b = false := by
  intro b hb
  simp only [formatDate, pad4, pad2, List.mem_append, List.mem_cons,
    List.not_mem_nil, or_false] at hb
  simp only [isSpaceB, decide_eq_false_iff_not]
  rcases hb with h|h|h|h|h|h|h|h|h|h <;> omega

/-- Helper: a formatted date is non-empty. -/
theorem formatDate_ne_nil (d : GoDate) : formatDate d ≠ [] := by
  simp [formatDate, pad4]

/-- Helper: two-digit zero-padded numbers read back. -/
theorem readFixedNat_pad2 (n : Nat) (hn : n ≤ 99) (rest : Str) :
    readFixedNat 2 (pad2 n ++ rest) = some (n, rest) := by
  have h1 : n / 10 % 10 < 10 := Nat.mod_lt _ (by omega)
  have h2 : n % 10 < 10 := Nat.mod_lt _ (by omega)
  simp only [pad2, List.cons_append, List.nil_append, readFixedNat]
  rw [if_pos (by simp [isDigitB]; omega), if_pos (by simp [isDigitB]; omega)]
  simp only [Option.bind_eq_bind, Option.some_bind, Option.some.injEq, Prod.mk.injEq]
  constructor
  · omega
  · rfl

/-- Helper: four-digit zero-padded numbers read back. -/
theorem readFixedNat_pad4 (n : Nat) (hn : n ≤ 9999) (rest : Str) :
    readFixedNat 4 (pad4 n ++ rest) = some (n, rest) := by
  have h1 : n / 1000 % 10 < 10 := Nat.mod_lt _ (by omega)
  have h2 : n / 100 % 10 < 10 := Nat.mod_lt _ (by omega)
  have h3 : n / 10 % 10 < 10 := Nat.mod_lt _ (by omega)
  have h4 : n % 10 < 10 := Nat.mod_lt _ (by omega)
  simp only [pad4, List.cons_append, List.nil_append, readFixedNat]
  rw [if_pos (by simp [isDigitB]; omega), if_pos (by simp [isDigitB]; omega),
    if_pos (by simp [isDigitB]; omega), if_pos (by simp [isDigitB]; omega)]
  simp only [Option.bind_eq_bind, Option.some_bind, Option.some.injEq, Prod.mk.injEq]
  constructor
  · omega
  · rfl

/-- Helper: parsing a formatted valid date returns the date. -/
theorem parseDateISO_format (d : GoDate) (hv : validDate d) :
    parseDateISO (formatDate d) = some d := by
  obtain ⟨hy1, hy2, hm1, hm2, hd1, hd2⟩ := hv
  have hdle : d.day ≤ 99 := by
    refine le_trans hd2 ?_
    unfold daysInMonth
    split_ifs <;> omega
  have heq : formatDate d =
      pad4 d.year ++ (45 :: (pad2 d.month ++ (45 :: pad2 d.day))) := by
    simp [formatDate, pad2, pad4]
  have hday2 : readFixedNat 2 (pad2 d.day) = some (d.day, []) := by
    have := readFixedNat_pad2 d.day hdle []
    rwa [List.append_nil] at this
  unfold parseDateISO
  rw [heq, readFixedNat_pad4 d.year hy2]
  simp only [Option.bind_eq_bind, Option.some_bind]
  rw [show expectByte 45 (45 :: (pad2 d.month ++ 45 :: pad2 d.day))
      = some (pad2 d.month ++ 45 :: pad2 d.day) from by simp [expectByte]]
  simp only [Option.some_bind]
  rw [readFixedNat_pad2 d.month (by omega)]
  simp only [Option.some_bind]
  rw [show expectByte 45 (45 :: pad2 d.day) = some (pad2 d.day) from by simp [expectByte]]
  simp only [Option.some_bind]
  rw [hday2]
  simp only [Option.some_bind]
  unfold mkValidDate
  split_ifs with h1 h2
  · rfl
  · exact absurd ⟨hm1, hm2, hd1, hd2⟩ h2
  · exact absurd trivial h1
  · exact absurd trivial h1

/-- Helper: `NormalizeDate` fixes the `YYYY-MM-DD` rendering of a valid
date (the first layout already parses it). -/
theorem normalizeDate_format (d : GoDate) (hv : validDate d) :
    NormalizeDate (formatDate d) = formatDate d := by
  unfold NormalizeDate
  rw [if_neg (formatDate_ne_nil d), trimSpaceB_eq_self _ (formatDate_no_space d)]
  unfold dateFormats tryFormats
  rw [parseDateISO_format d hv]

/-- Helper: `AgencyMatches` is reflexive on non-empty strings. -/
theorem agencyMatches_self (a : Str) (h : a ≠ []) : AgencyMatches a a = true := by
  unfold AgencyMatches
  rw [if_neg (by simp [h]), if_pos rfl]

/-- Helper: `DatesMatch` is reflexive. -/
theorem datesMatch_self (x : Str) : DatesMatch x x = true := by
  unfold DatesMatch
  rw [if_pos rfl]

/-- Helper: the loop's best score never decreases. -/
theorem checkLoop_score_ge (a s d : Str) :
    ∀ (l : List RFP) (bm : Option RFP) (bsc : Score),
      bsc ≤ (checkLoop a s d l (bm, bsc)).2 := by
  intro l
  induction l with
  | nil => intro bm bsc; exact le_refl _
  | cons c t ih =>
    intro bm bsc
    simp only [checkLoop]
    by_cases h : calculateMatchScore c a s d > bsc ∧ calculateMatchScore c a s d ≥ MatchThreshold
    · rw [if_pos h]
      exact le_trans (le_of_lt h.1) (ih (some c) (calculateMatchScore c a s d))
    · rw [if_neg h]
      exact ih bm bsc

/-- Helper: the loop's final score dominates every member that reaches the
threshold. -/
theorem checkLoop_score_mem (a s d : Str) :
    ∀ (l : List RFP) (bm : Option RFP) (bsc : Score) (c : RFP), c ∈ l →
      MatchThreshold ≤ calculateMatchScore c a s d →
      calculateMatchScore c a s d ≤ (checkLoop a s d l (bm, bsc)).2 := by
  intro l
  induction l with
  | nil => intro bm bsc c hc; exact absurd hc (List.not_mem_nil c)
  | cons x t ih =>
    intro bm bsc c hc hth
    rcases List.mem_cons.mp hc with rfl | hmem
    · simp only [checkLoop]
      by_cases h : calculateMatchScore c a s d > bsc ∧
          calculateMatchScore c a s d ≥ MatchThreshold
      · rw [if_pos h]
        exact checkLoop_score_ge a s d t (some c) (calculateMatchScore c a s d)
      · rw [if_neg h]
        have hle : calculateMatchScore c a s d ≤ bsc := by
          rcases Nat.lt_or_ge bsc (calculateMatchScore c a s d) with hlt | hge2
          · exact absurd ⟨hlt, hth⟩ h
          · exact hge2
        exact le_trans hle (checkLoop_score_ge a s d t bm bsc)
    · simp only [checkLoop]
      by_cases h : calculateMatchScore x a s d > bsc ∧
          calculateMatchScore x a s d ≥ MatchThreshold
      · rw [if_pos h]
        exact ih (some x) (calculateMatchScore x a s d) c hmem hth
      · rw [if_neg h]
        exact ih bm bsc c hmem hth

/-- Helper: once the loop holds a candidate it keeps one. -/
theorem checkLoop_keeps_some (a s d : Str) :
    ∀ (l : List RFP) (b : RFP) (bsc : Score),
      (checkLoop a s d l (some b, bsc)).1 ≠ none := by
  intro l
  induction l with
  | nil => intro b bsc; simp [checkLoop]
  | cons x t ih =>
    intro b bsc
    simp only [checkLoop]
    by_cases h : calculateMatchScore x a s d > bsc ∧
        calculateMatchScore x a s d ≥ MatchThreshold
    · rw [if_pos h]
      exact ih _ _
    · rw [if_neg h]
      exact ih _ _

/-- Helper: a member at or above the threshold and above the accumulator
score forces a match. -/
theorem checkLoop_finds (a s d : Str) :
    ∀ (l : List RFP) (bsc : Score) (c : RFP), c ∈ l →
      MatchThreshold ≤ calculateMatchScore c a s d →
      bsc < calculateMatchScore c a s d →
      (checkLoop a s d l (none, bsc)).1 ≠ none := by
  intro l
  induction l with
  | nil => intro bsc c hc; exact absurd hc (List.not_mem_nil c)
  | cons x t ih =>
    intro bsc c hc hth hgt
    rcases List.mem_cons.mp hc with rfl | hmem
    · simp only [checkLoop]
      rw [if_pos (show calculateMatchScore c a s d > bsc ∧
          calculateMatchScore c a s d ≥ MatchThreshold from ⟨hgt, hth⟩)]
      exact checkLoop_keeps_some a s d t _ _
    · simp only [checkLoop]
      by_cases h : calculateMatchScore x a s d > bsc ∧
          calculateMatchScore x a s d ≥ MatchThreshold
      · rw [if_pos h]
        exact checkLoop_keeps_some a s d t _ _
      · rw [if_neg h]
        exact ih bsc c hmem hth hgt

/-- Helper: `NormalizeAgency` of the empty string is empty. -/
theorem normalizeAgency_nil : NormalizeAgency [] = [] := by decide

/-- Helper: a record whose hints match itself scores the full 100. -/
theorem calculateMatchScore_self (rfp : RFP) (d : GoDate)
    (hst : rfp.State ≠ []) (hstn : NormalizeState rfp.State = rfp.State)
    (hdd : rfp.DueDate = some d) (hv : validDate d) :
    calculateMatchScore rfp (NormalizeAgency rfp.Agency) (NormalizeState rfp.State)
      (NormalizeDate (formatDate d)) = 100 := by
  unfold calculateMatchScore
  rw [if_neg (by simp)]
  have hsne : NormalizeState rfp.State ≠ [] := by rw [hstn]; exact hst
  rw [if_pos rfl, if_pos hsne, if_pos rfl, hdd]
  rw [normalizeDate_format d hv]
  dsimp only
  rw [if_pos (formatDate_ne_nil d), if_pos (datesMatch_self (formatDate d))]

/-- Helper: a self-matching record is among the candidates. -/
theorem findCandidates_self (rfps : List RFP) (rfp : RFP) (hmem : rfp ∈ rfps)
    (hag : NormalizeAgency rfp.Agency ≠ [])
    (hstn : NormalizeState rfp.State = rfp.State) :
    rfp ∈ findCandidates rfps (NormalizeAgency rfp.Agency) (NormalizeState rfp.State) := by
  unfold findCandidates
  rw [List.mem_filter]
  refine ⟨hmem, ?_⟩
  rw [Bool.and_eq_true, decide_eq_true_iff]
  constructor
  · intro hcon
    exact hcon.2.2 (hstn.symm)
  · exact agencyMatches_self _ hag

/-- C1, counterexample.  A record whose stored state is the full name
`Florida` (non-empty), with non-empty agency and a due date, fails the
claim: `findCandidates` compares the *normalized* hint (`FL`) against the
*raw* stored state (`Florida`), filters the record out, and the matcher
reports no match at all. -/
theorem C1_counterexample :
    rfpFlorida.Agency ≠ [] ∧ rfpFlorida.State ≠ [] ∧ rfpFlorida.DueDate ≠ none ∧
      formatDate ⟨2024, 1, 15⟩ = bs "2024-01-15" ∧
      (CheckDuplicate [rfpFlorida] rfpFlorida.Agency rfpFlorida.State
        (bs "2024-01-15")).FoundMatch = false := by
  refine ⟨by decide, by decide, by decide, by decide, by decide⟩

/-- C1, amended.  For every corpus containing an RFP whose normalized
agency is non-empty, whose stored state is non-empty and equal to its own
normalized two-letter form, and whose due date is present and valid,
`CheckDuplicate` with the record's own agency, state and formatted due
date as hints reports a match with a score of at least 0.95 (the record
itself scores the full 1.0, and the loop returns the best score). -/
theorem C1_matcher_self_match (rfps : List RFP) (rfp : RFP) (d : GoDate)
    (hmem : rfp ∈ rfps)
    (hag : NormalizeAgency rfp.Agency ≠ [])
    (hst : rfp.State ≠ [])
    (hstn : NormalizeState rfp.State = rfp.State)
    (hdd : rfp.DueDate = some d) (hv : validDate d) :
    (CheckDuplicate rfps rfp.Agency rfp.State (formatDate d)).FoundMatch = true ∧
      95 ≤ (CheckDuplicate rfps rfp.Agency rfp.State (formatDate d)).MatchScore := by
  have hane : rfp.Agency ≠ [] := by
    intro hcon
    rw [hcon, normalizeAgency_nil] at hag
    exact hag rfl
  have hscore := calculateMatchScore_self rfp d hst hstn hdd hv
  have hcand := findCandidates_self rfps rfp hmem hag hstn
  unfold CheckDuplicate
  rw [if_neg hane]
  dsimp only
  have hfound := checkLoop_finds (NormalizeAgency rfp.Agency) (NormalizeState rfp.State)
    (NormalizeDate (formatDate d))
    (findCandidates rfps (NormalizeAgency rfp.Agency) (NormalizeState rfp.State)) 0 rfp
    hcand (by rw [hscore]; decide) (by rw [hscore]; decide)
  have hge := checkLoop_score_mem (NormalizeAgency rfp.Agency) (NormalizeState rfp.State)
    (NormalizeDate (formatDate d))
    (findCandidates rfps (NormalizeAgency rfp.Agency) (NormalizeState rfp.State))
    none 0 rfp hcand (by rw [hscore]; decide)
  rw [hscore] at hge
  cases hloop : checkLoop (NormalizeAgency rfp.Agency) (NormalizeState rfp.State)
      (NormalizeDate (formatDate d))
      (findCandidates rfps (NormalizeAgency rfp.Agency) (NormalizeState rfp.State))
      (none, 0) with
  | mk bm bsc =>
    cases bm with
    | none => exact absurd rfl (by rw [hloop] at hfound; exact hfound)
    | some best =>
      rw [hloop] at hge
      have hge2 : (100 : Nat) ≤ bsc := hge
      have h95 : (95 : Nat) ≤ 100 := by omega
      exact ⟨rfl, le_trans h95 hge2⟩

/-- C1, amended, witness: the single-record corpus with state stored as
the two-letter code `FL`. -/
theorem C1_matcher_self_match_witness :
    ((CheckDuplicate [rfpParksFL] rfpParksFL.Agency rfpParksFL.State
        (formatDate ⟨2024, 1, 15⟩)).FoundMatch = true) ∧
      95 ≤ (CheckDuplicate [rfpParksFL] rfpParksFL.Agency rfpParksFL.State
        (formatDate ⟨2024, 1, 15⟩)).MatchScore :=
  C1_matcher_self_match [rfpParksFL] rfpParksFL ⟨2024, 1, 15⟩
    (by decide) (by decide) (by decide) (by decide) (by decide) (by decide)

/-- C7, counterexample.  Two identical candidates tie at score 0.75 ≥ 0.70;
the lowest RFP id in the corpus is 1, but `CheckDuplicate` returns id 2 —
the first candidate in iteration order — because the loop replaces the
best match only on a strictly greater score.  The claimed lowest-id
tie-break does not exist in the code. -/
theorem C7_counterexample :
    (∀ x ∈ tieCorpus, calculateMatchScore x (NormalizeAgency (bs "parks"))
      (NormalizeState []) (NormalizeDate []) = 75) ∧
    tieCorpus.map RFP.ID = [2, 1] ∧
    MatchThreshold ≤ 75 ∧
    (CheckDuplicate tieCorpus (bs "parks") [] []).FoundMatch = true ∧
    (CheckDuplicate tieCorpus (bs "parks") [] []).MatchedRFPID = 2 := by
  refine ⟨by decide, by decide, by decide, by decide, by decide⟩

/-- Helper: full characterization of the candidate loop.  Either no
candidate strictly beats the accumulator at or above the threshold and the
accumulator is returned unchanged, or the result is the first candidate in
list order that attains the final best score: everything before it scores
strictly less, everything after it at or above the threshold scores no
more. -/
theorem checkLoop_spec (a s d : Str) :
    ∀ (l : List RFP) (bm : Option RFP) (bsc : Score),
      (checkLoop a s d l (bm, bsc) = (bm, bsc) ∧
        ∀ x ∈ l, MatchThreshold ≤ calculateMatchScore x a s d →
          calculateMatchScore x a s d ≤ bsc) ∨
      (∃ l₁ c l₂, l = l₁ ++ c :: l₂ ∧
        (checkLoop a s d l (bm, bsc)).1 = some c ∧
        (checkLoop a s d l (bm, bsc)).2 = calculateMatchScore c a s d ∧
        bsc < calculateMatchScore c a s d ∧
        MatchThreshold ≤ calculateMatchScore c a s d ∧
        (∀ x ∈ l₁, calculateMatchScore x a s d < calculateMatchScore c a s d) ∧
        (∀ x ∈ l₂, MatchThreshold ≤ calculateMatchScore x a s d →
          calculateMatchScore x a s d ≤ calculateMatchScore c a s d)) := by
  intro l
  induction l with
  | nil =>
    intro bm bsc
    exact Or.inl ⟨rfl, fun x hx => absurd hx (List.not_mem_nil x)⟩
  | cons y t ih =>
    intro bm bsc
    by_cases hc : calculateMatchScore y a s d > bsc ∧
        calculateMatchScore y a s d ≥ MatchThreshold
    · have hstep : checkLoop a s d (y :: t) (bm, bsc)
          = checkLoop a s d t (some y, calculateMatchScore y a s d) := by
        simp only [checkLoop]
        rw [if_pos hc]
      rcases ih (some y) (calculateMatchScore y a s d) with
        ⟨heq, hall⟩ | ⟨l₁, c, l₂, hsplit, h1, h2, hlt, hθ, hbef, haft⟩
      · refine Or.inr ⟨[], y, t, rfl, ?_, ?_, hc.1, hc.2, ?_, hall⟩
        · rw [hstep, heq]
        · rw [hstep, heq]
        · intro x hx
          exact absurd hx (List.not_mem_nil x)
      · refine Or.inr ⟨y :: l₁, c, l₂, by rw [hsplit, List.cons_append], ?_, ?_, ?_, hθ, ?_, haft⟩
        · rw [hstep]; exact h1
        · rw [hstep]; exact h2
        · exact lt_trans hc.1 hlt
        · intro x hx
          rcases List.mem_cons.mp hx with rfl | hx'
          · exact hlt
          · exact hbef x hx'
    · have hstep : checkLoop a s d (y :: t) (bm, bsc) = checkLoop a s d t (bm, bsc) := by
        simp only [checkLoop]
        rw [if_neg hc]
      have hy : MatchThreshold ≤ calculateMatchScore y a s d →
          calculateMatchScore y a s d ≤ bsc := by
        intro hθy
        rcases Nat.lt_or_ge bsc (calculateMatchScore y a s d) with hlt | hge
        · exact absurd ⟨hlt, hθy⟩ hc
        · exact hge
      rcases ih bm bsc with
        ⟨heq, hall⟩ | ⟨l₁, c, l₂, hsplit, h1, h2, hlt, hθ, hbef, haft⟩
      · refine Or.inl ⟨by rw [hstep, heq], ?_⟩
        intro x hx
        rcases List.mem_cons.mp hx with rfl | hx'
        · exact hy
        · exact hall x hx'
      · refine Or.inr ⟨y :: l₁, c, l₂, by rw [hsplit, List.cons_append], ?_, ?_, hlt, hθ, ?_, haft⟩
        · rw [hstep]; exact h1
        · rw [hstep]; exact h2
        · intro x hx
          rcases List.mem_cons.mp hx with rfl | hx'
          · rcases Nat.lt_or_ge (calculateMatchScore x a s d) MatchThreshold with hltθ | hgeθ
            · exact lt_of_lt_of_le hltθ hθ
            · exact lt_of_le_of_lt (hy hgeθ) hlt
          · exact hbef x hx'

/-- C7, amended.  When `CheckDuplicate` reports a match, the returned
candidate attains the maximum score among the candidates scoring at or
above the 0.70 threshold, but ties are broken by candidate-list iteration
order — the match is the *first* candidate attaining the best score (the
loop replaces only on strictly greater scores) — not by lowest RFP id. -/
theorem C7_best_is_first_max (rfps : List RFP) (agency state dueDate : Str)
    (h : (CheckDuplicate rfps agency state dueDate).FoundMatch = true) :
    ∃ l₁ c l₂,
      findCandidates rfps (NormalizeAgency agency) (NormalizeState state) = l₁ ++ c :: l₂ ∧
      (CheckDuplicate rfps agency state dueDate).MatchedRFPID = c.ID ∧
      (CheckDuplicate rfps agency state dueDate).MatchScore =
        calculateMatchScore c (NormalizeAgency agency) (NormalizeState state)
          (NormalizeDate dueDate) ∧
      MatchThreshold ≤ calculateMatchScore c (NormalizeAgency agency) (NormalizeState state)
        (NormalizeDate dueDate) ∧
      (∀ x ∈ l₁, calculateMatchScore x (NormalizeAgency agency) (NormalizeState state)
        (NormalizeDate dueDate) < calculateMatchScore c (NormalizeAgency agency)
          (NormalizeState state) (NormalizeDate dueDate)) ∧
      (∀ x ∈ l₂, MatchThreshold ≤ calculateMatchScore x (NormalizeAgency agency)
          (NormalizeState state) (NormalizeDate dueDate) →
        calculateMatchScore x (NormalizeAgency agency) (NormalizeState state)
            (NormalizeDate dueDate) ≤ calculateMatchScore c (NormalizeAgency agency)
          (NormalizeState state) (NormalizeDate dueDate)) := by
  by_cases hag : agency = []
  · unfold CheckDuplicate at h
    rw [if_pos hag] at h
    simp at h
  · have hspec := checkLoop_spec (NormalizeAgency agency) (NormalizeState state)
      (NormalizeDate dueDate)
      (findCandidates rfps (NormalizeAgency agency) (NormalizeState state)) none 0
    unfold CheckDuplicate at h
    rw [if_neg hag] at h
    dsimp only at h
    cases hloop : checkLoop (NormalizeAgency agency) (NormalizeState state)
        (NormalizeDate dueDate)
        (findCandidates rfps (NormalizeAgency agency) (NormalizeState state)) (none, 0) with
    | mk bm bsc =>
      rw [hloop] at h hspec
      cases bm with
      | none => simp at h
      | some best =>
        have hRes : CheckDuplicate rfps agency state dueDate =
            { FoundMatch := true, MatchedRFPID := best.ID, MatchedRFPTitle := best.Title,
              MatchScore := bsc, Reason := [],
              CandidatesChecked := (findCandidates rfps (NormalizeAgency agency)
                (NormalizeState state)).length } := by
          unfold CheckDuplicate
          rw [if_neg hag]
          dsimp only
          rw [hloop]
        rcases hspec with ⟨heq, _⟩ | ⟨l₁, c, l₂, hsplit, h1, h2, _, hθ, hbef, haft⟩
        · exact absurd (congrArg Prod.fst heq) (by simp)
        · have hbc : best = c := Option.some.inj h1
          subst hbc
          refine ⟨l₁, best, l₂, hsplit, ?_, ?_, hθ, hbef, haft⟩
          · rw [hRes]
          · rw [hRes]
            exact h2

/-- C7, amended, witness: the tie corpus, where the first candidate (id 2)
wins the tie. -/
theorem C7_best_is_first_max_witness :
    ∃ l₁ c l₂,
      findCandidates tieCorpus (NormalizeAgency (bs "parks")) (NormalizeState []) =
        l₁ ++ c :: l₂ ∧
      (CheckDuplicate tieCorpus (bs "parks") [] []).MatchedRFPID = c.ID ∧
      (CheckDuplicate tieCorpus (bs "parks") [] []).MatchScore =
        calculateMatchScore c (NormalizeAgency (bs "parks")) (NormalizeState [])
          (NormalizeDate []) ∧
      MatchThreshold ≤ calculateMatchScore c (NormalizeAgency (bs "parks")) (NormalizeState [])
        (NormalizeDate []) ∧
      (∀ x ∈ l₁, calculateMatchScore x (NormalizeAgency (bs "parks")) (NormalizeState [])
        (NormalizeDate []) < calculateMatchScore c (NormalizeAgency (bs "parks"))
          (NormalizeState []) (NormalizeDate [])) ∧
      (∀ x ∈ l₂, MatchThreshold ≤ calculateMatchScore x (NormalizeAgency (bs "parks"))
          (NormalizeState []) (NormalizeDate []) →
        calculateMatchScore x (NormalizeAgency (bs "parks")) (NormalizeState [])
            (NormalizeDate []) ≤ calculateMatchScore c (NormalizeAgency (bs "parks"))
          (NormalizeState []) (NormalizeDate [])) :=
  C7_best_is_first_max tieCorpus (bs "parks") [] [] (by decide)


theorem cutByteB_not_mem (s : Str) (c : Nat) (h : c ∉ s) : cutByteB s c = (s, none) := by
  induction s with
  | nil => rfl
  | cons b t ih =>
    have hbc : b ≠ c := fun he => h (he ▸ List.mem_cons_self b t)
    have hct : c ∉ t := fun hm => h (List.mem_cons_of_mem b hm)
    simp only [cutByteB]
    rw [if_neg hbc, ih hct]

theorem cutByteB_append (l r : Str) (c : Nat) (h : c ∉ l) :
    cutByteB (l ++ c :: r) c = (l, some r) := by
  induction l with
  | nil => simp [cutByteB]
  | cons b t ih =>
    have hbc : b ≠ c := fun he => h (he ▸ List.mem_cons_self b t)
    have hct : c ∉ t := fun hm => h (List.mem_cons_of_mem b hm)
    simp only [List.cons_append, cutByteB, List.append_eq]
    rw [if_neg hbc, ih hct]

theorem cutByteB_fst_subset (s : Str) (c : Nat) : (cutByteB s c).1 ⊆ s := by
  induction s with
  | nil => exact fun x hx => hx
  | cons b t ih =>
    simp only [cutByteB]
    split_ifs with h
    · exact fun x hx => absurd hx (List.not_mem_nil x)
    · intro x hx
      rcases List.mem_cons.mp hx with rfl | hx'
      · exact List.mem_cons_self x t
      · exact List.mem_cons_of_mem b (ih hx')

theorem cutByteB_fst_not_mem (s : Str) (c : Nat) : c ∉ (cutByteB s c).1 := by
  induction s with
  | nil => exact List.not_mem_nil c
  | cons b t ih =>
    simp only [cutByteB]
    split_ifs with h
    · exact List.not_mem_nil c
    · intro hm
      rcases List.mem_cons.mp hm with he | hm'
      · exact h he.symm
      · exact ih hm'

theorem cutByteB_snd_subset (s : Str) (c : Nat) (r : Str) (h : (cutByteB s c).2 = some r) :
    r ⊆ s := by
  induction s with
  | nil => simp [cutByteB] at h
  | cons b t ih =>
    simp only [cutByteB] at h
    split_ifs at h with hbc
    · intro x hx
      exact List.mem_cons_of_mem b ((Option.some.inj h) ▸ hx)
    · exact fun x hx => List.mem_cons_of_mem b (ih h hx)

theorem startsWithB_append (p s : Str) : startsWithB (p ++ s) p = true := by
  induction p with
  | nil =>
    cases s with
    | nil => rfl
    | cons b t => rfl
  | cons b t ih => simp [startsWithB, ih]

theorem lowerByte_idem (b : Nat) : lowerByte (lowerByte b) = lowerByte b := by
  unfold lowerByte
  split_ifs <;> omega

theorem lowerByte_fixed_of_mem_lower (x : Nat) (s : Str) (hx : x ∈ toLowerB s) :
    lowerByte x = x := by
  rcases List.mem_map.mp hx with ⟨b, _, he⟩
  rw [← he, lowerByte_idem]

theorem toLowerB_fixed (s : Str) (h : ∀ x ∈ s, lowerByte x = x) : toLowerB s = s := by
  induction s with
  | nil => rfl
  | cons b t ih =>
    simp only [toLowerB, List.map_cons]
    rw [h b (List.mem_cons_self b t)]
    exact congrArg (b :: .) (ih fun x hx => h x (List.mem_cons_of_mem b hx))

theorem toLowerB_idem (s : Str) : toLowerB (toLowerB s) = toLowerB s :=
  toLowerB_fixed _ fun x hx => lowerByte_fixed_of_mem_lower x s hx

theorem not_mem_toLowerB (x : Nat) (s : Str) (hx : x < 65) (h : x ∉ s) : x ∉ toLowerB s := by
  intro hm
  rcases List.mem_map.mp hm with ⟨b, hb, he⟩
  unfold lowerByte at he
  split_ifs at he with hcase
  · omega
  · exact h (he ▸ hb)

theorem toLowerB_ne_nil (s : Str) (h : s ≠ []) : toLowerB s ≠ [] := by
  cases s with
  | nil => exact absurd rfl h
  | cons b t => simp [toLowerB]

theorem splitHostPort_fst_subset (h : Str) : (splitHostPort h).1 ⊆ h := by
  unfold splitHostPort
  cases hl : lastIndexByteB h 58 with
  | none =>
    dsimp only
    split_ifs
    · exact fun x hx => List.drop_subset 1 h (List.take_subset _ _ hx)
    · exact fun x hx => hx
  | some colon =>
    dsimp only
    split_ifs
    · exact fun x hx =>
        List.take_subset _ _ (List.drop_subset 1 _ (List.take_subset _ _ hx))
    · exact fun x hx => List.take_subset _ _ hx
    · exact fun x hx => List.drop_subset 1 h (List.take_subset _ _ hx)
    · exact fun x hx => hx

theorem isAlphaB_cont (b : Nat) (h : isAlphaB b = true) : schemeContB b = true := by
  simp [schemeContB, h]

theorem schemeShapeB_append (acc : Str) (c : Nat) (ha : schemeShapeB acc = true)
    (hne : acc ≠ []) (hc : schemeContB c = true) : schemeShapeB (acc ++ [c]) = true := by
  cases acc with
  | nil => exact absurd rfl hne
  | cons b t =>
    simp only [schemeShapeB, List.cons_append, Bool.and_eq_true] at ha ⊢
    refine ⟨ha.1, ?_⟩
    simp [List.all_append, ha.2, hc]

theorem isAlphaB_lowerByte (b : Nat) (h : isAlphaB b = true) : isAlphaB (lowerByte b) = true := by
  simp only [isAlphaB, decide_eq_true_eq] at h ⊢
  unfold lowerByte
  split_ifs <;> omega

theorem schemeContB_lowerByte (b : Nat) (h : schemeContB b = true) :
    schemeContB (lowerByte b) = true := by
  simp only [schemeContB, isAlphaB, isDigitB, Bool.or_eq_true, decide_eq_true_eq] at h ⊢
  unfold lowerByte
  split_ifs <;> omega

theorem schemeShapeB_toLowerB (sc : Str) (h : schemeShapeB sc = true) :
    schemeShapeB (toLowerB sc) = true := by
  cases sc with
  | nil => rfl
  | cons b t =>
    simp only [schemeShapeB, Bool.and_eq_true, List.all_eq_true] at h
    simp only [toLowerB, List.map_cons, schemeShapeB, Bool.and_eq_true, List.all_eq_true]
    refine ⟨isAlphaB_lowerByte b h.1, ?_⟩
    intro x hx
    rcases List.mem_map.mp hx with ⟨y, hy, he⟩
    exact he ▸ schemeContB_lowerByte y (h.2 y hy)

theorem schemeShapeB_not_mem (sc : Str) (h : schemeShapeB sc = true) (x : Nat)
    (hx : schemeContB x = false) : x ∉ sc := by
  intro hm
  cases sc with
  | nil => exact List.not_mem_nil x hm
  | cons b t =>
    simp only [schemeShapeB, Bool.and_eq_true, List.all_eq_true] at h
    rcases List.mem_cons.mp hm with rfl | hm'
    · rw [isAlphaB_cont x h.1] at hx
      exact Bool.noConfusion hx
    · rw [h.2 x hm'] at hx
      exact Bool.noConfusion hx

theorem getSchemeAux_cont (orig rest : Str) :
    ∀ (sc acc : Str), sc.all schemeContB = true →
      getSchemeAux orig (sc ++ 58 :: rest) acc false = some (acc ++ sc, rest) := by
  intro sc
  induction sc with
  | nil =>
    intro acc _
    simp only [List.nil_append, getSchemeAux]
    simp [isAlphaB, isDigitB]
  | cons b t ih =>
    intro acc hall
    rw [List.all_cons, Bool.and_eq_true] at hall
    simp only [List.cons_append, List.append_eq, getSchemeAux]
    by_cases hA : isAlphaB b = true
    · rw [if_pos hA, ih (acc ++ [b]) hall.2, List.append_assoc]
      rfl
    · have hD : isDigitB b = true ∨ b = 43 ∨ b = 45 ∨ b = 46 := by
        have hb := hall.1
        simp only [schemeContB, Bool.or_eq_true, decide_eq_true_eq] at hb
        tauto
      rw [if_neg hA, if_neg (by decide), if_pos hD, ih (acc ++ [b]) hall.2, List.append_assoc]
      rfl

theorem getScheme_append (sc rest : Str) (hne : sc ≠ []) (hs : schemeShapeB sc = true) :
    getScheme (sc ++ 58 :: rest) = some (sc, rest) := by
  cases sc with
  | nil => exact absurd rfl hne
  | cons b t =>
    simp only [schemeShapeB, Bool.and_eq_true] at hs
    unfold getScheme
    simp only [List.cons_append, getSchemeAux]
    rw [if_pos hs.1]
    exact getSchemeAux_cont _ rest t [b] hs.2

theorem getScheme_slash (t : Str) : getScheme (47 :: t) = some ([], 47 :: t) := by
  unfold getScheme
  simp [getSchemeAux, isAlphaB]

theorem getSchemeAux_inv (orig : Str) :
    ∀ (s acc : Str) (first : Bool) (sc rest : Str),
      s ⊆ orig →
      ((first = true ∧ acc = []) ∨ (first = false ∧ schemeShapeB acc = true ∧ acc ≠ [])) →
      getSchemeAux orig s acc first = some (sc, rest) →
      schemeShapeB sc = true ∧ rest ⊆ orig := by
  intro s
  induction s with
  | nil =>
    intro acc first sc rest _ _ h
    simp only [getSchemeAux, Option.some.injEq, Prod.mk.injEq] at h
    obtain ⟨h1, h2⟩ := h
    subst h1
    subst h2
    exact ⟨rfl, fun _ hx => hx⟩
  | cons b t ih =>
    intro acc first sc rest hsub hinv h
    have htsub : t ⊆ orig := fun x hx => hsub (List.mem_cons_of_mem b hx)
    simp only [getSchemeAux] at h
    by_cases hA : isAlphaB b = true
    · rw [if_pos hA] at h
      refine ih (acc ++ [b]) false sc rest htsub (Or.inr ⟨rfl, ?_, by simp⟩) h
      rcases hinv with ⟨_, hacc⟩ | ⟨_, hsh, hne⟩
      · subst hacc
        simp [schemeShapeB, hA]
      · exact schemeShapeB_append acc b hsh hne (isAlphaB_cont b hA)
    · rw [if_neg hA] at h
      cases first with
      | true =>
        rw [if_pos rfl] at h
        by_cases h58 : b = 58
        · rw [if_pos h58] at h
          exact absurd h (by simp)
        · rw [if_neg h58] at h
          simp only [Option.some.injEq, Prod.mk.injEq] at h
          obtain ⟨h1, h2⟩ := h
          subst h1
          subst h2
          exact ⟨rfl, fun _ hx => hx⟩
      | false =>
        rw [if_neg (by decide)] at h
        by_cases hD : isDigitB b = true ∨ b = 43 ∨ b = 45 ∨ b = 46
        · rw [if_pos hD] at h
          refine ih (acc ++ [b]) false sc rest htsub (Or.inr ⟨rfl, ?_, by simp⟩) h
          rcases hinv with ⟨hf, _⟩ | ⟨_, hsh, hne⟩
          · exact absurd hf (by decide)
          · refine schemeShapeB_append acc b hsh hne ?_
            simp only [schemeContB, Bool.or_eq_true, decide_eq_true_eq]
            tauto
        · rw [if_neg hD] at h
          by_cases h58 : b = 58
          · rw [if_pos h58] at h
            simp only [Option.some.injEq, Prod.mk.injEq] at h
            obtain ⟨h1, h2⟩ := h
            subst h1
            subst h2
            rcases hinv with ⟨hf, _⟩ | ⟨_, hsh, _⟩
            · exact absurd hf (by decide)
            · exact ⟨hsh, htsub⟩
          · rw [if_neg h58] at h
            simp only [Option.some.injEq, Prod.mk.injEq] at h
            obtain ⟨h1, h2⟩ := h
            subst h1
            subst h2
            exact ⟨rfl, fun _ hx => hx⟩

theorem getScheme_shape (s sc rest : Str) (h : getScheme s = some (sc, rest)) :
    schemeShapeB sc = true ∧ rest ⊆ s :=
  getSchemeAux_inv s s [] true sc rest (fun _ hx => hx) (Or.inl ⟨rfl, rfl⟩) h

theorem hexVal_hexDigitUpper (n : Nat) (h : n < 16) : hexVal (hexDigitUpper n) = some n := by
  by_cases hn : n < 10
  · unfold hexDigitUpper
    rw [if_pos hn]
    unfold hexVal
    rw [if_pos (by omega)]
    congr 1
    omega
  · unfold hexDigitUpper
    rw [if_neg hn]
    unfold hexVal
    rw [if_neg (by omega), if_pos (by omega)]
    congr 1
    omega

theorem hexDigitUpper_range (n : Nat) (h : n < 16) :
    isDigitB (hexDigitUpper n) = true ∨ (65 ≤ hexDigitUpper n ∧ hexDigitUpper n ≤ 70) := by
  unfold hexDigitUpper
  split_ifs with hn
  · left
    simp only [isDigitB, decide_eq_true_eq]
    omega
  · right
    omega

theorem queryEscape_not_mem (s : Str) (x : Nat)
    (hx : isUnreservedB x = false) (h43 : x ≠ 43) (h37 : x ≠ 37) (hd : isDigitB x = false)
    (hA : ¬(65 ≤ x ∧ x ≤ 70)) : x ∉ queryEscape s := by
  intro hm
  unfold queryEscape at hm
  rcases List.mem_flatMap.mp hm with ⟨b, _, hxb⟩
  unfold queryEscapeByte at hxb
  split_ifs at hxb with h1 h2
  · rcases List.mem_singleton.mp hxb with rfl
    rw [h1] at hx
    exact Bool.noConfusion hx
  · rcases List.mem_singleton.mp hxb with rfl
    exact h43 rfl
  · rcases List.mem_cons.mp hxb with rfl | hxb2
    · exact h37 rfl
    · rcases List.mem_cons.mp hxb2 with he | hxb3
      · rcases hexDigitUpper_range (b / 16 % 16) (Nat.mod_lt _ (by omega)) with hdig | hrange
        · rw [he, hdig] at hd
          exact Bool.noConfusion hd
        · exact hA (by rw [he]; exact hrange)
      · rcases List.mem_cons.mp hxb3 with he | hxb4
        · rcases hexDigitUpper_range (b % 16) (Nat.mod_lt _ (by omega)) with hdig | hrange
          · rw [he, hdig] at hd
            exact Bool.noConfusion hd
          · exact hA (by rw [he]; exact hrange)
        · exact absurd hxb4 (List.not_mem_nil x)

theorem queryUnescape_queryEscape (s : Str) (h : ∀ b ∈ s, b < 256) :
    queryUnescape (queryEscape s) = some s := by
  induction s with
  | nil => rfl
  | cons b t ih =>
    have hb : b < 256 := h b (List.mem_cons_self b t)
    have ih' := ih fun x hx => h x (List.mem_cons_of_mem b hx)
    have hsplit : queryEscape (b :: t) = queryEscapeByte b ++ queryEscape t := rfl
    rw [hsplit]
    unfold queryEscapeByte
    split_ifs with h1 h2
    · have hb37 : b ≠ 37 := fun he => by rw [he] at h1; exact absurd h1 (by decide)
      have hb43 : b ≠ 43 := fun he => by rw [he] at h1; exact absurd h1 (by decide)
      show queryUnescape (b :: queryEscape t) = some (b :: t)
      rw [queryUnescape.eq_def]
      dsimp only
      rw [if_neg hb37, if_neg hb43, ih']
      rfl
    · subst h2
      show queryUnescape (43 :: queryEscape t) = some (32 :: t)
      rw [queryUnescape.eq_def]
      dsimp only
      rw [if_neg (by decide), if_pos rfl, ih']
      rfl
    · show queryUnescape (37 :: hexDigitUpper (b / 16 % 16) :: hexDigitUpper (b % 16)
          :: queryEscape t) = some (b :: t)
      simp only [queryUnescape]
      rw [hexVal_hexDigitUpper (b / 16 % 16) (Nat.mod_lt _ (by omega)),
        hexVal_hexDigitUpper (b % 16) (Nat.mod_lt _ (by omega)), ih']
      show some ((16 * (b / 16 % 16) + b % 16) :: t) = some (b :: t)
      congr 2
      omega

theorem intercalate_singleton (c : Nat) (p : Str) : List.intercalate [c] [p] = p := by
  simp [List.intercalate]

theorem intercalate_cons_cons (c : Nat) (p q : Str) (r : List Str) :
    List.intercalate [c] (p :: q :: r) = p ++ c :: List.intercalate [c] (q :: r) := by
  simp [List.intercalate, List.intersperse]

theorem splitOnByteB_ne_nil (s : Str) (c : Nat) : splitOnByteB s c ≠ [] := by
  induction s with
  | nil => simp [splitOnByteB]
  | cons b t ih =>
    simp only [splitOnByteB]
    split_ifs with h
    · simp
    · cases hs : splitOnByteB t c with
      | nil => simp
      | cons p r => simp

theorem splitOnByteB_not_mem (s : Str) (c : Nat) (h : c ∉ s) : splitOnByteB s c = [s] := by
  induction s with
  | nil => rfl
  | cons b t ih =>
    have hbc : b ≠ c := fun he => h (he ▸ List.mem_cons_self b t)
    have hct : c ∉ t := fun hm => h (List.mem_cons_of_mem b hm)
    simp only [splitOnByteB]
    rw [if_neg hbc, ih hct]

theorem splitOnByteB_append (p rest : Str) (c : Nat) (h : c ∉ p) :
    splitOnByteB (p ++ c :: rest) c = p :: splitOnByteB rest c := by
  induction p with
  | nil =>
    simp only [List.nil_append, splitOnByteB]
    simp
  | cons b t ih =>
    have hbc : b ≠ c := fun he => h (he ▸ List.mem_cons_self b t)
    have hct : c ∉ t := fun hm => h (List.mem_cons_of_mem b hm)
    simp only [List.cons_append, List.append_eq, splitOnByteB]
    rw [if_neg hbc, ih hct]

theorem splitOn_intercalate (parts : List Str) (c : Nat)
    (hne : parts ≠ []) (hall : ∀ p ∈ parts, c ∉ p) :
    splitOnByteB (List.intercalate [c] parts) c = parts := by
  induction parts with
  | nil => exact absurd rfl hne
  | cons p rest ih =>
    cases rest with
    | nil =>
      rw [intercalate_singleton]
      exact splitOnByteB_not_mem p c (hall p (List.mem_cons_self p []))
    | cons q r =>
      rw [intercalate_cons_cons, splitOnByteB_append _ _ _ (hall p (List.mem_cons_self p _))]
      rw [ih (by simp) fun x hx => hall x (List.mem_cons_of_mem p hx)]

theorem ltStrB_irrefl (s : Str) : ltStrB s s = false := by
  induction s with
  | nil => rfl
  | cons a t ih =>
    simp only [ltStrB]
    rw [if_neg (by omega), if_neg (by omega)]
    exact ih

theorem ltStrB_total (a : Str) : ∀ b : Str, ltStrB a b = false → ltStrB b a = false → a = b := by
  induction a with
  | nil =>
    intro b h1 _
    cases b with
    | nil => rfl
    | cons x t => exact absurd h1 (by simp [ltStrB])
  | cons x s ih =>
    intro b h1 h2
    cases b with
    | nil => exact absurd h2 (by simp [ltStrB])
    | cons y t =>
      simp only [ltStrB] at h1 h2
      by_cases hxy : x < y
      · rw [if_pos hxy] at h1
        exact Bool.noConfusion h1
      · rw [if_neg hxy] at h1
        by_cases hyx : y < x
        · rw [if_pos hyx] at h2
          exact Bool.noConfusion h2
        · rw [if_neg hyx] at h1
          rw [if_neg hyx, if_neg hxy] at h2
          have hxy2 : x = y := by omega
          rw [hxy2, ih t h1 h2]

theorem ltStrB_trans (a : Str) :
    ∀ b c : Str, ltStrB a b = true → ltStrB b c = true → ltStrB a c = true := by
  induction a with
  | nil =>
    intro b c h1 h2
    cases b with
    | nil => exact absurd h1 (by simp [ltStrB])
    | cons y t =>
      cases c with
      | nil => exact absurd h2 (by simp [ltStrB])
      | cons z u => simp [ltStrB]
  | cons x s ih =>
    intro b c h1 h2
    cases b with
    | nil => exact absurd h1 (by simp [ltStrB])
    | cons y t =>
      cases c with
      | nil => exact absurd h2 (by simp [ltStrB])
      | cons z u =>
        simp only [ltStrB] at h1 h2 ⊢
        by_cases hxy : x < y
        · have hyz : y < z ∨ (y = z ∧ ltStrB t u = true) := by
            by_cases hyz1 : y < z
            · exact Or.inl hyz1
            · rw [if_neg hyz1] at h2
              by_cases hzy : z < y
              · rw [if_pos hzy] at h2
                exact absurd h2 (by simp)
              · rw [if_neg hzy] at h2
                exact Or.inr ⟨by omega, h2⟩
          rcases hyz with hlt | ⟨he, _⟩
          · rw [if_pos (by omega)]
          · rw [if_pos (by omega)]
        · rw [if_neg hxy] at h1
          by_cases hyx : y < x
          · rw [if_pos hyx] at h1
            exact absurd h1 (by simp)
          · rw [if_neg hyx] at h1
            have hxy2 : x = y := by omega
            subst hxy2
            by_cases hxz : x < z
            · rw [if_pos hxz]
            · rw [if_neg hxz] at h2 ⊢
              by_cases hzx : z < x
              · rw [if_pos hzx] at h2
                exact absurd h2 (by simp)
              · rw [if_neg hzx] at h2 ⊢
                exact ih t u h1 h2

theorem ltStrB_of_not (k h : Str) (h1 : ¬ltStrB k h = true) (h2 : k ≠ h) :
    ltStrB h k = true := by
  by_cases h3 : ltStrB h k = true
  · exact h3
  · exact absurd (ltStrB_total k h (by simpa using h1) (by simpa using h3)) h2

theorem insertKeySorted_self_head (k : Str) (l : List Str) :
    insertKeySorted k (k :: l) = k :: l := by
  simp only [insertKeySorted]
  rw [if_neg (by rw [ltStrB_irrefl]; simp)]
  simp

theorem insertKeySorted_idem (k : Str) (l : List Str) :
    insertKeySorted k (insertKeySorted k l) = insertKeySorted k l := by
  induction l with
  | nil =>
    simp only [insertKeySorted]
    rw [if_neg (by rw [ltStrB_irrefl]; simp)]
    simp
  | cons a t ih =>
    simp only [insertKeySorted]
    split_ifs with h1 h2
    · exact insertKeySorted_self_head k (a :: t)
    · subst h2
      exact insertKeySorted_self_head k t
    · simp only [insertKeySorted]
      rw [if_neg h1, if_neg h2]
      exact congrArg (a :: .) ih

theorem mem_insertKeySorted (k x : Str) (l : List Str) :
    x ∈ insertKeySorted k l ↔ x = k ∨ x ∈ l := by
  induction l with
  | nil => simp [insertKeySorted]
  | cons a t ih =>
    simp only [insertKeySorted]
    split_ifs with h1 h2
    · simp [List.mem_cons]
    · subst h2
      simp only [List.mem_cons]
      constructor
      · intro h
        exact Or.inr h
      · intro h
        rcases h with rfl | h
        · exact Or.inl rfl
        · exact h
    · simp only [List.mem_cons, ih]
      tauto

theorem insertKeySorted_chain (k : Str) (l : List Str)
    (h : List.Chain' (fun a b => ltStrB a b = true) l) :
    List.Chain' (fun a b => ltStrB a b = true) (insertKeySorted k l) := by
  induction l with
  | nil => simp [insertKeySorted]
  | cons a t ih =>
    simp only [insertKeySorted]
    split_ifs with h1 h2
    · exact List.chain'_cons.mpr ⟨h1, h⟩
    · exact h
    · have hak : ltStrB a k = true := ltStrB_of_not k a h1 h2
      have ht := h.tail
      rw [List.chain'_cons']
      refine ⟨?_, ih ht⟩
      intro y hy
      cases t with
      | nil =>
        simp [insertKeySorted] at hy
        subst hy
        exact hak
      | cons b u =>
        have hab : ltStrB a b = true := (List.chain'_cons.mp h).1
        simp only [insertKeySorted] at hy
        split_ifs at hy with h3 h4
        · simp at hy
          subst hy
          exact hak
        · simp at hy
          subst hy
          exact hab
        · simp at hy
          subst hy
          exact hab

theorem sortedKeysOf_chain (P : List (Str × Str)) :
    List.Chain' (fun a b => ltStrB a b = true) (sortedKeysOf P) := by
  induction P with
  | nil => simp [sortedKeysOf]
  | cons p t ih => exact insertKeySorted_chain p.1 _ ih

theorem mem_sortedKeysOf (P : List (Str × Str)) (x : Str) :
    x ∈ sortedKeysOf P ↔ x ∈ P.map Prod.fst := by
  induction P with
  | nil => simp [sortedKeysOf]
  | cons p t ih =>
    show x ∈ insertKeySorted p.1 (sortedKeysOf t) ↔ _
    rw [mem_insertKeySorted]
    simp [ih]

theorem valuesFor_ne_nil (P : List (Str × Str)) (k : Str) (h : k ∈ P.map Prod.fst) :
    valuesFor k P ≠ [] := by
  rcases List.mem_map.mp h with ⟨p, hp, he⟩
  unfold valuesFor
  intro hcon
  have hmem : p ∈ P.filter (fun q => decide (q.1 = k)) :=
    List.mem_filter.mpr ⟨hp, by simp [he]⟩
  rw [List.map_eq_nil_iff.mp hcon] at hmem
  exact List.not_mem_nil p hmem

theorem chain_lt_head (a : Str) (t : List Str)
    (h : List.Chain' (fun x y => ltStrB x y = true) (a :: t)) :
    ∀ b ∈ t, ltStrB a b = true := by
  induction t generalizing a with
  | nil =>
    intro b hb
    exact absurd hb (List.not_mem_nil b)
  | cons c u ih =>
    intro b hb
    have hac : ltStrB a c = true := (List.chain'_cons.mp h).1
    rcases List.mem_cons.mp hb with rfl | hb'
    · exact hac
    · exact ltStrB_trans a c b hac (ih c (List.chain'_cons.mp h).2 b hb')

theorem chain_lt_pairwise_ne (l : List Str)
    (h : List.Chain' (fun x y => ltStrB x y = true) l) :
    List.Pairwise (fun x y => x ≠ y) l := by
  induction l with
  | nil => exact List.Pairwise.nil
  | cons a t ih =>
    refine List.Pairwise.cons ?_ (ih h.tail)
    intro b hb he
    have := chain_lt_head a t h b hb
    rw [← he, ltStrB_irrefl] at this
    exact Bool.noConfusion this

theorem foldr_insert_const (k : Str) (vs : List Str) (acc : List Str) (h : vs ≠ []) :
    List.foldr (fun p acc => insertKeySorted p.1 acc) acc (vs.map fun v => (k, v)) =
      insertKeySorted k acc := by
  induction vs with
  | nil => exact absurd rfl h
  | cons v vs' ih =>
    simp only [List.map_cons, List.foldr_cons]
    cases vs' with
    | nil => simp only [List.map_nil, List.foldr_nil]
    | cons w ws =>
      rw [ih (by simp)]
      exact insertKeySorted_idem k acc

theorem sortedKeysOf_append (A B : List (Str × Str)) :
    sortedKeysOf (A ++ B) =
      List.foldr (fun p acc => insertKeySorted p.1 acc) (sortedKeysOf B) A := by
  unfold sortedKeysOf
  rw [List.foldr_append]

theorem sortedKeysOf_grouped_gen (vs : Str → List Str) :
    ∀ ks : List Str, List.Chain' (fun a b => ltStrB a b = true) ks →
      (∀ k ∈ ks, vs k ≠ []) →
      sortedKeysOf (ks.flatMap fun k => (vs k).map fun v => (k, v)) = ks := by
  intro ks
  induction ks with
  | nil =>
    intro _ _
    rfl
  | cons k ks' ih =>
    intro hch hne
    rw [List.flatMap_cons, sortedKeysOf_append,
      foldr_insert_const k _ _ (hne k (List.mem_cons_self k ks')),
      ih hch.tail fun j hj => hne j (List.mem_cons_of_mem k hj)]
    cases ks' with
    | nil => rfl
    | cons a u =>
      have hka : ltStrB k a = true := (List.chain'_cons.mp hch).1
      simp only [insertKeySorted]
      rw [if_pos hka]

theorem mem_grouped_fst (vs : Str → List Str) (ks : List Str) (p : Str × Str)
    (h : p ∈ ks.flatMap fun k => (vs k).map fun v => (k, v)) : p.1 ∈ ks := by
  rcases List.mem_flatMap.mp h with ⟨k, hk, hp⟩
  rcases List.mem_map.mp hp with ⟨v, _, he⟩
  rw [← he]
  exact hk

theorem valuesFor_append (k : Str) (A B : List (Str × Str)) :
    valuesFor k (A ++ B) = valuesFor k A ++ valuesFor k B := by
  unfold valuesFor
  rw [List.filter_append, List.map_append]

theorem valuesFor_map_self (k : Str) (vs : List Str) :
    valuesFor k (vs.map fun v => (k, v)) = vs := by
  induction vs with
  | nil => rfl
  | cons v t ih =>
    simp only [List.map_cons]
    unfold valuesFor at ih ⊢
    rw [List.filter_cons, if_pos (by simp)]
    simp only [List.map_cons]
    exact congrArg (v :: .) ih

theorem valuesFor_map_other (k j : Str) (hne : j ≠ k) (vs : List Str) :
    valuesFor k (vs.map fun v => (j, v)) = [] := by
  unfold valuesFor
  have h1 : (vs.map fun v => (j, v)).filter (fun p => decide (p.1 = k)) = [] := by
    apply List.filter_eq_nil_iff.mpr
    intro p hp
    rcases List.mem_map.mp hp with ⟨v, _, he⟩
    rw [← he]
    simp only [decide_eq_true_eq]
    exact hne
  rw [h1]
  rfl

theorem valuesFor_grouped_not_mem (vs : Str → List Str) (ks : List Str) (k : Str)
    (h : k ∉ ks) : valuesFor k (ks.flatMap fun j => (vs j).map fun v => (j, v)) = [] := by
  unfold valuesFor
  have h1 : (ks.flatMap fun j => (vs j).map fun v => (j, v)).filter
      (fun p => decide (p.1 = k)) = [] := by
    apply List.filter_eq_nil_iff.mpr
    intro p hp
    have hmem := mem_grouped_fst vs ks p hp
    simp only [decide_eq_true_eq]
    intro he
    exact h (he ▸ hmem)
  rw [h1]
  rfl

theorem valuesFor_grouped (vs : Str → List Str) :
    ∀ ks : List Str, List.Pairwise (fun a b => a ≠ b) ks →
      ∀ k ∈ ks, valuesFor k (ks.flatMap fun j => (vs j).map fun v => (j, v)) = vs k := by
  intro ks
  induction ks with
  | nil =>
    intro _ k hk
    exact absurd hk (List.not_mem_nil k)
  | cons a t ih =>
    intro hpw k hk
    rw [List.flatMap_cons, valuesFor_append]
    rcases List.mem_cons.mp hk with rfl | hk'
    · rw [valuesFor_map_self, valuesFor_grouped_not_mem]
      · exact List.append_nil _
      · intro hmem
        exact (List.pairwise_cons.mp hpw).1 k hmem rfl
    · rw [valuesFor_map_other k a (fun he => (List.pairwise_cons.mp hpw).1 k hk' he),
        ih (List.pairwise_cons.mp hpw).2 k hk']
      exact List.nil_append _

theorem containsB_single_not (s : Str) (c : Nat) (h : c ∉ s) : containsB s [c] = false := by
  induction s with
  | nil => rfl
  | cons b t ih =>
    have hbc : b ≠ c := fun he => h (he ▸ List.mem_cons_self b t)
    have hct : c ∉ t := fun hm => h (List.mem_cons_of_mem b hm)
    have hs : startsWithB (b :: t) [c] = false := by
      simp [startsWithB, hbc]
    rw [containsB.eq_def]
    simp only [hs]
    simp only [Bool.false_eq_true, if_false]
    exact ih hct

theorem not_mem_queryEscape_38 (s : Str) : 38 ∉ queryEscape s :=
  queryEscape_not_mem s 38 (by decide) (by decide) (by decide) (by decide) (by decide)

theorem not_mem_queryEscape_59 (s : Str) : 59 ∉ queryEscape s :=
  queryEscape_not_mem s 59 (by decide) (by decide) (by decide) (by decide) (by decide)

theorem not_mem_queryEscape_61 (s : Str) : 61 ∉ queryEscape s :=
  queryEscape_not_mem s 61 (by decide) (by decide) (by decide) (by decide) (by decide)

theorem not_mem_queryEscape_35 (s : Str) : 35 ∉ queryEscape s :=
  queryEscape_not_mem s 35 (by decide) (by decide) (by decide) (by decide) (by decide)

theorem not_mem_enc (x : Nat) (k v : Str) (hk : x ∉ queryEscape k) (hv : x ∉ queryEscape v)
    (h61 : x ≠ 61) : x ∉ (queryEscape k ++ [61]) ++ queryEscape v := by
  intro hm
  rcases List.mem_append.mp hm with hm1 | hm2
  · rcases List.mem_append.mp hm1 with hm3 | hm4
    · exact hk hm3
    · exact h61 (List.mem_singleton.mp hm4)
  · exact hv hm2

theorem enc_ne_nil (k v : Str) : (queryEscape k ++ [61]) ++ queryEscape v ≠ [] := by
  simp

theorem cutByteB_enc (k v : Str) :
    cutByteB ((queryEscape k ++ [61]) ++ queryEscape v) 61 =
      (queryEscape k, some (queryEscape v)) := by
  rw [List.append_assoc, List.singleton_append]
  exact cutByteB_append _ _ _ (not_mem_queryEscape_61 k)

theorem valuesFor_subset_snd (k : Str) (P : List (Str × Str)) (v : Str)
    (h : v ∈ valuesFor k P) : ∃ p ∈ P, p.2 = v := by
  unfold valuesFor at h
  rcases List.mem_map.mp h with ⟨p, hp, he⟩
  exact ⟨p, (List.mem_filter.mp hp).1, he⟩

theorem filterMap_map_some (g : Str → Str) (f : Str → Option (Str × Str))
    (h2 : Str → Str × Str) (l : List Str)
    (h : ∀ a ∈ l, f (g a) = some (h2 a)) : (l.map g).filterMap f = l.map h2 := by
  induction l with
  | nil => rfl
  | cons a t ih =>
    simp only [List.map_cons, List.filterMap_cons, h a (List.mem_cons_self a t)]
    rw [ih fun x hx => h x (List.mem_cons_of_mem a hx)]

theorem filterMap_grouped (f : Str → Option (Str × Str)) (vs : Str → List Str)
    (enc2 : Str → Str → Str) (ks : List Str)
    (h : ∀ k ∈ ks, ∀ v ∈ vs k, f (enc2 k v) = some (k, v)) :
    (ks.flatMap fun k => (vs k).map (enc2 k)).filterMap f =
      ks.flatMap fun k => (vs k).map fun v => (k, v) := by
  induction ks with
  | nil => rfl
  | cons k t ih =>
    rw [List.flatMap_cons, List.flatMap_cons, List.filterMap_append]
    rw [filterMap_map_some (enc2 k) f (fun v => (k, v)) (vs k)
      (h k (List.mem_cons_self k t)),
      ih fun j hj v hv => h j (List.mem_cons_of_mem k hj) v hv]

theorem parseQueryPairs_valuesEncode (P : List (Str × Str))
    (hk : sortedKeysOf P ≠ [])
    (hb : ∀ p ∈ P, (∀ b ∈ p.1, b < 256) ∧ ∀ b ∈ p.2, b < 256) :
    parseQueryPairs (valuesEncode P) = groupedOf P := by
  have hbk : ∀ k ∈ sortedKeysOf P, ∀ b ∈ k, b < 256 := by
    intro k hkm b hbm
    rcases List.mem_map.mp ((mem_sortedKeysOf P k).mp hkm) with ⟨p, hp, he⟩
    exact (hb p hp).1 b (by rw [he]; exact hbm)
  have hbv : ∀ k, ∀ v ∈ valuesFor k P, ∀ b ∈ v, b < 256 := by
    intro k v hv b hbm
    rcases valuesFor_subset_snd k P v hv with ⟨p, hp, he⟩
    exact (hb p hp).2 b (by rw [he]; exact hbm)
  have henc : valuesEncode P = List.intercalate [38]
      ((sortedKeysOf P).flatMap fun k => (valuesFor k P).map fun v =>
        queryEscape k ++ [61] ++ queryEscape v) := rfl
  obtain ⟨k0, ks', hks⟩ : ∃ k0 ks', sortedKeysOf P = k0 :: ks' := by
    cases hsk : sortedKeysOf P with
    | nil => exact absurd hsk hk
    | cons a t => exact ⟨a, t, rfl⟩
  have hv0 : valuesFor k0 P ≠ [] := by
    apply valuesFor_ne_nil
    rw [← mem_sortedKeysOf, hks]
    exact List.mem_cons_self k0 ks'
  have hparts_ne : ((sortedKeysOf P).flatMap fun k => (valuesFor k P).map fun v =>
      queryEscape k ++ [61] ++ queryEscape v) ≠ [] := by
    rw [hks, List.flatMap_cons]
    intro hcon
    rcases List.append_eq_nil.mp hcon with ⟨h1, _⟩
    exact hv0 (List.map_eq_nil_iff.mp h1)
  have hparts_no38 : ∀ p ∈ ((sortedKeysOf P).flatMap fun k => (valuesFor k P).map fun v =>
      queryEscape k ++ [61] ++ queryEscape v), 38 ∉ p := by
    intro p hp
    rcases List.mem_flatMap.mp hp with ⟨k, _, hp2⟩
    rcases List.mem_map.mp hp2 with ⟨v, _, he⟩
    rw [← he]
    exact not_mem_enc 38 k v (not_mem_queryEscape_38 k) (not_mem_queryEscape_38 v) (by decide)
  have hpieces_ne : ∀ p ∈ ((sortedKeysOf P).flatMap fun k => (valuesFor k P).map fun v =>
      queryEscape k ++ [61] ++ queryEscape v), p ≠ [] := by
    intro p hp
    rcases List.mem_flatMap.mp hp with ⟨k, _, hp2⟩
    rcases List.mem_map.mp hp2 with ⟨v, _, he⟩
    rw [← he]
    exact enc_ne_nil k v
  have hqne : List.intercalate [38] ((sortedKeysOf P).flatMap fun k =>
      (valuesFor k P).map fun v => queryEscape k ++ [61] ++ queryEscape v) ≠ [] := by
    cases hp : (sortedKeysOf P).flatMap fun k => (valuesFor k P).map fun v =>
        queryEscape k ++ [61] ++ queryEscape v with
    | nil => exact absurd hp hparts_ne
    | cons piece rest =>
      cases rest with
      | nil =>
        rw [intercalate_singleton]
        exact hpieces_ne piece (by rw [hp]; exact List.mem_cons_self piece [])
      | cons q r =>
        rw [intercalate_cons_cons]
        intro hcon
        rcases List.append_eq_nil.mp hcon with ⟨_, h2⟩
        exact List.cons_ne_nil 38 _ h2
  rw [henc]
  unfold parseQueryPairs
  rw [if_neg hqne,
    splitOn_intercalate _ 38 hparts_ne hparts_no38]
  refine filterMap_grouped _ (fun k => valuesFor k P)
    (fun k v => queryEscape k ++ [61] ++ queryEscape v) (sortedKeysOf P) ?_
  intro k hkm v hvm
  have hkb := hbk k hkm
  have hvb := hbv k v hvm
  show (if (queryEscape k ++ [61]) ++ queryEscape v = [] then none
    else if containsB ((queryEscape k ++ [61]) ++ queryEscape v) [59] then none
    else
      let kv := cutByteB ((queryEscape k ++ [61]) ++ queryEscape v) 61
      match queryUnescape kv.1, queryUnescape (kv.2.getD []) with
      | some k2, some v2 => some (k2, v2)
      | _, _ => none) = some (k, v)
  rw [if_neg (enc_ne_nil k v),
    if_neg (by
      rw [containsB_single_not _ 59 (not_mem_enc 59 k v (not_mem_queryEscape_59 k)
        (not_mem_queryEscape_59 v) (by decide))]
      simp)]
  dsimp only
  rw [cutByteB_enc k v]
  dsimp only [Option.getD_some]
  rw [queryUnescape_queryEscape k hkb, queryUnescape_queryEscape v hvb]

theorem sortedKeysOf_groupedOf (P : List (Str × Str)) :
    sortedKeysOf (groupedOf P) = sortedKeysOf P :=
  sortedKeysOf_grouped_gen (fun k => valuesFor k P) (sortedKeysOf P) (sortedKeysOf_chain P)
    fun k hk => valuesFor_ne_nil P k ((mem_sortedKeysOf P k).mp hk)

theorem valuesFor_groupedOf (P : List (Str × Str)) (k : Str) (hk : k ∈ sortedKeysOf P) :
    valuesFor k (groupedOf P) = valuesFor k P :=
  valuesFor_grouped (fun j => valuesFor j P) (sortedKeysOf P)
    (chain_lt_pairwise_ne _ (sortedKeysOf_chain P)) k hk

theorem flatMap_congr_mem (l : List Str) (f g : Str → List Str)
    (h : ∀ a ∈ l, f a = g a) : l.flatMap f = l.flatMap g := by
  induction l with
  | nil => rfl
  | cons a t ih =>
    rw [List.flatMap_cons, List.flatMap_cons, h a (List.mem_cons_self a t),
      ih fun x hx => h x (List.mem_cons_of_mem a hx)]

theorem valuesEncode_groupedOf (P : List (Str × Str)) :
    valuesEncode (groupedOf P) = valuesEncode P := by
  unfold valuesEncode
  rw [sortedKeysOf_groupedOf]
  congr 1
  apply flatMap_congr_mem
  intro k hk
  rw [valuesFor_groupedOf P k hk]

theorem delTracking_groupedOf (P : List (Str × Str))
    (h : ∀ p ∈ P, p.1 ∉ trackingParams) : delTracking (groupedOf P) = groupedOf P := by
  unfold delTracking
  apply List.filter_eq_self.mpr
  intro p hp
  have h1 : p.1 ∈ sortedKeysOf P := mem_grouped_fst _ _ p hp
  rcases List.mem_map.mp ((mem_sortedKeysOf P p.1).mp h1) with ⟨q, hq, he⟩
  simp only [decide_eq_true_eq]
  rw [← he]
  exact h q hq

theorem delTracking_keys (Q : List (Str × Str)) :
    ∀ p ∈ delTracking Q, p.1 ∉ trackingParams := by
  intro p hp
  have := (List.mem_filter.mp hp).2
  simpa using this

theorem delTracking_subset (Q : List (Str × Str)) : delTracking Q ⊆ Q :=
  fun _ hp => (List.mem_filter.mp hp).1

theorem valuesEncode_ne_nil (P : List (Str × Str)) (hk : sortedKeysOf P ≠ []) :
    valuesEncode P ≠ [] := by
  obtain ⟨k0, ks', hks⟩ : ∃ k0 ks', sortedKeysOf P = k0 :: ks' := by
    cases hsk : sortedKeysOf P with
    | nil => exact absurd hsk hk
    | cons a t => exact ⟨a, t, rfl⟩
  have hv0 : valuesFor k0 P ≠ [] := by
    apply valuesFor_ne_nil
    rw [← mem_sortedKeysOf, hks]
    exact List.mem_cons_self k0 ks'
  have hparts_ne : ((sortedKeysOf P).flatMap fun k => (valuesFor k P).map fun v =>
      queryEscape k ++ [61] ++ queryEscape v) ≠ [] := by
    rw [hks, List.flatMap_cons]
    intro hcon
    rcases List.append_eq_nil.mp hcon with ⟨h1, _⟩
    exact hv0 (List.map_eq_nil_iff.mp h1)
  have hpieces_ne : ∀ p ∈ ((sortedKeysOf P).flatMap fun k => (valuesFor k P).map fun v =>
      queryEscape k ++ [61] ++ queryEscape v), p ≠ [] := by
    intro p hp
    rcases List.mem_flatMap.mp hp with ⟨k, _, hp2⟩
    rcases List.mem_map.mp hp2 with ⟨v, _, he⟩
    rw [← he]
    exact enc_ne_nil k v
  show List.intercalate [38] ((sortedKeysOf P).flatMap fun k =>
      (valuesFor k P).map fun v => queryEscape k ++ [61] ++ queryEscape v) ≠ []
  cases hp : (sortedKeysOf P).flatMap fun k => (valuesFor k P).map fun v =>
      queryEscape k ++ [61] ++ queryEscape v with
  | nil => exact absurd hp hparts_ne
  | cons piece rest =>
    cases rest with
    | nil =>
      rw [intercalate_singleton]
      exact hpieces_ne piece (by rw [hp]; exact List.mem_cons_self piece [])
    | cons q r =>
      rw [intercalate_cons_cons]
      intro hcon
      rcases List.append_eq_nil.mp hcon with ⟨_, h2⟩
      exact List.cons_ne_nil 38 _ h2

theorem mem_intercalate (c : Nat) (parts : List Str) (x : Nat)
    (h : x ∈ List.intercalate [c] parts) : x = c ∨ ∃ p ∈ parts, x ∈ p := by
  induction parts with
  | nil => simp [List.intercalate] at h
  | cons p rest ih =>
    cases rest with
    | nil =>
      rw [intercalate_singleton] at h
      exact Or.inr ⟨p, List.mem_cons_self p [], h⟩
    | cons q r =>
      rw [intercalate_cons_cons] at h
      rcases List.mem_append.mp h with h1 | h2
      · exact Or.inr ⟨p, List.mem_cons_self p _, h1⟩
      · rcases List.mem_cons.mp h2 with rfl | h3
        · exact Or.inl rfl
        · rcases ih h3 with h4 | ⟨p2, hp2, hx2⟩
          · exact Or.inl h4
          · exact Or.inr ⟨p2, List.mem_cons_of_mem p hp2, hx2⟩

theorem not_mem_valuesEncode_35 (P : List (Str × Str)) : 35 ∉ valuesEncode P := by
  intro hm
  rcases mem_intercalate 38 _ 35 hm with he | ⟨p, hp, hx⟩
  · exact absurd he (by decide)
  · rcases List.mem_flatMap.mp hp with ⟨k, _, hp2⟩
    rcases List.mem_map.mp hp2 with ⟨v, _, he2⟩
    rw [← he2] at hx
    exact not_mem_enc 35 k v (not_mem_queryEscape_35 k) (not_mem_queryEscape_35 v)
      (by decide) hx

theorem hexVal_lt (b h : Nat) (he : hexVal b = some h) : h < 16 := by
  unfold hexVal at he
  split_ifs at he <;> simp only [Option.some.injEq] at he <;> omega

theorem queryUnescape_lt :
    ∀ (n : Nat) (s : Str), s.length ≤ n → ∀ r, queryUnescape s = some r →
      (∀ b ∈ s, b < 256) → ∀ b ∈ r, b < 256 := by
  intro n
  induction n with
  | zero =>
    intro s hs r he _
    cases s with
    | nil =>
      have : r = [] := by
        simp only [queryUnescape, Option.some.injEq] at he
        exact he.symm
      subst this
      intro b hb
      exact absurd hb (List.not_mem_nil b)
    | cons c t => simp at hs
  | succ n ih =>
    intro s hs r he hb
    cases s with
    | nil =>
      have : r = [] := by
        simp only [queryUnescape, Option.some.injEq] at he
        exact he.symm
      subst this
      intro b hb2
      exact absurd hb2 (List.not_mem_nil b)
    | cons c t =>
      have htb : ∀ b ∈ t, b < 256 := fun b hbm => hb b (List.mem_cons_of_mem c hbm)
      by_cases hc : c = 37
      · subst hc
        cases t with
        | nil =>
          rw [queryUnescape.eq_def] at he
          simp at he
        | cons x t1 =>
          cases t1 with
          | nil =>
            rw [queryUnescape.eq_def] at he
            simp at he
          | cons y t2 =>
            rw [queryUnescape.eq_def] at he
            simp only [reduceIte] at he
            cases hx : hexVal x with
            | none => rw [hx] at he; exact absurd he (by simp)
            | some hxv =>
              cases hy : hexVal y with
              | none => rw [hx, hy] at he; exact absurd he (by simp)
              | some hyv =>
                rw [hx, hy] at he
                simp only [Option.some_bind] at he
                cases hq : queryUnescape t2 with
                | none => rw [hq] at he; exact absurd he (by simp)
                | some r2 =>
                  rw [hq] at he
                  simp only [Option.map_some', Option.some.injEq] at he
                  subst he
                  intro b hbm
                  rcases List.mem_cons.mp hbm with rfl | hbm2
                  · have hx16 := hexVal_lt x hxv hx
                    have hy16 := hexVal_lt y hyv hy
                    omega
                  · refine ih t2 (by simp at hs; omega) r2 hq ?_ b hbm2
                    intro z hz
                    exact htb z (List.mem_cons_of_mem x (List.mem_cons_of_mem y hz))
      · by_cases hc43 : c = 43
        · subst hc43
          rw [queryUnescape.eq_def] at he
          simp only at he
          rw [if_neg (by decide : ¬(43 : Nat) = 37), if_pos trivial] at he
          cases hq : queryUnescape t with
          | none => rw [hq] at he; exact absurd he (by simp)
          | some r2 =>
            rw [hq] at he
            simp only [Option.map_some', Option.some.injEq] at he
            subst he
            intro b hbm
            rcases List.mem_cons.mp hbm with rfl | hbm2
            · omega
            · exact ih t (by simp at hs; omega) r2 hq htb b hbm2
        · rw [queryUnescape.eq_def] at he
          simp only [if_neg hc, if_neg hc43] at he
          cases hq : queryUnescape t with
          | none => rw [hq] at he; exact absurd he (by simp)
          | some r2 =>
            rw [hq] at he
            simp only [Option.map_some', Option.some.injEq] at he
            subst he
            intro b hbm
            rcases List.mem_cons.mp hbm with rfl | hbm2
            · exact hb b (List.mem_cons_self b t)
            · exact ih t (by simp at hs; omega) r2 hq htb b hbm2

theorem splitOnByteB_subset (s : Str) (c : Nat) : ∀ p ∈ splitOnByteB s c, p ⊆ s := by
  induction s with
  | nil =>
    intro p hp
    simp only [splitOnByteB, List.mem_singleton] at hp
    subst hp
    exact fun x hx => absurd hx (List.not_mem_nil x)
  | cons b t ih =>
    intro p hp
    simp only [splitOnByteB] at hp
    split_ifs at hp with h
    · rcases List.mem_cons.mp hp with rfl | hp2
      · exact fun x hx => absurd hx (List.not_mem_nil x)
      · exact fun x hx => List.mem_cons_of_mem b (ih p hp2 hx)
    · cases hs : splitOnByteB t c with
      | nil =>
        rw [hs] at hp
        simp only [List.mem_singleton] at hp
        subst hp
        intro x hx
        rcases List.mem_singleton.mp hx with rfl
        exact List.mem_cons_self x t
      | cons h0 r =>
        rw [hs] at hp
        rcases List.mem_cons.mp hp with rfl | hp2
        · intro x hx
          rcases List.mem_cons.mp hx with rfl | hx2
          · exact List.mem_cons_self x t
          · exact List.mem_cons_of_mem b (ih h0 (by rw [hs]; exact List.mem_cons_self h0 r) hx2)
        · exact fun x hx => List.mem_cons_of_mem b
            (ih p (by rw [hs]; exact List.mem_cons_of_mem h0 hp2) hx)

theorem parseQueryPairs_bytes (q : Str) (hq : ∀ b ∈ q, b < 256) :
    ∀ p ∈ parseQueryPairs q, (∀ b ∈ p.1, b < 256) ∧ ∀ b ∈ p.2, b < 256 := by
  intro p hp
  unfold parseQueryPairs at hp
  split_ifs at hp with h
  · exact absurd hp (List.not_mem_nil p)
  · rcases List.mem_filterMap.mp hp with ⟨piece, hpiece, hfp⟩
    have hpsub : piece ⊆ q := splitOnByteB_subset q 38 piece hpiece
    have hpb : ∀ b ∈ piece, b < 256 := fun b hbm => hq b (hpsub hbm)
    by_cases h1 : piece = []
    · rw [if_pos h1] at hfp
      exact absurd hfp (by simp)
    · rw [if_neg h1] at hfp
      by_cases h2 : containsB piece [59] = true
      · rw [if_pos h2] at hfp
        exact absurd hfp (by simp)
      · rw [if_neg h2] at hfp
        cases hsplit2 : cutByteB piece 61 with
          | mk kp vp =>
            rw [hsplit2] at hfp
            simp only at hfp
            have hkb : ∀ b ∈ kp, b < 256 := by
              intro b hbm
              refine hpb b (cutByteB_fst_subset piece 61 ?_)
              rw [hsplit2]
              exact hbm
            have hvb : ∀ b ∈ vp.getD [], b < 256 := by
              cases vp with
              | none =>
                intro b hbm
                exact absurd hbm (List.not_mem_nil b)
              | some rr =>
                intro b hbm
                refine hpb b (cutByteB_snd_subset piece 61 rr ?_ hbm)
                rw [hsplit2]
            cases hu1 : queryUnescape kp with
            | none =>
              rw [hu1] at hfp
              cases hu2 : queryUnescape (vp.getD []) with
              | none => rw [hu2] at hfp; exact absurd hfp (by simp)
              | some v2 => rw [hu2] at hfp; exact absurd hfp (by simp)
            | some k2 =>
              rw [hu1] at hfp
              cases hu2 : queryUnescape (vp.getD []) with
              | none => rw [hu2] at hfp; exact absurd hfp (by simp)
              | some v2 =>
                rw [hu2] at hfp
                simp only [Option.some.injEq] at hfp
                subst hfp
                constructor
                · exact queryUnescape_lt kp.length _ (le_refl _) k2 hu1 hkb
                · exact queryUnescape_lt (vp.getD []).length _ (le_refl _) v2 hu2 hvb

theorem urlParse_shape (s : Str) (u : GoURL) (hu : urlParse s = some u) :
    schemeShapeB u.scheme = true ∧
    47 ∉ u.host ∧ 63 ∉ u.host ∧ 35 ∉ u.host ∧
    63 ∉ u.path ∧ 35 ∉ u.path ∧
    (u.host ≠ [] → u.path = [] ∨ ∃ p, u.path = 47 :: p) ∧
    35 ∉ u.rawQuery := by
  have h35 : 35 ∉ (cutByteB s 35).1 := cutByteB_fst_not_mem s 35
  have h63 : 63 ∉ (cutByteB (cutByteB s 35).1 63).1 := cutByteB_fst_not_mem _ 63
  have h35q2 : 35 ∉ (cutByteB (cutByteB s 35).1 63).1 :=
    fun hm => h35 (cutByteB_fst_subset _ 63 hm)
  have hq35 : 35 ∉ ((cutByteB (cutByteB s 35).1 63).2.getD []) := by
    cases hqc : (cutByteB (cutByteB s 35).1 63).2 with
    | none =>
      intro hm
      simp at hm
    | some r =>
      intro hm
      exact h35 (cutByteB_snd_subset _ 63 r hqc (by simpa using hm))
  unfold urlParse at hu
  simp only at hu
  cases hgs : getScheme (cutByteB (cutByteB s 35).1 63).1 with
  | none =>
    rw [hgs] at hu
    exact absurd hu (by simp)
  | some pr =>
    obtain ⟨sc, rest⟩ := pr
    rw [hgs] at hu
    simp only at hu
    have hshape := getScheme_shape _ sc rest hgs
    have hsc35 : 35 ∉ rest := fun hm => h35q2 (hshape.2 hm)
    have hsc63 : 63 ∉ rest := fun hm => h63 (hshape.2 hm)
    by_cases hsw : startsWithB rest (bs "//") = true
    · rw [if_pos hsw] at hu
      have hdsub : rest.drop 2 ⊆ rest := List.drop_subset 2 rest
      have hh47 : 47 ∉ (cutByteB (rest.drop 2) 47).1 := cutByteB_fst_not_mem _ 47
      have hh63 : 63 ∉ (cutByteB (rest.drop 2) 47).1 :=
        fun hm => hsc63 (hdsub (cutByteB_fst_subset _ 47 hm))
      have hh35 : 35 ∉ (cutByteB (rest.drop 2) 47).1 :=
        fun hm => hsc35 (hdsub (cutByteB_fst_subset _ 47 hm))
      cases hac : (cutByteB (rest.drop 2) 47).2 with
      | some p =>
        rw [hac] at hu
        simp only [Option.some.injEq] at hu
        subst hu
        refine ⟨hshape.1, hh47, hh63, hh35, ?_, ?_, ?_, hq35⟩
        · intro hm
          rcases List.mem_cons.mp hm with he | hm2
          · exact absurd he (by decide)
          · exact hsc63 (hdsub (cutByteB_snd_subset _ 47 p hac hm2))
        · intro hm
          rcases List.mem_cons.mp hm with he | hm2
          · exact absurd he (by decide)
          · exact hsc35 (hdsub (cutByteB_snd_subset _ 47 p hac hm2))
        · intro _
          exact Or.inr ⟨p, rfl⟩
      | none =>
        rw [hac] at hu
        simp only [Option.some.injEq] at hu
        subst hu
        refine ⟨hshape.1, hh47, hh63, hh35, ?_, ?_, ?_, hq35⟩
        · intro hm
          exact absurd hm (List.not_mem_nil 63)
        · intro hm
          exact absurd hm (List.not_mem_nil 35)
        · intro _
          exact Or.inl rfl
    · rw [if_neg hsw] at hu
      simp only [Option.some.injEq] at hu
      subst hu
      refine ⟨hshape.1, ?_, ?_, ?_, hsc63, hsc35, ?_, hq35⟩
      · exact List.not_mem_nil 47
      · exact List.not_mem_nil 63
      · exact List.not_mem_nil 35
      · intro hcon
        exact absurd rfl hcon

theorem cutByteB_opt (T q : Str) (c : Nat) (hT : c ∉ T) :
    cutByteB (T ++ (if q ≠ [] then c :: q else [])) c =
      (T, if q ≠ [] then some q else none) := by
  by_cases hq : q = []
  · rw [if_neg (fun hne => hne hq), if_neg (fun hne => hne hq), List.append_nil,
      cutByteB_not_mem T c hT]
  · rw [if_pos hq, if_pos hq]
    exact cutByteB_append T q c hT

theorem optGetD (q : Str) : (if q ≠ [] then some q else none).getD [] = q := by
  by_cases hq : q = []
  · rw [if_neg (fun hne => hne hq), hq]
    rfl
  · rw [if_pos hq]
    rfl

theorem urlParse_urlString (v : GoURL)
    (hsc : schemeShapeB v.scheme = true)
    (hhost_ne : v.host ≠ [])
    (hh47 : 47 ∉ v.host) (hh63 : 63 ∉ v.host) (hh35 : 35 ∉ v.host)
    (hp63 : 63 ∉ v.path) (hp35 : 35 ∉ v.path)
    (hpshape : v.path = [] ∨ ∃ p, v.path = 47 :: p)
    (hq35 : 35 ∉ v.rawQuery) :
    urlParse (urlString v) = some v := by
  obtain ⟨sc, host, path, query, frag⟩ := v
  dsimp only at hsc hhost_ne hh47 hh63 hh35 hp63 hp35 hpshape hq35
  have hsc35 : 35 ∉ sc := schemeShapeB_not_mem sc hsc 35 (by decide)
  have hsc63 : 63 ∉ sc := schemeShapeB_not_mem sc hsc 63 (by decide)
  have hcond : (sc ≠ [] ∨ host ≠ []) ∧ (host ≠ [] ∨ path ≠ []) :=
    ⟨Or.inr hhost_ne, Or.inl hhost_ne⟩
  have hstr : urlString ⟨sc, host, path, query, frag⟩ =
      ((((if sc ≠ [] then sc ++ [58] else []) ++ bs "//" ++ host ++ path) ++
        (if query ≠ [] then 63 :: query else [])) ++
        (if frag ≠ [] then 35 :: frag else [])) := by
    unfold urlString
    dsimp only
    rw [if_pos hcond]
  have hA35 : 35 ∉ (if sc ≠ [] then sc ++ [58] else []) := by
    split_ifs with h
    · intro hm
      rcases List.mem_append.mp hm with h1 | h2
      · exact hsc35 h1
      · exact absurd (List.mem_singleton.mp h2) (by decide)
    · exact List.not_mem_nil 35
  have hA63 : 63 ∉ (if sc ≠ [] then sc ++ [58] else []) := by
    split_ifs with h
    · intro hm
      rcases List.mem_append.mp hm with h1 | h2
      · exact hsc63 h1
      · exact absurd (List.mem_singleton.mp h2) (by decide)
    · exact List.not_mem_nil 63
  have hT35 : 35 ∉ ((if sc ≠ [] then sc ++ [58] else []) ++ bs "//" ++ host ++ path) ++
      (if query ≠ [] then 63 :: query else []) := by
    intro hm
    rcases List.mem_append.mp hm with h1 | h2
    · rcases List.mem_append.mp h1 with h3 | h4
      · rcases List.mem_append.mp h3 with h5 | h6
        · rcases List.mem_append.mp h5 with h7 | h8
          · exact hA35 h7
          · exact absurd h8 (by decide)
        · exact hh35 h6
      · exact hp35 h4
    · revert h2
      split_ifs with h
      · intro h2
        rcases List.mem_cons.mp h2 with he | hm2
        · exact absurd he (by decide)
        · exact hq35 hm2
      · exact List.not_mem_nil 35
  have hS63 : 63 ∉ (if sc ≠ [] then sc ++ [58] else []) ++ bs "//" ++ host ++ path := by
    intro hm
    rcases List.mem_append.mp hm with h1 | h2
    · rcases List.mem_append.mp h1 with h3 | h4
      · rcases List.mem_append.mp h3 with h5 | h6
        · exact hA63 h5
        · exact absurd h6 (by decide)
      · exact hh63 h4
    · exact hp63 h2
  have hgs2 : getScheme ((if sc ≠ [] then sc ++ [58] else []) ++ bs "//" ++ host ++ path) =
      some (sc, bs "//" ++ (host ++ path)) := by
    by_cases h : sc = []
    · subst h
      rw [if_neg (fun hne => hne rfl)]
      simp only [List.nil_append, List.append_assoc]
      rw [show (bs "//") = [47, 47] from by decide]
      exact getScheme_slash (47 :: (host ++ path))
    · rw [if_pos h]
      simp only [List.append_assoc]
      rw [List.singleton_append]
      exact getScheme_append sc _ h hsc
  have hsw : startsWithB (bs "//" ++ (host ++ path)) (bs "//") = true :=
    startsWithB_append (bs "//") (host ++ path)
  have hdrop : (bs "//" ++ (host ++ path)).drop 2 = host ++ path := by
    rw [show (bs "//") = [47, 47] from by decide]
    rfl
  rw [hstr]
  simp only [urlParse]
  rw [cutByteB_opt _ frag 35 hT35]
  dsimp only
  rw [cutByteB_opt _ query 63 hS63]
  dsimp only
  rw [hgs2]
  dsimp only
  rw [if_pos hsw, hdrop]
  rcases hpshape with hpe | ⟨p, hpc⟩
  · subst hpe
    rw [List.append_nil, cutByteB_not_mem host 47 hh47]
    dsimp only
    rw [optGetD query, optGetD frag]
  · subst hpc
    rw [cutByteB_append host p 47 hh47]
    dsimp only
    rw [optGetD query, optGetD frag]

theorem canonicalizeURL_parse (s : Str) (u : GoURL) (hu : urlParse s = some u)
    (hh : u.host ≠ []) : canonicalizeURL s = urlString (canonOf u) := by
  unfold canonicalizeURL
  rw [hu]
  dsimp only
  rw [if_neg hh]
  rfl

theorem canonHost_subset (sc h0 : Str) : canonHost sc h0 ⊆ h0 := by
  unfold canonHost
  split_ifs
  · exact splitHostPort_fst_subset h0
  · exact fun x hx => hx

theorem canonOf_fix (v : GoURL)
    (hs : toLowerB v.scheme = v.scheme)
    (hhost : toLowerB v.host = v.host)
    (hport : ¬((v.scheme = bs "http" ∧ portOf v.host = bs "80") ∨
               (v.scheme = bs "https" ∧ portOf v.host = bs "443")))
    (hq : canonQuery v.rawQuery = v.rawQuery) :
    canonOf v = v := by
  unfold canonOf canonHost
  rw [hs, hhost, if_neg hport, hq]

theorem canonQuery_idem (q : Str) (h256 : ∀ b ∈ q, b < 256) :
    canonQuery (canonQuery q) = canonQuery q := by
  by_cases hq : q = []
  · subst hq
    rfl
  · have hbp := parseQueryPairs_bytes q h256
    have hbP : ∀ p ∈ delTracking (parseQueryPairs q),
        (∀ b ∈ p.1, b < 256) ∧ ∀ b ∈ p.2, b < 256 :=
      fun p hp => hbp p (delTracking_subset _ hp)
    have htrk := delTracking_keys (parseQueryPairs q)
    by_cases hkeys : sortedKeysOf (delTracking (parseQueryPairs q)) = []
    · have h1 : canonQuery q = [] := by
        unfold canonQuery
        rw [if_pos hq, if_neg (fun hne => hne hkeys)]
      rw [h1]
      rfl
    · have hne2 : valuesEncode (delTracking (parseQueryPairs q)) ≠ [] :=
        valuesEncode_ne_nil _ hkeys
      have h1 : canonQuery q = valuesEncode (delTracking (parseQueryPairs q)) := by
        unfold canonQuery
        rw [if_pos hq, if_pos hkeys]
      rw [h1]
      unfold canonQuery
      rw [if_pos hne2, parseQueryPairs_valuesEncode _ hkeys hbP,
        delTracking_groupedOf _ htrk, sortedKeysOf_groupedOf, if_pos hkeys]
      exact valuesEncode_groupedOf _

theorem canonQuery_not_mem_35 (q : Str) (h : 35 ∉ q) : 35 ∉ canonQuery q := by
  unfold canonQuery
  split_ifs
  · exact not_mem_valuesEncode_35 _
  · exact List.not_mem_nil 35
  · exact h

theorem canonicalizeURL_idem (s : Str) (u : GoURL)
    (hu : urlParse s = some u)
    (hq256 : ∀ b ∈ u.rawQuery, b < 256)
    (hport2 : ¬((toLowerB u.scheme = bs "http" ∧
        portOf (hostnameOf (toLowerB u.host)) = bs "80") ∨
      (toLowerB u.scheme = bs "https" ∧
        portOf (hostnameOf (toLowerB u.host)) = bs "443")))
    (hhn : hostnameOf (toLowerB u.host) ≠ []) :
    canonicalizeURL (canonicalizeURL s) = canonicalizeURL s := by
  by_cases hh : u.host = []
  · have h1 : canonicalizeURL s = [] := by
      unfold canonicalizeURL
      rw [hu]
      dsimp only
      rw [if_pos hh]
    rw [h1]
    decide
  · have hcan : canonicalizeURL s = urlString (canonOf u) := canonicalizeURL_parse s u hu hh
    obtain ⟨hsq, hh47, hh63, hh35, hp63, hp35, hps, hq35⟩ := urlParse_shape s u hu
    have hlow47 : 47 ∉ toLowerB u.host := not_mem_toLowerB 47 _ (by omega) hh47
    have hlow63 : 63 ∉ toLowerB u.host := not_mem_toLowerB 63 _ (by omega) hh63
    have hlow35 : 35 ∉ toLowerB u.host := not_mem_toLowerB 35 _ (by omega) hh35
    have hv47 : 47 ∉ canonHost (toLowerB u.scheme) (toLowerB u.host) :=
      fun hm => hlow47 (canonHost_subset _ _ hm)
    have hv63 : 63 ∉ canonHost (toLowerB u.scheme) (toLowerB u.host) :=
      fun hm => hlow63 (canonHost_subset _ _ hm)
    have hv35 : 35 ∉ canonHost (toLowerB u.scheme) (toLowerB u.host) :=
      fun hm => hlow35 (canonHost_subset _ _ hm)
    have hvne : canonHost (toLowerB u.scheme) (toLowerB u.host) ≠ [] := by
      unfold canonHost
      split_ifs
      · exact hhn
      · exact toLowerB_ne_nil u.host hh
    have hvlow : toLowerB (canonHost (toLowerB u.scheme) (toLowerB u.host)) =
        canonHost (toLowerB u.scheme) (toLowerB u.host) :=
      toLowerB_fixed _ fun x hx =>
        lowerByte_fixed_of_mem_lower x u.host (canonHost_subset _ _ hx)
    have hvport : ¬((toLowerB u.scheme = bs "http" ∧
          portOf (canonHost (toLowerB u.scheme) (toLowerB u.host)) = bs "80") ∨
        (toLowerB u.scheme = bs "https" ∧
          portOf (canonHost (toLowerB u.scheme) (toLowerB u.host)) = bs "443")) := by
      unfold canonHost
      split_ifs with hcond
      · exact hport2
      · exact hcond
    have hrepv : urlParse (urlString (canonOf u)) = some (canonOf u) :=
      urlParse_urlString (canonOf u) (schemeShapeB_toLowerB _ hsq) hvne hv47 hv63 hv35
        hp63 hp35 (hps hh) (canonQuery_not_mem_35 _ hq35)
    have h2 : canonicalizeURL (urlString (canonOf u)) = urlString (canonOf (canonOf u)) :=
      canonicalizeURL_parse _ (canonOf u) hrepv hvne
    have h3 : canonOf (canonOf u) = canonOf u :=
      canonOf_fix (canonOf u) (toLowerB_idem _) hvlow hvport (canonQuery_idem _ hq256)
    rw [hcan, h2, h3]

theorem cleanURL_eq (s : Str) : cleanURL s = canonicalizeURL (stripArtifacts s) := rfl

/-- C4, counterexample: `%2E` in a query decodes to `.`, re-encodes bare,
and the second pass trims it as trailing punctuation. -/
theorem C4_counterexample :
    cleanURL (bs "http://e.com/?a=b%2E") ≠ [] ∧
    cleanURL (bs "http://e.com/?a=b%2E") = bs "http://e.com/?a=b." ∧
    cleanURL (cleanURL (bs "http://e.com/?a=b%2E")) ≠ cleanURL (bs "http://e.com/?a=b%2E") := by
  refine ⟨by decide, by decide, by decide⟩

/-- C4, amended. -/
theorem C4_clean_idempotent (s : Str) (u : GoURL)
    (hu : urlParse (stripArtifacts s) = some u)
    (hq256 : ∀ b ∈ u.rawQuery, b < 256)
    (hport2 : ¬((toLowerB u.scheme = bs "http" ∧
        portOf (hostnameOf (toLowerB u.host)) = bs "80") ∨
      (toLowerB u.scheme = bs "https" ∧
        portOf (hostnameOf (toLowerB u.host)) = bs "443")))
    (hhn : hostnameOf (toLowerB u.host) ≠ [])
    (hstrip : stripArtifacts (cleanURL s) = cleanURL s) :
    cleanURL (cleanURL s) = cleanURL s := by
  calc cleanURL (cleanURL s) = canonicalizeURL (stripArtifacts (cleanURL s)) := rfl
    _ = canonicalizeURL (cleanURL s) := by rw [hstrip]
    _ = canonicalizeURL (canonicalizeURL (stripArtifacts s)) := by rw [cleanURL_eq]
    _ = canonicalizeURL (stripArtifacts s) := canonicalizeURL_idem _ u hu hq256 hport2 hhn
    _ = cleanURL s := rfl

theorem C4_clean_idempotent_witness :
    cleanURL (cleanURL (bs "https://EXAMPLE.com/path?b=2&a=1")) =
      cleanURL (bs "https://EXAMPLE.com/path?b=2&a=1") :=
  C4_clean_idempotent (bs "https://EXAMPLE.com/path?b=2&a=1")
    ⟨bs "https", bs "EXAMPLE.com", bs "/path", bs "b=2&a=1", []⟩
    (by decide) (by decide) (by decide) (by decide) (by decide)

end RfpVerify

